import Mathlib

/-!
# Verification of the Tableview grid editor (src/Tableview.tsx)

Shallow embedding of the interactive grid editor: the grid document model,
its edit operations (create / add row / add column / set value / checkbox
toggle / merge / unmerge / blank / unblank), the serialization round trip
through the external attribute store, the pointer-event selection state
machine, the auto-save debounce timeline, and the cell-id parser.

Modelling conventions (all justified against the source):
* Cell identity strings `cell_<r>_<c>` are modelled by the pair `(r, c)`;
  the encoding is injective, and every place the source builds or consumes
  such an id does so with the numeric row/column pair.  The raw string
  parser `parseCellId` is modelled separately at character-list level for
  the parser claims.
* Merge-group ids `r1_c1_r2_c2` (strings built by `createMergeId`) are
  modelled by the 4-tuple; `""` (no group) is `none`.
* Row identity strings `row_<i>` are modelled by the number `i`.
* JavaScript `Set<string>` selections are modelled as duplicate-free lists
  of `(row, col)` pairs in insertion order; `size` is `length`, `has` is
  membership, `add` appends when absent, `delete` filters out.
* The `isSelected` field of the source's `CellObject` is identically
  `false` at every creation site and never written `true` anywhere, so it
  is dropped from the model.
* The `metadata.updatedAt` timestamp written by `saveToBackend` is never
  read by the load path, so it is dropped from the serialized form.
* JavaScript numbers in the document are modelled as `Nat` (the source
  only produces non-negative integers in these fields).
-/

set_option maxHeartbeats 1000000

/-- Merge-group identifier `(r1, c1, r2, c2)`: the source's string
`createMergeId(r1,c1,r2,c2) = "r1_c1_r2_c2"`, an injective encoding of the
rectangle corners. -/
abbrev MergeGroupId := Nat × Nat × Nat × Nat

/-- The source's `CellObject` interface (Tableview.tsx lines 7-21), minus
the constantly-false `isSelected` field. -/
structure CellObject where
  id : Nat × Nat
  sequenceNumber : String
  isBlocked : Bool
  isMerged : Bool
  mergeId : Option MergeGroupId
  isBlank : Bool
  rowIndex : Nat
  columnIndex : Nat
  checked : Bool
  rowSpan : Nat
  colSpan : Nat
  isHidden : Bool
deriving DecidableEq, Repr

/-- The source's `TableRow` interface. -/
structure TableRow where
  id : Nat
  rowIndex : Nat
  cells : List CellObject
deriving DecidableEq, Repr

/-- The component's grid state: the `rowCount`, `columnCount` and
`tableRows` React state variables. -/
structure TableState where
  rowCount : Nat
  columnCount : Nat
  tableRows : List TableRow
deriving DecidableEq, Repr

/-- The source's `TableData` interface: the serialized document form
(`{rows, columns, tableRows, metadata}`), minus the unread metadata. -/
structure TableData where
  rows : Nat
  columns : Nat
  tableRows : List TableRow
deriving DecidableEq, Repr

/-- Mutate the first element satisfying `p` (the JS pattern
`list.find(p)` followed by in-place mutation of the found object). -/
def updateFirstBy (p : α → Bool) (f : α → α) : List α → List α
  | [] => []
  | x :: xs => if p x then f x :: xs else x :: updateFirstBy p f xs

/-- `rows.find(r => r.rowIndex === r)?.cells.find(c => c.columnIndex === c)` —
the cell lookup used by every edit operation. -/
def findCellRows (rows : List TableRow) (r c : Nat) : Option CellObject :=
  (rows.find? (fun row => row.rowIndex == r)).bind
    (fun row => row.cells.find? (fun cl => cl.columnIndex == c))

/-- Lookup-and-mutate of the cell found by `findCellRows`. -/
def updateCellRows (rows : List TableRow) (r c : Nat) (f : CellObject → CellObject) :
    List TableRow :=
  updateFirstBy (fun row => row.rowIndex == r)
    (fun row => { row with cells := updateFirstBy (fun cl => cl.columnIndex == c) f row.cells })
    rows

/-- `rows.forEach(r => r.cells.forEach(c => ...))` applying a per-cell
mutation everywhere. -/
def mapCells (f : CellObject → CellObject) (rows : List TableRow) : List TableRow :=
  rows.map (fun row => { row with cells := row.cells.map f })

/-- The positions visited by the source's nested
`for (r = r1..r2) for (c = c1..c2)` loops, in loop order. -/
def rectPositions (r1 c1 r2 c2 : Nat) : List (Nat × Nat) :=
  (List.range' r1 (r2 + 1 - r1)).flatMap
    (fun r => (List.range' c1 (c2 + 1 - c1)).map (fun c => (r, c)))

/-- `buildRectSet` (Tableview.tsx lines 55-61): all cell addresses in the
rectangle spanned by two corners, in insertion order. -/
def buildRectSet (r1 c1 r2 c2 : Nat) : List (Nat × Nat) :=
  rectPositions (min r1 r2) (min c1 c2) (max r1 r2) (max c1 c2)

/-- A freshly created cell (same literal at every creation site of the
source: `createNewTable`, `addRow`, `addColumn`). -/
def defaultCell (r c : Nat) : CellObject :=
  { id := (r, c), sequenceNumber := "-", isBlocked := false, isMerged := false,
    mergeId := none, isBlank := false, rowIndex := r, columnIndex := c,
    checked := false, rowSpan := 1, colSpan := 1, isHidden := false }

/-- A freshly created row of `cols` default cells. -/
def defaultRow (ri cols : Nat) : TableRow :=
  { id := ri, rowIndex := ri,
    cells := (List.range cols).map (fun cIdx => defaultCell ri (cIdx + 1)) }

/-- The row array built by `createNewTable`. -/
def makeTableRows (rows cols : Nat) : List TableRow :=
  (List.range rows).map (fun idx => defaultRow (idx + 1) cols)

/-- `createNewTable` (Tableview.tsx lines 205-226): rejects non-positive
dimensions (`if (rows <= 0 || cols <= 0) return`), otherwise builds the
fresh default grid.  The selection is reset to empty by the same handler. -/
def createNewTable (rows cols : Nat) : Option TableState :=
  if rows = 0 ∨ cols = 0 then none
  else some { rowCount := rows, columnCount := cols, tableRows := makeTableRows rows cols }

/-- `addRow` (Tableview.tsx lines 252-274): append one default row, capped
at 100 rows. -/
def addRow (g : TableState) : TableState :=
  if g.rowCount + 1 > 100 then g
  else
    { rowCount := g.rowCount + 1, columnCount := g.columnCount,
      tableRows := g.tableRows ++ [defaultRow (g.rowCount + 1) g.columnCount] }

/-- `addColumn` (Tableview.tsx lines 276-297): append one default cell to
every row, capped at 100 columns. -/
def addColumn (g : TableState) : TableState :=
  if g.columnCount + 1 > 100 then g
  else
    { rowCount := g.rowCount, columnCount := g.columnCount + 1,
      tableRows := g.tableRows.map
        (fun row => { row with cells := row.cells ++ [defaultCell row.rowIndex (g.columnCount + 1)] }) }

/-- `handleCellValueChange` (Tableview.tsx lines 300-325): set the found
cell's `sequenceNumber`, then propagate the new value to every cell of its
merge group when it has one; no-op when the cell does not exist. -/
def handleCellValueChange (g : TableState) (r c : Nat) (v : String) : TableState :=
  match findCellRows g.tableRows r c with
  | none => g
  | some cell =>
    let rows1 := updateCellRows g.tableRows r c (fun cl => { cl with sequenceNumber := v })
    let rows2 :=
      match cell.mergeId with
      | none => rows1
      | some mid =>
        mapCells (fun cl => if cl.mergeId = some mid then { cl with sequenceNumber := v } else cl)
          rows1
    { g with tableRows := rows2 }

/-- `handleCheckboxChange` (Tableview.tsx lines 328-346): flip the found
cell's `checked`, mirror it into `isBlocked`, and propagate both to the
whole merge group when the cell has one. -/
def handleCheckboxChange (g : TableState) (r c : Nat) : TableState :=
  match findCellRows g.tableRows r c with
  | none => g
  | some cell =>
    let chk := !cell.checked
    let rows1 := updateCellRows g.tableRows r c
      (fun cl => { cl with checked := chk, isBlocked := chk })
    let rows2 :=
      match cell.mergeId with
      | none => rows1
      | some mid =>
        mapCells
          (fun cl => if cl.mergeId = some mid then { cl with checked := chk, isBlocked := chk }
                     else cl)
          rows1
    { g with tableRows := rows2 }

/-- Reset of one cell's merge bookkeeping, as done by the dissolve loops of
`mergeCells` and `unmergeCells`. -/
def resetMergeFields (cl : CellObject) : CellObject :=
  { cl with isMerged := false, rowSpan := 1, colSpan := 1, isHidden := false, mergeId := none }

/-- Dissolve every cell carrying a given merge id
(`rows.forEach(... if (cl.mergeId === mid) reset ...)`). -/
def dissolveId (rows : List TableRow) (mid : MergeGroupId) : List TableRow :=
  mapCells (fun cl => if cl.mergeId = some mid then resetMergeFields cl else cl) rows

/-- One step of `mergeCells`' pre-dissolve loop: at rectangle position `p`,
if the current cell is merged, dissolve its whole group. -/
def mergeDissolveStep (rs : List TableRow) (p : Nat × Nat) : List TableRow :=
  match findCellRows rs p.1 p.2 with
  | some cl =>
    match cl.mergeId with
    | some m => if cl.isMerged then dissolveId rs m else rs
    | none => rs
  | none => rs

/-- The field assignment done by `mergeCells`' second loop at rectangle
position `p`: copy the top-left cell's value/checked/blocked, join the new
group, and set the anchor's spans (top-left) or hide the member. -/
def mergeAssignCell (tl : CellObject) (mid : MergeGroupId) (minR minC maxR maxC : Nat)
    (p : Nat × Nat) (cl : CellObject) : CellObject :=
  let base := { cl with
    sequenceNumber := tl.sequenceNumber, checked := tl.checked,
    isBlocked := tl.isBlocked, isMerged := true, mergeId := some mid }
  if p.1 = minR ∧ p.2 = minC then
    { base with rowSpan := maxR - minR + 1, colSpan := maxC - minC + 1, isHidden := false }
  else
    { base with rowSpan := 1, colSpan := 1, isHidden := true }

/-- Outcome of `mergeCells`: the resulting grid state and selection,
whether the "Please select a rectangular area to merge" alert fired, and
whether the merge mutation was actually performed. -/
structure MergeResult where
  state : TableState
  selection : List (Nat × Nat)
  alerted : Bool
  merged : Bool
deriving DecidableEq, Repr

/-- `mergeCells` (Tableview.tsx lines 539-592).  Returns silently when
fewer than 2 cells are selected; alerts (and mutates nothing) when the
selection does not exactly fill its bounding rectangle; otherwise
dissolves every merge group overlapping the rectangle, then assigns the
new group over the rectangle and collapses the selection to the anchor.
`Math.min/Math.max` over the parsed positions are folds over the list. -/
def mergeCells (g : TableState) (sel : List (Nat × Nat)) : MergeResult :=
  if sel.length < 2 then ⟨g, sel, false, false⟩
  else
    let rowIdxs := sel.map Prod.fst
    let colIdxs := sel.map Prod.snd
    let minR := rowIdxs.foldl min (rowIdxs.headD 0)
    let maxR := rowIdxs.foldl max 0
    let minC := colIdxs.foldl min (colIdxs.headD 0)
    let maxC := colIdxs.foldl max 0
    if sel.length ≠ (maxR - minR + 1) * (maxC - minC + 1) then ⟨g, sel, true, false⟩
    else
      let rect := rectPositions minR minC maxR maxC
      let rows1 := rect.foldl mergeDissolveStep g.tableRows
      let mid : MergeGroupId := (minR, minC, maxR, maxC)
      match findCellRows rows1 minR minC with
      | none => ⟨g, [(minR, minC)], false, false⟩
      | some tl =>
        let rows2 := rect.foldl
          (fun rs p => updateCellRows rs p.1 p.2 (mergeAssignCell tl mid minR minC maxR maxC p))
          rows1
        ⟨{ g with tableRows := rows2 }, [(minR, minC)], false, true⟩

/-- The merge-id gathering loop of `unmergeCells`: ids of merged cells
under the selection, first occurrence order, deduplicated (a JS `Set`). -/
def collectMergeIds (rows : List TableRow) (sel : List (Nat × Nat)) : List MergeGroupId :=
  sel.foldl (fun acc p =>
    match findCellRows rows p.1 p.2 with
    | some cl =>
      if cl.isMerged then
        match cl.mergeId with
        | some m => if m ∈ acc then acc else acc ++ [m]
        | none => acc
      else acc
    | none => acc) []

/-- `unmergeCells` (Tableview.tsx lines 594-617): dissolve every merge
group touched by the selection; no-op on empty selection or when the
selection touches no merged cell.  The selection is left unchanged. -/
def unmergeCells (g : TableState) (sel : List (Nat × Nat)) : TableState :=
  if sel.length = 0 then g
  else
    let mids := collectMergeIds g.tableRows sel
    if mids = [] then g
    else { g with tableRows := mids.foldl dissolveId g.tableRows }

/-- One iteration of the `blankCells`/`unblankCells` loop: set `isBlank`
on the found cell and, when it belongs to a merge group, on the whole
group. -/
def setBlankOne (b : Bool) (rows : List TableRow) (p : Nat × Nat) : List TableRow :=
  match findCellRows rows p.1 p.2 with
  | none => rows
  | some cell =>
    let rows1 := updateCellRows rows p.1 p.2 (fun cl => { cl with isBlank := b })
    match cell.mergeId with
    | none => rows1
    | some mid =>
      mapCells (fun cl => if cl.mergeId = some mid then { cl with isBlank := b } else cl) rows1

/-- `blankCells` (Tableview.tsx lines 619-636): blank every selected cell
(group-transitively); the selection is cleared afterwards.  No-op on an
empty selection. -/
def blankCells (g : TableState) (sel : List (Nat × Nat)) : TableState × List (Nat × Nat) :=
  if sel.length = 0 then (g, sel)
  else ({ g with tableRows := sel.foldl (setBlankOne true) g.tableRows }, [])

/-- `unblankCells` (Tableview.tsx lines 638-655): dual of `blankCells`. -/
def unblankCells (g : TableState) (sel : List (Nat × Nat)) : TableState × List (Nat × Nat) :=
  if sel.length = 0 then (g, sel)
  else ({ g with tableRows := sel.foldl (setBlankOne false) g.tableRows }, [])

/-- `saveToBackend` (Tableview.tsx lines 186-202): the serialized document
`JSON.stringify({rows, columns, tableRows, metadata})`, modelled at the
data level (stringify/parse of this record is faithful). -/
def saveToBackendDoc (g : TableState) : TableData :=
  { rows := g.rowCount, columns := g.columnCount, tableRows := g.tableRows }

/-- Index-aware map with an explicit start index (the `(x, idx) => ...`
callbacks of `Array.prototype.map`). -/
def mapIdxFrom (f : Nat → α → β) : Nat → List α → List β
  | _, [] => []
  | k, a :: l => f k a :: mapIdxFrom f (k + 1) l

/-- The per-cell normalization of the load-from-attribute effect
(Tableview.tsx lines 125-141): identity and indices are recomputed from
the position; `sequenceNumber || "-"` turns the empty string into `"-"`;
`rowSpan || 1` / `colSpan || 1` turn 0 into 1; `|| false` on the booleans
and `|| ""` on the merge id are identities in the model. -/
def validateCell (ri ci : Nat) (cell : CellObject) : CellObject :=
  { id := (ri, ci),
    sequenceNumber := if cell.sequenceNumber = "" then "-" else cell.sequenceNumber,
    isBlocked := cell.isBlocked, isMerged := cell.isMerged, mergeId := cell.mergeId,
    isBlank := cell.isBlank, rowIndex := ri, columnIndex := ci, checked := cell.checked,
    rowSpan := if cell.rowSpan = 0 then 1 else cell.rowSpan,
    colSpan := if cell.colSpan = 0 then 1 else cell.colSpan,
    isHidden := cell.isHidden }

/-- The per-row normalization of the load effect (row id and index
recomputed from position, each cell validated). -/
def validateRow (ri : Nat) (row : TableRow) : TableRow :=
  { id := ri, rowIndex := ri,
    cells := mapIdxFrom (fun ci cell => validateCell ri ci cell) 1 row.cells }

/-- The load-from-attribute effect (Tableview.tsx lines 113-167) applied
to an already-JSON-parsed document: accepted iff `rows > 0 && columns > 0`
(the `tableData.tableRows` truthiness check is vacuous for a parsed
document with the field present); on success the grid is replaced by the
validated rows and the declared dimensions. -/
def loadTableData (td : TableData) : Option TableState :=
  if 0 < td.rows ∧ 0 < td.columns then
    some { rowCount := td.rows, columnCount := td.columns,
           tableRows := mapIdxFrom validateRow 1 td.tableRows }
  else none

/-! ## The pointer-event selection state machine

Tableview.tsx lines 363-515: native `pointerdown` / `pointermove` /
`pointerup` / `pointercancel` handlers on the table wrapper, using refs
`isDraggingRef`, `dragStartRef`, `dragHasMovedRef`, `lastClickTimeRef`,
`lastClickCellRef` plus the `selectedCells` state.  Events are modelled
with the cell address that `getCellFromPoint` resolves (events that
resolve no cell, right-button presses and presses on checkbox targets
return early in the source and are not modelled as events). -/

/-- The selection machine's state: the `selectedCells` set and the
pointer/drag refs. -/
structure PointerState where
  selection : List (Nat × Nat)
  isDragging : Bool
  dragStart : Option (Nat × Nat)
  dragHasMoved : Bool
  lastClickTime : Nat
  lastClickCell : Option (Nat × Nat)
deriving DecidableEq, Repr

/-- Fresh component state: empty selection, no drag, `lastClickTimeRef = 0`,
`lastClickCellRef = ""`. -/
def initPointerState : PointerState :=
  { selection := [], isDragging := false, dragStart := none, dragHasMoved := false,
    lastClickTime := 0, lastClickCell := none }

/-- Single-click toggle: `next.has(id) ? next.delete(id) : next.add(id)`. -/
def selToggle (sel : List (Nat × Nat)) (p : Nat × Nat) : List (Nat × Nat) :=
  if p ∈ sel then sel.filter (fun q => q ≠ p) else sel ++ [p]

/-- `Set.prototype.add`: append when absent. -/
def selAdd (sel : List (Nat × Nat)) (p : Nat × Nat) : List (Nat × Nat) :=
  if p ∈ sel then sel else sel ++ [p]

/-- The group-id collection of `handleDoubleClickSelect`: ids of every
cell sharing the clicked cell's merge id, in row-major order. -/
def groupCellIds (rows : List TableRow) (mid : MergeGroupId) : List (Nat × Nat) :=
  ((rows.flatMap (fun row => row.cells)).filter (fun c => c.mergeId = some mid)).map
    (fun c => c.id)

/-- `handleDoubleClickSelect` (Tableview.tsx lines 492-515): on a merged
cell, toggle the whole group as one unit (deselect all members if any is
selected, else select all); otherwise toggle the single cell. -/
def handleDoubleClickSelect (rows : List TableRow) (r c : Nat) (sel : List (Nat × Nat)) :
    List (Nat × Nat) :=
  match findCellRows rows r c with
  | some clickedCell =>
    if clickedCell.isMerged then
      match clickedCell.mergeId with
      | some mid =>
        let groupIds := groupCellIds rows mid
        if groupIds.any (fun idv => decide (idv ∈ sel)) then
          sel.filter (fun q => q ∉ groupIds)
        else groupIds.foldl selAdd sel
      | none => selToggle sel (r, c)
    else selToggle sel (r, c)
  | none => selToggle sel (r, c)

/-- A pointer event, carrying the cell address resolved by
`getCellFromPoint` (for `down`/`move`) or the `Date.now()` timestamp in
milliseconds (for `up`). -/
inductive PointerEvent where
  | down (rc : Nat × Nat)
  | move (rc : Nat × Nat)
  | up (now : Nat)
  | cancel
deriving DecidableEq, Repr

/-- One transition of the selection state machine (`onPointerDown`,
`onPointerMove`, `onPointerUp`, `onPointerCancel`; Tableview.tsx lines
377-473). -/
def pointerStep (rows : List TableRow) (s : PointerState) : PointerEvent → PointerState
  | .down rc =>
    { s with isDragging := true, dragStart := some rc, dragHasMoved := false,
             selection := [rc] }
  | .move rc =>
    if s.isDragging then
      match s.dragStart with
      | some st =>
        { s with
          dragHasMoved := if rc.1 ≠ st.1 ∨ rc.2 ≠ st.2 then true else s.dragHasMoved,
          selection := buildRectSet st.1 st.2 rc.1 rc.2 }
      | none => s
    else s
  | .up now =>
    if s.isDragging then
      let base := { s with isDragging := false, dragStart := none, dragHasMoved := false }
      if s.dragHasMoved then base
      else
        match s.dragStart with
        | some st =>
          let isDouble := now - s.lastClickTime < 350 ∧ s.lastClickCell = some st
          let base2 := { base with lastClickTime := now, lastClickCell := some st }
          if isDouble then
            { base2 with selection := handleDoubleClickSelect rows st.1 st.2 s.selection }
          else
            { base2 with selection := selToggle s.selection st }
        | none => base
    else s
  | .cancel =>
    { s with isDragging := false, dragStart := none, dragHasMoved := false }

/-- Run a sequence of pointer events through the machine. -/
def runPointerEvents (rows : List TableRow) (s : PointerState) (evs : List PointerEvent) :
    PointerState :=
  evs.foldl (pointerStep rows) s

/-! ## The cell-id string parser

`parseCellId` (Tableview.tsx lines 48-53), modelled at character-list
level.  JavaScript's `String.prototype.replace` with a string pattern
replaces only the first occurrence; `split("_")` and base-10 `parseInt`
are modelled exactly; a `NaN` coordinate is `none` in the inner options,
while the explicit `null` failure is the outer `none`. -/

/-- `s.replace(pat, "")` for a string pattern: remove the first occurrence
of `pat`. -/
def removeFirstOccurrence (pat : List Char) : List Char → List Char
  | [] => []
  | c :: rest =>
    if pat.isPrefixOf (c :: rest) then (c :: rest).drop pat.length
    else c :: removeFirstOccurrence pat rest

/-- `s.split("_")`: split on underscores, keeping empty parts
(`"".split("_") = [""]`, `"a__b".split("_") = ["a","","b"]`). -/
def splitOnUnderscore : List Char → List (List Char)
  | [] => [[]]
  | c :: rest =>
    let parts := splitOnUnderscore rest
    if c = '_' then [] :: parts
    else (c :: parts.headD []) :: parts.tail

/-- Decimal value of a digit list (most significant first). -/
def digitsToNat (ds : List Char) : Nat :=
  ds.foldl (fun a ch => a * 10 + (ch.toNat - 48)) 0

/-- The leading-digit-run part of `parseInt(s, 10)`: `none` is `NaN`. -/
def digitsPrefixValue (s : List Char) : Option Nat :=
  let ds := s.takeWhile Char.isDigit
  if ds = [] then none else some (digitsToNat ds)

/-- `parseInt(s, 10)`: skip leading spaces, optional sign, then the
longest digit prefix; `NaN` (`none`) when no digits follow. -/
def parseIntBase10 (s : List Char) : Option Int :=
  let t := s.dropWhile (fun ch => ch = ' ')
  match t with
  | [] => none
  | ch :: rest =>
    if ch = '-' then (digitsPrefixValue rest).map (fun n => -(n : Int))
    else if ch = '+' then (digitsPrefixValue rest).map (fun n => (n : Int))
    else (digitsPrefixValue t).map (fun n => (n : Int))

/-- `parseCellId` (Tableview.tsx lines 48-53): strip the first `cell_`,
split on `_`; `null` (outer `none`) when fewer than two parts remain,
otherwise `parseInt` of the first two parts — with no `isNaN` check, so
the coordinates may be `NaN` (inner `none`). -/
def parseCellId (cellId : List Char) : Option (Option Int × Option Int) :=
  let parts := splitOnUnderscore (removeFirstOccurrence ("cell_".toList) cellId)
  if parts.length < 2 then none
  else some (parseIntBase10 (parts.headD []), parseIntBase10 ((parts.drop 1).headD []))

/-! ## The auto-save debounce timeline

`handleCellValueChange`'s debounce block (Tableview.tsx lines 310-322)
plus `saveTimeoutRef` / `latestTableStateRef` and the timer firing,
modelled as an explicit timeline: a single pending-timer slot holding the
scheduled fire time; each value change first lets a due timer fire, then
applies the edit, records the latest state, and (with auto-save on)
cancels and reschedules the timer 300 ms out; after the last event the
pending timer fires. -/

/-- A value-change call: timestamp (ms), target cell, new value. -/
structure ValueChangeEvent where
  t : Nat
  r : Nat
  c : Nat
  v : String
deriving DecidableEq, Repr

/-- Timeline state: current grid, `latestTableStateRef`, the single
pending-timer slot (scheduled fire time), and the list of documents
written to the backend so far. -/
structure AutoSaveSim where
  state : TableState
  latest : Option TableState
  pendingFireAt : Option Nat
  writes : List TableData
deriving DecidableEq, Repr

/-- Let the pending debounce timer fire if its time has come (the timer
callback saves `latestTableStateRef.current` when non-null). -/
def firePending (sim : AutoSaveSim) (now : Nat) : AutoSaveSim :=
  match sim.pendingFireAt with
  | some ft =>
    if ft ≤ now then
      match sim.latest with
      | some lg =>
        { sim with pendingFireAt := none, writes := sim.writes ++ [saveToBackendDoc lg] }
      | none => { sim with pendingFireAt := none }
    else sim
  | none => sim

/-- One value-change call on the timeline: fire a due timer, then apply
`handleCellValueChange`; when the target cell exists, record the new state
in `latestTableStateRef` and (if auto-save is enabled) clear and
reschedule the single timer slot for 300 ms later. -/
def valueChangeStep (autoSave : Bool) (sim : AutoSaveSim) (e : ValueChangeEvent) :
    AutoSaveSim :=
  let sim1 := firePending sim e.t
  match findCellRows sim1.state.tableRows e.r e.c with
  | none => sim1
  | some _ =>
    let g2 := handleCellValueChange sim1.state e.r e.c e.v
    if autoSave then
      { state := g2, latest := some g2, pendingFireAt := some (e.t + 300),
        writes := sim1.writes }
    else
      { state := g2, latest := some g2, pendingFireAt := sim1.pendingFireAt,
        writes := sim1.writes }

/-- After the last event the quiet period elapses and any pending timer
fires. -/
def flushPending (sim : AutoSaveSim) : AutoSaveSim :=
  match sim.pendingFireAt with
  | some _ =>
    match sim.latest with
    | some lg =>
      { sim with pendingFireAt := none, writes := sim.writes ++ [saveToBackendDoc lg] }
    | none => { sim with pendingFireAt := none }
  | none => sim

/-- Run a sequence of value-change calls from a fresh mount of grid `g`
and let the final quiet period elapse. -/
def runAutoSave (autoSave : Bool) (g : TableState) (evs : List ValueChangeEvent) :
    AutoSaveSim :=
  flushPending (evs.foldl (valueChangeStep autoSave) ⟨g, none, none, []⟩)

/-- The grid after a sequence of value changes. -/
def applyValueChanges (g : TableState) (evs : List ValueChangeEvent) : TableState :=
  evs.foldl (fun gr ev => handleCellValueChange gr ev.r ev.c ev.v) g

/-! ## Reachability through the public operations

The grids the component can hold after creation and any sequence of edit
operations.  The merge constructor restricts the selection to a
duplicate-free set of in-grid addresses: the selection machine only ever
produces such sets (drag rectangles over rendered cells, single-cell
toggles of rendered cells, group toggles of stored cell ids, select-all of
rendered cells). -/

/-- `(r, c)` is an address of the `rowCount × columnCount` grid. -/
def inTable (g : TableState) (p : Nat × Nat) : Prop :=
  1 ≤ p.1 ∧ p.1 ≤ g.rowCount ∧ 1 ≤ p.2 ∧ p.2 ≤ g.columnCount

instance (g : TableState) (p : Nat × Nat) : Decidable (inTable g p) := by
  unfold inTable; infer_instance

/-- Grid states reachable through the component's own operations
(creation plus the edit operations of §4.4). -/
inductive ReachableTable : TableState → Prop
  | created (rows cols : Nat) (g : TableState) (h : createNewTable rows cols = some g) :
      ReachableTable g
  | rowAdded (g : TableState) : ReachableTable g → ReachableTable (addRow g)
  | colAdded (g : TableState) : ReachableTable g → ReachableTable (addColumn g)
  | valueChanged (g : TableState) (r c : Nat) (v : String) :
      ReachableTable g → ReachableTable (handleCellValueChange g r c v)
  | checkboxToggled (g : TableState) (r c : Nat) :
      ReachableTable g → ReachableTable (handleCheckboxChange g r c)
  | mergedOp (g : TableState) (sel : List (Nat × Nat)) (hnd : sel.Nodup)
      (hin : ∀ p ∈ sel, inTable g p) :
      ReachableTable g → ReachableTable (mergeCells g sel).state
  | unmergedOp (g : TableState) (sel : List (Nat × Nat)) :
      ReachableTable g → ReachableTable (unmergeCells g sel)
  | blankedOp (g : TableState) (sel : List (Nat × Nat)) :
      ReachableTable g → ReachableTable (blankCells g sel).1
  | unblankedOp (g : TableState) (sel : List (Nat × Nat)) :
      ReachableTable g → ReachableTable (unblankCells g sel).1

/-! ## Demo fixtures for concrete runs -/

/-- A fresh default 2×2 grid. -/
def demoTable22 : TableState :=
  { rowCount := 2, columnCount := 2, tableRows := makeTableRows 2 2 }

/-- A fresh default 2×3 grid. -/
def demoTable23 : TableState :=
  { rowCount := 2, columnCount := 3, tableRows := makeTableRows 2 3 }

/-- The 2×2 grid with all four cells merged into the group spanning
`(1,1)-(2,2)`. -/
def demoMerged22 : TableState :=
  (mergeCells demoTable22 [(1, 1), (1, 2), (2, 1), (2, 2)]).state

/-- The anchor cell of `demoMerged22` at `(1,1)`. -/
def demoMergedAnchor : CellObject :=
  { id := (1, 1), sequenceNumber := "-", isBlocked := false, isMerged := true,
    mergeId := some (1, 1, 2, 2), isBlank := false, rowIndex := 1, columnIndex := 1,
    checked := false, rowSpan := 2, colSpan := 2, isHidden := false }

/-! ## C1 — click vs. drag -/

/-- Claim C1 as stated: on any grid, `pointerDown (2,2)` then `pointerUp`
with no intervening move leaves the selection `{(2,2)}`, and
`pointerDown (1,1)`, `pointerMove (2,3)`, `pointerUp` leaves the six-cell
rectangle selected. -/
def clickDragSpecClaim : Prop :=
  ∀ (rows : List TableRow) (t1 t2 : Nat),
    (runPointerEvents rows initPointerState
        [.down (2, 2), .up t1]).selection.toFinset
      = ({(2, 2)} : Finset (Nat × Nat)) ∧
    (runPointerEvents rows initPointerState
        [.down (1, 1), .move (2, 3), .up t2]).selection.toFinset
      = ({(1, 1), (1, 2), (1, 3), (2, 1), (2, 2), (2, 3)} : Finset (Nat × Nat))

/-- C1 is false on the code: on the 2×3 grid, `pointerDown (2,2)` selects
the cell and the single-click toggle on `pointerUp` removes it again, so
the selection ends empty, not `{(2,2)}`. -/
theorem clickDragClaim_false : ¬ clickDragSpecClaim := by
  intro h
  exact absurd (h demoTable23.tableRows 1000 1000).1 (by decide)

/-- C1 amended: the click leg ends with the selection empty (the
`pointerDown` pre-selects the cell and the single-click toggle on
`pointerUp` removes it); the drag leg holds as claimed, selecting exactly
the six addresses of the `(1,1)-(2,3)` rectangle. -/
theorem clickDrag_amended : ∀ (rows : List TableRow) (t1 t2 : Nat),
    (runPointerEvents rows initPointerState [.down (2, 2), .up t1]).selection = [] ∧
    (runPointerEvents rows initPointerState
        [.down (1, 1), .move (2, 3), .up t2]).selection
      = [(1, 1), (1, 2), (1, 3), (2, 1), (2, 2), (2, 3)] := by
  intro rows t1 t2
  constructor
  · simp [runPointerEvents, pointerStep, initPointerState, selToggle]
  · rfl

/-! ## C8 — double-click group toggle -/

/-- A cell found by `findCellRows` is one of the grid's cells. -/
theorem mem_flatMap_of_findCellRows {rows : List TableRow} {r c : Nat} {cl : CellObject}
    (h : findCellRows rows r c = some cl) : cl ∈ rows.flatMap (fun row => row.cells) := by
  unfold findCellRows at h
  cases hrow : rows.find? (fun row => row.rowIndex == r) with
  | none => rw [hrow] at h; exact Option.noConfusion h
  | some row =>
    rw [hrow] at h
    replace h : row.cells.find? (fun cl => cl.columnIndex == c) = some cl := h
    exact List.mem_flatMap.mpr ⟨row, List.mem_of_find?_eq_some hrow, List.mem_of_find?_eq_some h⟩

/-- Claim C8 as stated, on the 2×2 grid whose four cells form one merged
group and with no member selected: two clicks at `(1,1)` within the 350 ms
threshold leave all four member addresses selected. -/
def doubleClickSpecClaim : Prop :=
  ∀ t1 t2 : Nat, t1 ≤ t2 → t2 - t1 < 350 →
    (runPointerEvents demoMerged22.tableRows initPointerState
        [.down (1, 1), .up t1, .down (1, 1), .up t2]).selection.toFinset
      = ({(1, 1), (1, 2), (2, 1), (2, 2)} : Finset (Nat × Nat))

/-- C8 is false on the code: two rapid clicks at `(1,1)` (350 ms apart at
most) on the fully merged 2×2 grid end with the selection empty — the
second `pointerDown` pre-selects `(1,1)`, so the double-click group toggle
always sees a selected member and deselects the whole group. -/
theorem doubleClickClaim_false : ¬ doubleClickSpecClaim := by
  intro h
  exact absurd (h 1000 1100 (by decide) (by decide)) (by decide)

/-- C8 amended: a double click (a `pointerDown`/`pointerUp` pair meeting
the 350 ms same-cell threshold against the previous click) at a merged
cell always leaves the selection empty — the `pointerDown` replaces the
selection with the clicked cell, so the group toggle always takes its
deselect branch and removes every member; the claimed select-all outcome
is unreachable, while the deselect-all direction (toggling the group as
one atomic unit) holds. -/
theorem doubleClickGroup_amended :
    ∀ (rows : List TableRow) (s : PointerState) (rc : Nat × Nat) (t : Nat)
      (cl : CellObject) (m : MergeGroupId),
    findCellRows rows rc.1 rc.2 = some cl →
    cl.isMerged = true → cl.mergeId = some m → cl.id = rc →
    t - s.lastClickTime < 350 → s.lastClickCell = some rc →
    (runPointerEvents rows s [.down rc, .up t]).selection = [] := by
  intro rows s rc t cl m hfind hm hmid hid hlt hlast
  have hmem : rc ∈ groupCellIds rows m := by
    unfold groupCellIds
    refine List.mem_map.mpr ⟨cl, ?_, hid⟩
    exact List.mem_filter.mpr ⟨mem_flatMap_of_findCellRows hfind, by simp [hmid]⟩
  obtain ⟨sel0, dr0, ds0, dm0, lt0, lc0⟩ := s
  subst hlast
  show (pointerStep rows (pointerStep rows ⟨sel0, dr0, ds0, dm0, lt0, some rc⟩ (.down rc))
      (.up t)).selection = []
  simp only [pointerStep]
  rw [if_pos trivial, if_neg (by simp), if_pos (⟨hlt, trivial⟩ : t - lt0 < 350 ∧ True)]
  show handleDoubleClickSelect rows rc.1 rc.2 [rc] = []
  simp only [handleDoubleClickSelect, hfind, hm, hmid, if_true]
  rw [if_pos (List.any_eq_true.mpr ⟨rc, hmem, by simp⟩)]
  simp [List.filter_eq_nil_iff, hmem]

/-- Witness for `doubleClickGroup_amended`: the second click of a rapid
double click at the anchor of the merged 2×2 demo grid. -/
theorem doubleClickGroup_amended_witness :
    (runPointerEvents demoMerged22.tableRows
        ⟨[], false, none, false, 1000, some (1, 1)⟩
        [.down (1, 1), .up 1100]).selection = [] :=
  doubleClickGroup_amended demoMerged22.tableRows
    ⟨[], false, none, false, 1000, some (1, 1)⟩ (1, 1) 1100 demoMergedAnchor (1, 1, 2, 2)
    (by decide) (by decide) (by decide) (by decide) (by decide) (by decide)

/-! ## C5 — the cell-id parser -/

theorem cellPrefix_toList : "cell_".toList = ['c', 'e', 'l', 'l', '_'] := rfl

theorem splitOnUnderscore_nil : splitOnUnderscore [] = [[]] := rfl

theorem splitOnUnderscore_cons (c : Char) (rest : List Char) :
    splitOnUnderscore (c :: rest) =
      if c = '_' then [] :: splitOnUnderscore rest
      else (c :: (splitOnUnderscore rest).headD []) :: (splitOnUnderscore rest).tail := rfl

theorem isPrefixOf_append_self (l1 l2 : List Char) : l1.isPrefixOf (l1 ++ l2) = true := by
  induction l1 with
  | nil => simp
  | cons a as ih => simp [List.isPrefixOf_cons₂, ih]

theorem removeFirst_append_self (p : Char) (ps rest : List Char) :
    removeFirstOccurrence (p :: ps) ((p :: ps) ++ rest) = rest := by
  show removeFirstOccurrence (p :: ps) (p :: (ps ++ rest)) = rest
  unfold removeFirstOccurrence
  rw [← List.cons_append, if_pos (isPrefixOf_append_self (p :: ps) rest)]
  exact List.drop_left (p :: ps) rest

theorem removeFirst_cellPrefix (rest : List Char) :
    removeFirstOccurrence ("cell_".toList) ("cell_".toList ++ rest) = rest := by
  rw [cellPrefix_toList]
  exact removeFirst_append_self 'c' ['e', 'l', 'l', '_'] rest

theorem splitOnUnderscore_ne_nil (l : List Char) : splitOnUnderscore l ≠ [] := by
  cases l with
  | nil => simp [splitOnUnderscore_nil]
  | cons c rest =>
    rw [splitOnUnderscore_cons]
    split <;> simp

theorem splitOnUnderscore_no_sep {ds : List Char} (h : '_' ∉ ds) :
    splitOnUnderscore ds = [ds] := by
  induction ds with
  | nil => rfl
  | cons c rest ih =>
    have hc : ¬ (c = '_') := fun e => h (e ▸ List.mem_cons_self c rest)
    have hrest := ih (fun hr => h (List.mem_cons_of_mem c hr))
    rw [splitOnUnderscore_cons, if_neg hc, hrest]
    rfl

theorem splitOnUnderscore_append {ds : List Char} (rest : List Char) (h : '_' ∉ ds) :
    splitOnUnderscore (ds ++ '_' :: rest) = ds :: splitOnUnderscore rest := by
  induction ds with
  | nil =>
    show splitOnUnderscore ('_' :: rest) = [] :: splitOnUnderscore rest
    rw [splitOnUnderscore_cons, if_pos rfl]
  | cons c cs ih =>
    have hc : ¬ (c = '_') := fun e => h (e ▸ List.mem_cons_self c cs)
    have hcs := ih (fun hr => h (List.mem_cons_of_mem c hr))
    show splitOnUnderscore (c :: (cs ++ '_' :: rest)) = (c :: cs) :: splitOnUnderscore rest
    rw [splitOnUnderscore_cons, if_neg hc, hcs]
    rfl

theorem no_underscore_of_digits {ds : List Char} (h : ∀ ch ∈ ds, ch.isDigit = true) :
    '_' ∉ ds := fun hm => by simpa using h '_' hm

theorem parseIntBase10_digits {ds : List Char} (hne : ds ≠ [])
    (h : ∀ ch ∈ ds, ch.isDigit = true) :
    parseIntBase10 ds = some ((digitsToNat ds : Nat) : Int) := by
  cases ds with
  | nil => exact absurd rfl hne
  | cons d rest =>
    have hd : d.isDigit = true := h d (List.mem_cons_self d rest)
    have hds : ¬ (d = ' ') := fun e => by rw [e] at hd; exact absurd hd (by decide)
    have hdm : ¬ (d = '-') := fun e => by rw [e] at hd; exact absurd hd (by decide)
    have hdp : ¬ (d = '+') := fun e => by rw [e] at hd; exact absurd hd (by decide)
    have hdw : List.dropWhile (fun ch => decide (ch = ' ')) (d :: rest) = d :: rest := by
      rw [List.dropWhile_cons]; simp [hds]
    simp only [parseIntBase10, hdw]
    rw [if_neg hdm, if_neg hdp]
    simp only [digitsPrefixValue]
    rw [List.takeWhile_eq_self_iff.mpr (by simpa using h), if_neg hne]
    rfl

/-- Claim C5's notion of well-formedness: the string has exactly the shape
`cell_<row>_<col>` with non-empty, all-numeric row and column parts. -/
def wellFormedCellId (s : List Char) : Bool :=
  match splitOnUnderscore s with
  | [p0, ds1, ds2] =>
    p0 == "cell".toList && !ds1.isEmpty && !ds2.isEmpty &&
      ds1.all Char.isDigit && ds2.all Char.isDigit
  | _ => false

/-- The row/column pair a well-formed `cell_<row>_<col>` string denotes. -/
def wellFormedRowCol (s : List Char) : Nat × Nat :=
  match splitOnUnderscore s with
  | [_, ds1, ds2] => (digitsToNat ds1, digitsToNat ds2)
  | _ => (0, 0)

/-- Claim C5 as stated: the parser decodes every well-formed
`cell_<row>_<col>` and returns a recognizable failure (`null`, the outer
`none`) on every other input, in particular on non-numeric row/column
parts. -/
def parseCellIdSpecClaim : Prop :=
  ∀ s : List Char,
    (wellFormedCellId s = true →
      parseCellId s
        = some (some ((wellFormedRowCol s).1 : Int), some ((wellFormedRowCol s).2 : Int))) ∧
    (wellFormedCellId s = false → parseCellId s = none)

/-- C5 is false on the code: `parseCellId "cell_a_b"` returns
`{row: NaN, col: NaN}` (garbage coordinates), not the recognizable `null`
failure — the Tableview.tsx version has no `isNaN` check. -/
theorem parseCellIdClaim_false : ¬ parseCellIdSpecClaim := by
  intro h
  exact absurd ((h ("cell_a_b".toList)).2 (by decide)) (by decide)

/-- C5 amended: the parser returns `null` exactly when stripping the
first `cell_` occurrence and splitting on `_` leaves fewer than two
parts; every well-formed `cell_<row>_<col>` decodes to its numeric pair;
but an input with two or more parts whose row or column part is
non-numeric yields `NaN` coordinates (`some (none, none)` for
`"cell_a_b"`) instead of a failure, and extra parts are ignored. -/
theorem parseCellId_amended :
    (∀ s : List Char,
      (parseCellId s = none ↔
        (splitOnUnderscore (removeFirstOccurrence ("cell_".toList) s)).length < 2)) ∧
    (∀ ds1 ds2 : List Char, ds1 ≠ [] → ds2 ≠ [] →
      (∀ ch ∈ ds1, ch.isDigit = true) → (∀ ch ∈ ds2, ch.isDigit = true) →
      parseCellId ("cell_".toList ++ (ds1 ++ '_' :: ds2))
        = some (some ((digitsToNat ds1 : Nat) : Int), some ((digitsToNat ds2 : Nat) : Int))) ∧
    parseCellId ("cell_a_b".toList) = some (none, none) := by
  refine ⟨?_, ?_, by decide⟩
  · intro s
    by_cases hlen : (splitOnUnderscore (removeFirstOccurrence ("cell_".toList) s)).length < 2
    · simp [parseCellId, hlen]
    · simp [parseCellId, hlen]
  · intro ds1 ds2 h1 h2 hd1 hd2
    unfold parseCellId
    rw [removeFirst_cellPrefix, splitOnUnderscore_append _ (no_underscore_of_digits hd1),
        splitOnUnderscore_no_sep (no_underscore_of_digits hd2)]
    rw [if_neg (by norm_num)]
    simp only [List.headD_cons, List.drop_succ_cons, List.drop_zero]
    rw [parseIntBase10_digits h1 hd1, parseIntBase10_digits h2 hd2]

/-- Witness for `parseCellId_amended`: decoding `cell_1_2`. -/
theorem parseCellId_amended_witness :
    parseCellId ("cell_".toList ++ (['1'] ++ '_' :: ['2'])) = some (some 1, some 2) :=
  (parseCellId_amended.2.1 ['1'] ['2'] (by decide) (by decide) (by decide) (by decide)).trans
    (by decide)

/-! ## Lookup/update plumbing shared by several claims -/

theorem find?_updateFirstBy (p q : α → Bool) (u : α → α) (l : List α)
    (hq : ∀ x, q (u x) = q x) :
    (updateFirstBy p u l).find? q = l.find? q ∨
      (updateFirstBy p u l).find? q = (l.find? q).map u := by
  induction l with
  | nil => left; rfl
  | cons x xs ih =>
    unfold updateFirstBy
    by_cases hp : p x
    · rw [if_pos hp]
      by_cases hqx : q x
      · right
        rw [List.find?_cons_of_pos _ (by rw [hq]; exact hqx), List.find?_cons_of_pos _ hqx]
        rfl
      · left
        rw [List.find?_cons_of_neg _ (by rw [hq]; simpa using hqx),
            List.find?_cons_of_neg _ (by simpa using hqx)]
    · rw [if_neg hp]
      by_cases hqx : q x
      · left
        rw [List.find?_cons_of_pos _ hqx, List.find?_cons_of_pos _ hqx]
      · rw [List.find?_cons_of_neg _ (by simpa using hqx),
            List.find?_cons_of_neg _ (by simpa using hqx)]
        exact ih

theorem find?_updateFirstBy_isSome (p q : α → Bool) (u : α → α) (l : List α)
    (hq : ∀ x, q (u x) = q x) :
    ((updateFirstBy p u l).find? q).isSome = (l.find? q).isSome := by
  rcases find?_updateFirstBy p q u l hq with h | h
  · rw [h]
  · rw [h]; cases l.find? q <;> rfl

theorem findCellRows_updateCellRows_isSome (rows : List TableRow) (r0 c0 : Nat)
    (f : CellObject → CellObject) (hf : ∀ cl, (f cl).columnIndex = cl.columnIndex)
    (r c : Nat) :
    (findCellRows (updateCellRows rows r0 c0 f) r c).isSome
      = (findCellRows rows r c).isSome := by
  unfold findCellRows updateCellRows
  rcases find?_updateFirstBy (fun row => row.rowIndex == r0)
      (fun row => row.rowIndex == r)
      (fun row => { row with cells := updateFirstBy (fun cl => cl.columnIndex == c0) f row.cells })
      rows (fun x => rfl) with h | h
  · rw [h]
  · rw [h]
    cases hrow : rows.find? (fun row => row.rowIndex == r) with
    | none => rfl
    | some row =>
      show ((updateFirstBy (fun cl => cl.columnIndex == c0) f row.cells).find?
          (fun cl => cl.columnIndex == c)).isSome
        = ((row.cells.find? (fun cl => cl.columnIndex == c))).isSome
      exact find?_updateFirstBy_isSome _ _ _ _ (fun x => by simp [hf x])

theorem findCellRows_mapCells (T : CellObject → CellObject)
    (hT : ∀ cl, (T cl).columnIndex = cl.columnIndex) (rows : List TableRow) (r c : Nat) :
    findCellRows (mapCells T rows) r c = (findCellRows rows r c).map T := by
  unfold findCellRows mapCells
  rw [List.find?_map]
  have h1 : ((fun row => row.rowIndex == r) ∘ fun row => { row with cells := row.cells.map T })
      = (fun row : TableRow => row.rowIndex == r) := by
    funext row; rfl
  rw [h1]
  cases hrow : rows.find? (fun row => row.rowIndex == r) with
  | none => rfl
  | some row =>
    show (row.cells.map T).find? (fun cl => cl.columnIndex == c)
      = (row.cells.find? (fun cl => cl.columnIndex == c)).map T
    rw [List.find?_map]
    have h2 : ((fun cl => cl.columnIndex == c) ∘ T)
        = (fun cl : CellObject => cl.columnIndex == c) := by
      funext cl; simp [hT cl]
    rw [h2]

/-- A value change never changes which cells exist. -/
theorem findCellRows_handleCellValueChange_isSome (g : TableState) (r0 c0 : Nat) (v : String)
    (r c : Nat) :
    (findCellRows (handleCellValueChange g r0 c0 v).tableRows r c).isSome
      = (findCellRows g.tableRows r c).isSome := by
  unfold handleCellValueChange
  cases hfind : findCellRows g.tableRows r0 c0 with
  | none => rfl
  | some cell =>
    cases hmid : cell.mergeId with
    | none =>
      simp only [hmid]
      exact findCellRows_updateCellRows_isSome g.tableRows r0 c0
        (fun cl => { cl with sequenceNumber := v }) (fun cl => rfl) r c
    | some mid =>
      simp only [hmid]
      rw [findCellRows_mapCells _ (fun cl => by by_cases h : cl.mergeId = some mid <;> simp [h])]
      rw [show ∀ o : Option CellObject, (o.map _).isSome = o.isSome from fun o => by
        cases o <;> rfl]
      exact findCellRows_updateCellRows_isSome g.tableRows r0 c0
        (fun cl => { cl with sequenceNumber := v }) (fun cl => rfl) r c

/-! ## C9 — debounce collapse -/

/-- The timestamp of the last call, with fallback `t`. -/
def chainLast : Nat → List ValueChangeEvent → Nat
  | t, [] => t
  | _, e :: es => chainLast e.t es

/-- Consecutive-gap condition: from reference time `t`, each next call is
no earlier and strictly less than 300 ms later. -/
def chainTimes : Nat → List ValueChangeEvent → Prop
  | _, [] => True
  | t, e :: es => t ≤ e.t ∧ e.t < t + 300 ∧ chainTimes e.t es

/-- Mid-stream invariant of the debounce timeline: with a timer pending
for 300 ms after the previous call and every remaining call inside the
debounce window of its predecessor, no timer ever fires during the
remaining calls — each call just cancels and reschedules the single slot. -/
theorem debounce_mid : ∀ (es : List ValueChangeEvent) (gcur : TableState) (tlast : Nat)
    (ws : List TableData),
    chainTimes tlast es →
    (∀ ev ∈ es, (findCellRows gcur.tableRows ev.r ev.c).isSome = true) →
    es.foldl (valueChangeStep true) ⟨gcur, some gcur, some (tlast + 300), ws⟩
      = ⟨applyValueChanges gcur es, some (applyValueChanges gcur es),
          some ((chainLast tlast es) + 300), ws⟩ := by
  intro es
  induction es with
  | nil => intro gcur tlast ws _ _; rfl
  | cons ev es ih =>
    intro gcur tlast ws hch hfind
    obtain ⟨h1, h2, h3⟩ := hch
    obtain ⟨cell, hcell⟩ := Option.isSome_iff_exists.mp (hfind ev (List.mem_cons_self ev es))
    have hstep : valueChangeStep true ⟨gcur, some gcur, some (tlast + 300), ws⟩ ev
        = ⟨handleCellValueChange gcur ev.r ev.c ev.v,
           some (handleCellValueChange gcur ev.r ev.c ev.v), some (ev.t + 300), ws⟩ := by
      unfold valueChangeStep firePending
      simp only
      rw [if_neg (by omega)]
      rw [hcell]
      rfl
    rw [List.foldl_cons, hstep,
        ih (handleCellValueChange gcur ev.r ev.c ev.v) ev.t ws h3 (fun ev' hmem => by
          rw [findCellRows_handleCellValueChange_isSome]
          exact hfind ev' (List.mem_cons_of_mem _ hmem))]
    rfl

/-- C9 confirmed: with auto-save enabled, any `N ≥ 1` value-change calls
on existing cells whose consecutive gaps are each shorter than the 300 ms
debounce window produce exactly one persisted write, and its serialized
content is the grid state after the final change. -/
theorem debounceCollapse_holds :
    ∀ (g : TableState) (e : ValueChangeEvent) (es : List ValueChangeEvent),
    chainTimes e.t es →
    (∀ ev ∈ e :: es, (findCellRows g.tableRows ev.r ev.c).isSome = true) →
    (runAutoSave true g (e :: es)).writes
      = [saveToBackendDoc (applyValueChanges g (e :: es))] := by
  intro g e es hch hfind
  obtain ⟨cell, hcell⟩ := Option.isSome_iff_exists.mp (hfind e (List.mem_cons_self e es))
  have hstep : valueChangeStep true ⟨g, none, none, []⟩ e
      = ⟨handleCellValueChange g e.r e.c e.v,
         some (handleCellValueChange g e.r e.c e.v), some (e.t + 300), []⟩ := by
    unfold valueChangeStep firePending
    simp only
    rw [hcell]
    rfl
  unfold runAutoSave
  rw [List.foldl_cons, hstep,
      debounce_mid es (handleCellValueChange g e.r e.c e.v) e.t [] hch (fun ev' hmem => by
        rw [findCellRows_handleCellValueChange_isSome]
        exact hfind ev' (List.mem_cons_of_mem _ hmem))]
  rfl

/-- Witness for `debounceCollapse_holds`: three keystrokes 100 ms apart on
cell `(1,1)` of the 2×2 demo grid produce one write holding `"abc"`. -/
theorem debounceCollapse_holds_witness :
    (runAutoSave true demoTable22
        [⟨0, 1, 1, "a"⟩, ⟨100, 1, 1, "ab"⟩, ⟨200, 1, 1, "abc"⟩]).writes
      = [saveToBackendDoc (applyValueChanges demoTable22
          [⟨0, 1, 1, "a"⟩, ⟨100, 1, 1, "ab"⟩, ⟨200, 1, 1, "abc"⟩])] :=
  debounceCollapse_holds demoTable22 ⟨0, 1, 1, "a"⟩ [⟨100, 1, 1, "ab"⟩, ⟨200, 1, 1, "abc"⟩]
    ⟨by decide, by decide, by decide, by decide, trivial⟩ (by decide)

/-! ## C10 — external load recomputes identity and indices positionally -/

theorem mapIdxFrom_getElem? (f : Nat → α → β) : ∀ (l : List α) (k i : Nat),
    (mapIdxFrom f k l)[i]? = l[i]?.map (f (k + i)) := by
  intro l
  induction l with
  | nil => intro k i; simp [mapIdxFrom]
  | cons a as ih =>
    intro k i
    cases i with
    | zero => simp [mapIdxFrom]
    | succ n =>
      simp only [mapIdxFrom, List.getElem?_cons_succ, ih (k + 1) n]
      rw [show k + 1 + n = k + (n + 1) by omega]

/-- Equality of two serialized cells up to the positional fields that the
load path recomputes (`id`, `rowIndex`, `columnIndex`). -/
def sameCellContent (a b : CellObject) : Prop :=
  a.sequenceNumber = b.sequenceNumber ∧ a.isBlocked = b.isBlocked ∧ a.isMerged = b.isMerged ∧
  a.mergeId = b.mergeId ∧ a.isBlank = b.isBlank ∧ a.checked = b.checked ∧
  a.rowSpan = b.rowSpan ∧ a.colSpan = b.colSpan ∧ a.isHidden = b.isHidden

/-- Equality of two serialized rows up to row ids, row indices and the
cells' positional fields. -/
def sameRowContent (a b : TableRow) : Prop :=
  List.Forall₂ sameCellContent a.cells b.cells

/-- `td'` is `td` with the positional fields (cell ids, row ids, row and
column indices) rewritten arbitrarily. -/
def reindexedOf (td td' : TableData) : Prop :=
  td'.rows = td.rows ∧ td'.columns = td.columns ∧
  List.Forall₂ sameRowContent td.tableRows td'.tableRows

theorem validateCell_content {a b : CellObject} (ri ci : Nat) (h : sameCellContent a b) :
    validateCell ri ci a = validateCell ri ci b := by
  obtain ⟨h1, h2, h3, h4, h5, h6, h7, h8, h9⟩ := h
  unfold validateCell
  rw [h1, h2, h3, h4, h5, h6, h7, h8, h9]

theorem mapIdxFrom_validateCell_congr {l l' : List CellObject} (ri : Nat)
    (h : List.Forall₂ sameCellContent l l') : ∀ k : Nat,
    mapIdxFrom (fun ci cell => validateCell ri ci cell) k l
      = mapIdxFrom (fun ci cell => validateCell ri ci cell) k l' := by
  induction h with
  | nil => intro k; rfl
  | cons hab hrest ih =>
    intro k
    simp only [mapIdxFrom]
    rw [validateCell_content _ _ hab, ih (k + 1)]

theorem validateRow_content {a b : TableRow} (ri : Nat) (h : sameRowContent a b) :
    validateRow ri a = validateRow ri b := by
  unfold validateRow
  rw [mapIdxFrom_validateCell_congr ri h 1]

theorem mapIdxFrom_validateRow_congr {l l' : List TableRow}
    (h : List.Forall₂ sameRowContent l l') : ∀ k : Nat,
    mapIdxFrom validateRow k l = mapIdxFrom validateRow k l' := by
  induction h with
  | nil => intro k; rfl
  | cons hab hrest ih =>
    intro k
    simp only [mapIdxFrom]
    rw [validateRow_content _ hab, ih (k + 1)]

/-- C10 confirmed: every successfully loaded grid has its row ids, row
indices, cell ids and cell indices recomputed from the position in the
parsed arrays (row `i`, column `j` becomes id `cell_<i+1>_<j+1>` with
`rowIndex i+1`, `columnIndex j+1`), and the load result is entirely
independent of whatever positional fields the inbound document carried. -/
theorem loadRecomputesIndices_holds :
    (∀ (td : TableData) (g : TableState), loadTableData td = some g →
      ∀ i : Nat, ∀ row ∈ g.tableRows[i]?, row.id = i + 1 ∧ row.rowIndex = i + 1 ∧
        ∀ j : Nat, ∀ cell ∈ row.cells[j]?,
          cell.id = (i + 1, j + 1) ∧ cell.rowIndex = i + 1 ∧ cell.columnIndex = j + 1) ∧
    (∀ td td' : TableData, reindexedOf td td' → loadTableData td' = loadTableData td) := by
  constructor
  · intro td g hload i row hrow
    unfold loadTableData at hload
    by_cases hc : 0 < td.rows ∧ 0 < td.columns
    · rw [if_pos hc] at hload
      injection hload with hg
      subst hg
      simp only [mapIdxFrom_getElem?] at hrow
      cases horig : td.tableRows[i]? with
      | none => rw [horig] at hrow; simp at hrow
      | some orig =>
        rw [horig] at hrow
        replace hrow : some (validateRow (1 + i) orig) = some row := hrow
        injection hrow with hrow
        subst hrow
        refine ⟨by simp [validateRow, Nat.add_comm], by simp [validateRow, Nat.add_comm], ?_⟩
        intro j cell hcell
        simp only [validateRow, mapIdxFrom_getElem?] at hcell
        cases hcorig : orig.cells[j]? with
        | none => rw [hcorig] at hcell; simp at hcell
        | some oc =>
          rw [hcorig] at hcell
          replace hcell : some (validateCell (1 + i) (1 + j) oc) = some cell := hcell
          injection hcell with hcell
          subst hcell
          refine ⟨by simp [validateCell, Nat.add_comm], by simp [validateCell, Nat.add_comm],
            by simp [validateCell, Nat.add_comm]⟩
    · rw [if_neg hc] at hload
      exact Option.noConfusion hload
  · intro td td' hre
    obtain ⟨hr, hc, hrows⟩ := hre
    unfold loadTableData
    rw [hr, hc, mapIdxFrom_validateRow_congr hrows 1]

/-- A serialized row carrying deliberately wrong positional fields. -/
def demoScrambledRow : TableRow :=
  { id := 7, rowIndex := 9,
    cells := [{ defaultCell 5 6 with checked := true }, defaultCell 8 0] }

/-- A document carrying `demoScrambledRow`. -/
def demoScrambledDoc : TableData :=
  { rows := 1, columns := 2, tableRows := [demoScrambledRow] }

/-- The grid state `demoScrambledDoc` loads to. -/
def demoScrambledLoaded : TableState :=
  { rowCount := 1, columnCount := 2, tableRows := [validateRow 1 demoScrambledRow] }

/-- Witness for `loadRecomputesIndices_holds`: loading the scrambled
document recomputes row 0's id and index to 1. -/
theorem loadRecomputesIndices_holds_witness :
    (validateRow 1 demoScrambledRow).id = 1 ∧ (validateRow 1 demoScrambledRow).rowIndex = 1 :=
  let h := loadRecomputesIndices_holds.1 demoScrambledDoc demoScrambledLoaded (by decide)
    0 (validateRow 1 demoScrambledRow) (by decide)
  ⟨h.1, h.2.1⟩

def cellsPosFrom (ri : Nat) : Nat → List CellObject → Bool
  | _, [] => true
  | ci, cl :: rest =>
    (cl.id == (ri, ci) && cl.rowIndex == ri && cl.columnIndex == ci) &&
      cellsPosFrom ri (ci + 1) rest

def rowsPosFrom : Nat → List TableRow → Bool
  | _, [] => true
  | ri, row :: rest =>
    (row.id == ri && row.rowIndex == ri && cellsPosFrom ri 1 row.cells) &&
      rowsPosFrom (ri + 1) rest

def posInv (rows : List TableRow) : Prop := rowsPosFrom 1 rows = true

def dimInv (g : TableState) : Prop :=
  g.tableRows.length = g.rowCount ∧ ∀ row ∈ g.tableRows, row.cells.length = g.columnCount

def getAt (rows : List TableRow) (r c : Nat) : Option CellObject :=
  rows[r - 1]?.bind (fun row => row.cells[c - 1]?)

theorem cellsPosFrom_cons {ri ci : Nat} {cl : CellObject} {rest : List CellObject}
    (h : cellsPosFrom ri ci (cl :: rest) = true) :
    cl.id = (ri, ci) ∧ cl.rowIndex = ri ∧ cl.columnIndex = ci ∧
      cellsPosFrom ri (ci + 1) rest = true := by
  have h' : ((cl.id == (ri, ci) && cl.rowIndex == ri && cl.columnIndex == ci) &&
      cellsPosFrom ri (ci + 1) rest) = true := h
  simp only [Bool.and_eq_true] at h'
  exact ⟨beq_iff_eq.mp h'.1.1.1, beq_iff_eq.mp h'.1.1.2, beq_iff_eq.mp h'.1.2, h'.2⟩

theorem rowsPosFrom_cons {ri : Nat} {row : TableRow} {rest : List TableRow}
    (h : rowsPosFrom ri (row :: rest) = true) :
    row.id = ri ∧ row.rowIndex = ri ∧ cellsPosFrom ri 1 row.cells = true ∧
      rowsPosFrom (ri + 1) rest = true := by
  have h' : ((row.id == ri && row.rowIndex == ri && cellsPosFrom ri 1 row.cells) &&
      rowsPosFrom (ri + 1) rest) = true := h
  simp only [Bool.and_eq_true] at h'
  exact ⟨beq_iff_eq.mp h'.1.1.1, beq_iff_eq.mp h'.1.1.2, h'.1.2, h'.2⟩

theorem cellsPosFrom_of_parts {ri ci : Nat} {cl : CellObject} {rest : List CellObject}
    (h1 : cl.id = (ri, ci)) (h2 : cl.rowIndex = ri) (h3 : cl.columnIndex = ci)
    (h4 : cellsPosFrom ri (ci + 1) rest = true) :
    cellsPosFrom ri ci (cl :: rest) = true := by
  show ((cl.id == (ri, ci) && cl.rowIndex == ri && cl.columnIndex == ci) &&
      cellsPosFrom ri (ci + 1) rest) = true
  simp [h1, h2, h3, h4]

theorem rowsPosFrom_of_parts {ri : Nat} {row : TableRow} {rest : List TableRow}
    (h1 : row.id = ri) (h2 : row.rowIndex = ri) (h3 : cellsPosFrom ri 1 row.cells = true)
    (h4 : rowsPosFrom (ri + 1) rest = true) :
    rowsPosFrom ri (row :: rest) = true := by
  show ((row.id == ri && row.rowIndex == ri && cellsPosFrom ri 1 row.cells) &&
      rowsPosFrom (ri + 1) rest) = true
  simp [h1, h2, h3, h4]

theorem cellsPosFrom_getElem {ri : Nat} : ∀ (cells : List CellObject) (k : Nat),
    cellsPosFrom ri k cells = true →
    ∀ (j : Nat) (cl : CellObject), cells[j]? = some cl →
      cl.id = (ri, k + j) ∧ cl.rowIndex = ri ∧ cl.columnIndex = k + j := by
  intro cells
  induction cells with
  | nil => intro k _ j cl h; simp at h
  | cons x rest ih =>
    intro k hpos j cl h
    obtain ⟨hid, hri, hci, hrest⟩ := cellsPosFrom_cons hpos
    cases j with
    | zero =>
      simp only [List.getElem?_cons_zero] at h
      injection h with h
      subst h
      exact ⟨by simpa using hid, hri, by simpa using hci⟩
    | succ n =>
      simp only [List.getElem?_cons_succ] at h
      have := ih (k + 1) hrest n cl h
      have harith : k + 1 + n = k + (n + 1) := by omega
      exact ⟨by rw [this.1, harith], this.2.1, by rw [this.2.2]; omega⟩

theorem rowsPosFrom_getElem : ∀ (rows : List TableRow) (k : Nat),
    rowsPosFrom k rows = true →
    ∀ (i : Nat) (row : TableRow), rows[i]? = some row →
      row.id = k + i ∧ row.rowIndex = k + i ∧ cellsPosFrom (k + i) 1 row.cells = true := by
  intro rows
  induction rows with
  | nil => intro k _ i row h; simp at h
  | cons x rest ih =>
    intro k hpos i row h
    obtain ⟨hid, hri, hcells, hrest⟩ := rowsPosFrom_cons hpos
    cases i with
    | zero =>
      simp only [List.getElem?_cons_zero] at h
      injection h with h
      subst h
      exact ⟨by simpa using hid, by simpa using hri, hcells⟩
    | succ n =>
      simp only [List.getElem?_cons_succ] at h
      have := ih (k + 1) hrest n row h
      refine ⟨by rw [this.1]; omega, by rw [this.2.1]; omega, ?_⟩
      rw [show k + (n + 1) = k + 1 + n by omega]
      exact this.2.2

theorem find?_rowsPosFrom {r : Nat} : ∀ (rows : List TableRow) (k : Nat),
    rowsPosFrom k rows = true →
    rows.find? (fun row => row.rowIndex == r) = if k ≤ r then rows[r - k]? else none := by
  intro rows
  induction rows with
  | nil => intro k _; simp
  | cons x rest ih =>
    intro k hpos
    obtain ⟨hid, hri, hcells, hrest⟩ := rowsPosFrom_cons hpos
    by_cases hkr : k = r
    · subst hkr
      rw [List.find?_cons_of_pos _ (by simp [hri])]
      simp
    · rw [List.find?_cons_of_neg _ (by simp [hri, hkr])]
      rw [ih (k + 1) hrest]
      by_cases hle : k ≤ r
      · have h1 : k + 1 ≤ r := by omega
        rw [if_pos h1, if_pos hle]
        have h2 : r - k = (r - (k + 1)) + 1 := by omega
        rw [h2, List.getElem?_cons_succ]
      · rw [if_neg (by omega), if_neg hle]

theorem find?_cellsPosFrom {ri c : Nat} : ∀ (cells : List CellObject) (k : Nat),
    cellsPosFrom ri k cells = true →
    cells.find? (fun cl => cl.columnIndex == c) = if k ≤ c then cells[c - k]? else none := by
  intro cells
  induction cells with
  | nil => intro k _; simp
  | cons x rest ih =>
    intro k hpos
    obtain ⟨hid, hri, hci, hrest⟩ := cellsPosFrom_cons hpos
    by_cases hkc : k = c
    · subst hkc
      rw [List.find?_cons_of_pos _ (by simp [hci])]
      simp
    · rw [List.find?_cons_of_neg _ (by simp [hci, hkc])]
      rw [ih (k + 1) hrest]
      by_cases hle : k ≤ c
      · have h1 : k + 1 ≤ c := by omega
        rw [if_pos h1, if_pos hle]
        have h2 : c - k = (c - (k + 1)) + 1 := by omega
        rw [h2, List.getElem?_cons_succ]
      · rw [if_neg (by omega), if_neg hle]

theorem findCellRows_posInv {rows : List TableRow} (hpos : posInv rows) (r c : Nat) :
    findCellRows rows r c = if 1 ≤ r ∧ 1 ≤ c then getAt rows r c else none := by
  unfold findCellRows getAt
  rw [find?_rowsPosFrom rows 1 hpos]
  by_cases hr : 1 ≤ r
  · rw [if_pos hr]
    cases hrow : rows[r - 1]? with
    | none => simp [hrow]
    | some row =>
      have hrowpos := (rowsPosFrom_getElem rows 1 hpos (r - 1) row hrow).2.2
      show row.cells.find? (fun cl => cl.columnIndex == c) = _
      rw [find?_cellsPosFrom row.cells 1 hrowpos]
      by_cases hc : 1 ≤ c
      · rw [if_pos hc, if_pos ⟨hr, hc⟩]
        simp [getAt, hrow]
      · rw [if_neg hc, if_neg (by tauto)]
  · rw [if_neg hr, if_neg (by tauto)]
    rfl

/-! ## Position-indexed grid maps -/

theorem mapIdxFrom_length (f : Nat → α → β) : ∀ (l : List α) (k : Nat),
    (mapIdxFrom f k l).length = l.length := by
  intro l
  induction l with
  | nil => intro k; rfl
  | cons a as ih => intro k; simp [mapIdxFrom, ih (k + 1)]

theorem mapIdxFrom_congr {f g : Nat → α → β} : ∀ {l : List α} {k : Nat},
    (∀ i x, f i x = g i x) → mapIdxFrom f k l = mapIdxFrom g k l := by
  intro l
  induction l with
  | nil => intro k _; rfl
  | cons a as ih => intro k h; simp only [mapIdxFrom]; rw [h k a, ih h]

theorem mapIdxFrom_id : ∀ (l : List α) (k : Nat), mapIdxFrom (fun _ x => x) k l = l := by
  intro l
  induction l with
  | nil => intro k; rfl
  | cons a as ih => intro k; simp only [mapIdxFrom]; rw [ih (k + 1)]

theorem mapIdxFrom_comp (f : Nat → β → γ) (g : Nat → α → β) : ∀ (l : List α) (k : Nat),
    mapIdxFrom f k (mapIdxFrom g k l) = mapIdxFrom (fun i x => f i (g i x)) k l := by
  intro l
  induction l with
  | nil => intro k; rfl
  | cons a as ih => intro k; simp only [mapIdxFrom]; rw [ih (k + 1)]

theorem mem_mapIdxFrom {f : Nat → α → β} {y : β} : ∀ {l : List α} {k : Nat},
    y ∈ mapIdxFrom f k l ↔ ∃ i x, l[i]? = some x ∧ y = f (k + i) x := by
  intro l
  induction l with
  | nil => intro k; simp [mapIdxFrom]
  | cons a as ih =>
    intro k
    simp only [mapIdxFrom, List.mem_cons]
    constructor
    · rintro (h | h)
      · exact ⟨0, a, by simp, by simpa using h⟩
      · obtain ⟨i, x, hx, hy⟩ := ih.mp h
        exact ⟨i + 1, x, by simpa using hx, by rw [hy]; congr 1; omega⟩
    · rintro ⟨i, x, hx, hy⟩
      cases i with
      | zero =>
        left
        simp only [List.getElem?_cons_zero] at hx
        injection hx with hx
        subst hx
        simpa using hy
      | succ n =>
        right
        simp only [List.getElem?_cons_succ] at hx
        refine ih.mpr ⟨n, x, hx, ?_⟩
        rw [hy]; congr 1; omega

/-- Apply a position-indexed cell transformation at every 1-based
position of the grid. -/
def mapGrid2 (F : Nat → Nat → CellObject → CellObject) (rows : List TableRow) :
    List TableRow :=
  mapIdxFrom (fun ri row => { row with cells := mapIdxFrom (fun ci cl => F ri ci cl) 1 row.cells })
    1 rows

theorem mapGrid2_id (rows : List TableRow) : mapGrid2 (fun _ _ cl => cl) rows = rows := by
  unfold mapGrid2
  have h : ∀ (ri : Nat) (row : TableRow),
      ({ row with cells := mapIdxFrom (fun ci cl => cl) 1 row.cells } : TableRow) = row := by
    intro ri row
    rw [mapIdxFrom_id]
  calc mapIdxFrom (fun ri row => { row with cells := mapIdxFrom (fun ci cl => cl) 1 row.cells })
        1 rows
      = mapIdxFrom (fun _ row => row) 1 rows := mapIdxFrom_congr (fun i row => h i row)
    _ = rows := mapIdxFrom_id rows 1

theorem mapGrid2_comp (F G : Nat → Nat → CellObject → CellObject) (rows : List TableRow) :
    mapGrid2 F (mapGrid2 G rows) = mapGrid2 (fun ri ci cl => F ri ci (G ri ci cl)) rows := by
  unfold mapGrid2
  rw [mapIdxFrom_comp]
  exact mapIdxFrom_congr (fun ri row => by simp only; rw [mapIdxFrom_comp])

theorem mapCells_eq_mapGrid2 (T : CellObject → CellObject) (rows : List TableRow) :
    mapCells T rows = mapGrid2 (fun _ _ cl => T cl) rows := by
  unfold mapCells mapGrid2
  have hcells : ∀ (cells : List CellObject) (k : Nat),
      cells.map T = mapIdxFrom (fun _ cl => T cl) k cells := by
    intro cells
    induction cells with
    | nil => intro k; rfl
    | cons a as ih => intro k; simp only [List.map_cons, mapIdxFrom]; rw [ih (k + 1)]
  have hrows : ∀ (rs : List TableRow) (k : Nat),
      rs.map (fun row => { row with cells := row.cells.map T })
        = mapIdxFrom (fun _ row => { row with cells := mapIdxFrom (fun _ cl => T cl) 1 row.cells })
            k rs := by
    intro rs
    induction rs with
    | nil => intro k; rfl
    | cons a as ih =>
      intro k
      simp only [List.map_cons, mapIdxFrom]
      rw [ih (k + 1), hcells a.cells 1]
  exact hrows rows 1

theorem mapIdxFrom_congrOn {f g : Nat → α → β} : ∀ {l : List α} {k : Nat},
    (∀ i x, l[i]? = some x → f (k + i) x = g (k + i) x) →
    mapIdxFrom f k l = mapIdxFrom g k l := by
  intro l
  induction l with
  | nil => intro k _; rfl
  | cons a as ih =>
    intro k h
    simp only [mapIdxFrom]
    rw [show f k a = g k a by simpa using h 0 a (by simp),
        ih (fun i x hx => by
          have := h (i + 1) x (by simpa using hx)
          rwa [show k + (i + 1) = k + 1 + i by omega] at this)]

theorem getAt_mapGrid2 (F : Nat → Nat → CellObject → CellObject) (rows : List TableRow)
    {r c : Nat} (hr : 1 ≤ r) (hc : 1 ≤ c) :
    getAt (mapGrid2 F rows) r c = (getAt rows r c).map (F r c) := by
  unfold getAt mapGrid2
  rw [mapIdxFrom_getElem?]
  cases hrow : rows[r - 1]? with
  | none => rfl
  | some row =>
    show (mapIdxFrom (fun ci cl => F (1 + (r - 1)) ci cl) 1 row.cells)[c - 1]?
      = row.cells[c - 1]?.map (F r c)
    rw [mapIdxFrom_getElem?]
    rw [show 1 + (r - 1) = r by omega]
    cases hcell : row.cells[c - 1]? with
    | none => rfl
    | some cl =>
      rw [show 1 + (c - 1) = c by omega]

theorem mapGrid2_length (F : Nat → Nat → CellObject → CellObject) (rows : List TableRow) :
    (mapGrid2 F rows).length = rows.length := mapIdxFrom_length _ rows 1

theorem dimInv_mapGrid2 {g : TableState} (F : Nat → Nat → CellObject → CellObject)
    (hd : dimInv g) :
    dimInv { g with tableRows := mapGrid2 F g.tableRows } := by
  obtain ⟨hlen, hcells⟩ := hd
  refine ⟨by simpa [mapGrid2_length] using hlen, ?_⟩
  intro row hrow
  obtain ⟨i, orig, horig, hroweq⟩ := mem_mapIdxFrom.mp hrow
  subst hroweq
  show (mapIdxFrom _ 1 orig.cells).length = g.columnCount
  rw [mapIdxFrom_length]
  exact hcells orig (List.getElem?_mem horig)

theorem cellsPosFrom_mapIdxFrom {F : Nat → Nat → CellObject → CellObject} {ri : Nat}
    (hF : ∀ p q cl, (F p q cl).id = cl.id ∧ (F p q cl).rowIndex = cl.rowIndex ∧
      (F p q cl).columnIndex = cl.columnIndex) :
    ∀ (cells : List CellObject) (k : Nat),
    cellsPosFrom ri k (mapIdxFrom (fun ci cl => F ri ci cl) k cells)
      = cellsPosFrom ri k cells := by
  intro cells
  induction cells with
  | nil => intro k; rfl
  | cons a as ih =>
    intro k
    simp only [mapIdxFrom, cellsPosFrom]
    rw [(hF ri k a).1, (hF ri k a).2.1, (hF ri k a).2.2, ih (k + 1)]

theorem posInv_mapGrid2 {F : Nat → Nat → CellObject → CellObject} {rows : List TableRow}
    (hF : ∀ p q cl, (F p q cl).id = cl.id ∧ (F p q cl).rowIndex = cl.rowIndex ∧
      (F p q cl).columnIndex = cl.columnIndex)
    (hpos : posInv rows) : posInv (mapGrid2 F rows) := by
  unfold posInv mapGrid2
  have main : ∀ (rs : List TableRow) (k : Nat),
      rowsPosFrom k rs = true →
      rowsPosFrom k
        (mapIdxFrom
          (fun ri row => { row with cells := mapIdxFrom (fun ci cl => F ri ci cl) 1 row.cells })
          k rs) = true := by
    intro rs
    induction rs with
    | nil => intro k h; exact h
    | cons row rest ih =>
      intro k h
      obtain ⟨hid, hri, hcells, hrest⟩ := rowsPosFrom_cons h
      simp only [mapIdxFrom]
      refine rowsPosFrom_of_parts (by simpa using hid) (by simpa using hri) ?_ (ih (k + 1) hrest)
      show cellsPosFrom k 1 (mapIdxFrom (fun ci cl => F k ci cl) 1 row.cells) = true
      rw [cellsPosFrom_mapIdxFrom hF row.cells 1]
      exact hcells
  exact main rows 1 hpos

theorem mapGrid2_congrOn {F G : Nat → Nat → CellObject → CellObject} {rows : List TableRow}
    (h : ∀ r c cl, getAt rows r c = some cl → 1 ≤ r → 1 ≤ c → F r c cl = G r c cl) :
    mapGrid2 F rows = mapGrid2 G rows := by
  unfold mapGrid2
  refine mapIdxFrom_congrOn (fun i row hrow => ?_)
  have hcells : mapIdxFrom (fun ci cl => F (1 + i) ci cl) 1 row.cells
      = mapIdxFrom (fun ci cl => G (1 + i) ci cl) 1 row.cells := by
    refine mapIdxFrom_congrOn (fun j cl hcl => ?_)
    refine h (1 + i) (1 + j) cl ?_ (by omega) (by omega)
    unfold getAt
    rw [show 1 + i - 1 = i by omega, hrow]
    show row.cells[1 + j - 1]? = some cl
    rw [show 1 + j - 1 = j by omega]
    exact hcl
  rw [hcells]

theorem mapIdxFrom_if_out {f : CellObject → CellObject} {c : Nat} :
    ∀ (cells : List CellObject) (k : Nat), c < k →
    mapIdxFrom (fun ci cl => if ci = c then f cl else cl) k cells = cells := by
  intro cells
  induction cells with
  | nil => intro k _; rfl
  | cons a as ih =>
    intro k hk
    simp only [mapIdxFrom]
    rw [if_neg (by omega), ih (k + 1) (by omega)]

theorem updateFirstBy_cellsPos {ri c : Nat} {f : CellObject → CellObject} :
    ∀ (cells : List CellObject) (k : Nat), cellsPosFrom ri k cells = true →
    updateFirstBy (fun cl => cl.columnIndex == c) f cells
      = mapIdxFrom (fun ci cl => if ci = c then f cl else cl) k cells := by
  intro cells
  induction cells with
  | nil => intro k _; rfl
  | cons a as ih =>
    intro k hpos
    obtain ⟨hid, hri, hci, hrest⟩ := cellsPosFrom_cons hpos
    unfold updateFirstBy
    simp only [mapIdxFrom]
    by_cases hkc : k = c
    · subst hkc
      rw [if_pos (by simp [hci]), if_pos rfl, mapIdxFrom_if_out as (k + 1) (by omega)]
    · rw [if_neg (by simp [hci, hkc]), if_neg hkc, ih (k + 1) hrest]

def pointUpdate (r c : Nat) (f : CellObject -> CellObject) :
    Nat -> Nat -> CellObject -> CellObject :=
  fun ri ci cl => if ri = r ∧ ci = c then f cl else cl

theorem mapIdxFrom_row_out {r c : Nat} {f : CellObject -> CellObject} :
    ∀ (rs : List TableRow) (k : Nat), r < k ->
    mapIdxFrom (fun ri row => { row with cells := mapIdxFrom (fun ci cl => pointUpdate r c f ri ci cl) 1 row.cells }) k rs = rs := by
  intro rs
  induction rs with
  | nil => intro k _; rfl
  | cons row rest ih =>
    intro k hk
    simp only [mapIdxFrom]
    rw [ih (k + 1) (by omega)]
    have hrow : mapIdxFrom (fun ci cl => pointUpdate r c f k ci cl) 1 row.cells = row.cells := by
      calc mapIdxFrom (fun ci cl => pointUpdate r c f k ci cl) 1 row.cells
          = mapIdxFrom (fun _ cl => cl) 1 row.cells :=
            mapIdxFrom_congr (fun i x => by simp only [pointUpdate]; rw [if_neg (by omega)])
        _ = row.cells := mapIdxFrom_id row.cells 1
    rw [hrow]

/-- On a positional grid, the find-and-mutate update is the pointwise map
touching only position `(r, c)`. -/
theorem updateCellRows_eq_mapGrid2 {rows : List TableRow} (hpos : posInv rows)
    (r c : Nat) (f : CellObject -> CellObject) :
    updateCellRows rows r c f = mapGrid2 (pointUpdate r c f) rows := by
  unfold updateCellRows mapGrid2
  have main : ∀ (rs : List TableRow) (k : Nat), rowsPosFrom k rs = true ->
      updateFirstBy (fun row => row.rowIndex == r) (fun row => { row with cells := updateFirstBy (fun cl => cl.columnIndex == c) f row.cells }) rs
      = mapIdxFrom (fun ri row => { row with cells := mapIdxFrom (fun ci cl => pointUpdate r c f ri ci cl) 1 row.cells }) k rs := by
    intro rs
    induction rs with
    | nil => intro k _; rfl
    | cons row rest ih =>
      intro k hpos2
      obtain ⟨hid, hri, hcells, hrest⟩ := rowsPosFrom_cons hpos2
      unfold updateFirstBy
      simp only [mapIdxFrom]
      by_cases hkr : k = r
      · subst hkr
        rw [if_pos (by simp [hri])]
        rw [mapIdxFrom_row_out rest (k + 1) (by omega)]
        have hc : mapIdxFrom (fun ci cl => pointUpdate k c f k ci cl) 1 row.cells
            = mapIdxFrom (fun ci cl => if ci = c then f cl else cl) 1 row.cells :=
          mapIdxFrom_congr (fun i x => by simp only [pointUpdate]; by_cases h : i = c <;> simp [h])
        rw [hc, updateFirstBy_cellsPos row.cells 1 hcells]
      · rw [if_neg (by simp [hri, hkr]), ih (k + 1) hrest]
        have hrow : mapIdxFrom (fun ci cl => pointUpdate r c f k ci cl) 1 row.cells = row.cells := by
          calc mapIdxFrom (fun ci cl => pointUpdate r c f k ci cl) 1 row.cells
              = mapIdxFrom (fun _ cl => cl) 1 row.cells :=
                mapIdxFrom_congr (fun i x => by simp only [pointUpdate]; rw [if_neg (by tauto)])
            _ = row.cells := mapIdxFrom_id row.cells 1
        rw [hrow]
  exact main rows 1 hpos

/-! ## Cells with their positions, and counting -/

def cellsOf (rows : List TableRow) : List CellObject := rows.flatMap (fun row => row.cells)

def rowPosPairs (ri : Nat) (cells : List CellObject) : List ((Nat × Nat) × CellObject) :=
  mapIdxFrom (fun ci cl => ((ri, ci), cl)) 1 cells

def cellsOfPos (rows : List TableRow) : List ((Nat × Nat) × CellObject) :=
  (mapIdxFrom (fun ri row => rowPosPairs ri row.cells) 1 rows).flatten

theorem rowPosPairs_map_snd (ri : Nat) : ∀ (cells : List CellObject) (k : Nat),
    (mapIdxFrom (fun ci cl => ((ri, ci), cl)) k cells).map Prod.snd = cells := by
  intro cells
  induction cells with
  | nil => intro k; rfl
  | cons a as ih => intro k; simp only [mapIdxFrom, List.map_cons]; rw [ih (k + 1)]

theorem cellsOf_eq_map_snd (rows : List TableRow) :
    cellsOf rows = (cellsOfPos rows).map Prod.snd := by
  unfold cellsOf cellsOfPos
  have main : ∀ (rs : List TableRow) (k : Nat),
      rs.flatMap (fun row => row.cells)
        = ((mapIdxFrom (fun ri row => rowPosPairs ri row.cells) k rs).flatten).map Prod.snd := by
    intro rs
    induction rs with
    | nil => intro k; rfl
    | cons row rest ih =>
      intro k
      simp only [List.flatMap_cons, mapIdxFrom, List.flatten_cons, List.map_append]
      rw [← ih (k + 1)]
      unfold rowPosPairs
      rw [rowPosPairs_map_snd k row.cells 1]
  exact main rows 1

theorem rowPosPairs_mapIdx (F : Nat → Nat → CellObject → CellObject) (ri : Nat) :
    ∀ (cells : List CellObject) (k : Nat),
    mapIdxFrom (fun ci cl => ((ri, ci), cl)) k (mapIdxFrom (fun ci cl => F ri ci cl) k cells)
      = (mapIdxFrom (fun ci cl => ((ri, ci), cl)) k cells).map
          (fun pc => (pc.1, F pc.1.1 pc.1.2 pc.2)) := by
  intro cells
  induction cells with
  | nil => intro k; rfl
  | cons a as ih =>
    intro k
    simp only [mapIdxFrom, List.map_cons]
    rw [ih (k + 1)]

theorem cellsOfPos_mapGrid2 (F : Nat → Nat → CellObject → CellObject) (rows : List TableRow) :
    cellsOfPos (mapGrid2 F rows)
      = (cellsOfPos rows).map (fun pc => (pc.1, F pc.1.1 pc.1.2 pc.2)) := by
  unfold cellsOfPos mapGrid2
  have main : ∀ (rs : List TableRow) (k : Nat),
      ((mapIdxFrom (fun ri row => rowPosPairs ri row.cells) k
          (mapIdxFrom
            (fun ri row =>
              { row with cells := mapIdxFrom (fun ci cl => F ri ci cl) 1 row.cells })
            k rs)).flatten)
        = ((mapIdxFrom (fun ri row => rowPosPairs ri row.cells) k rs).flatten).map
            (fun pc => (pc.1, F pc.1.1 pc.1.2 pc.2)) := by
    intro rs
    induction rs with
    | nil => intro k; rfl
    | cons row rest ih =>
      intro k
      simp only [mapIdxFrom, List.flatten_cons, List.map_append]
      rw [ih (k + 1)]
      unfold rowPosPairs
      rw [rowPosPairs_mapIdx F k row.cells 1]
  exact main rows 1

theorem mem_cellsOfPos {rows : List TableRow} {pc : (Nat × Nat) × CellObject} :
    pc ∈ cellsOfPos rows ↔
      1 ≤ pc.1.1 ∧ 1 ≤ pc.1.2 ∧ getAt rows pc.1.1 pc.1.2 = some pc.2 := by
  unfold cellsOfPos getAt
  rw [List.mem_flatten]
  constructor
  · rintro ⟨l, hl, hpc⟩
    obtain ⟨i, row, hrow, hleq⟩ := mem_mapIdxFrom.mp hl
    subst hleq
    unfold rowPosPairs at hpc
    obtain ⟨j, cl, hcl, hpceq⟩ := mem_mapIdxFrom.mp hpc
    subst hpceq
    refine ⟨by show 1 ≤ 1 + i; omega, by show 1 ≤ 1 + j; omega, ?_⟩
    show rows[1 + i - 1]?.bind (fun row => row.cells[1 + j - 1]?) = some cl
    rw [show 1 + i - 1 = i by omega, hrow]
    show row.cells[1 + j - 1]? = some cl
    rw [show 1 + j - 1 = j by omega]
    exact hcl
  · rintro ⟨hr, hc, hget⟩
    cases hrow : rows[pc.1.1 - 1]? with
    | none => rw [hrow] at hget; exact Option.noConfusion hget
    | some row =>
      rw [hrow] at hget
      replace hget : row.cells[pc.1.2 - 1]? = some pc.2 := hget
      refine ⟨rowPosPairs pc.1.1 row.cells, ?_, ?_⟩
      · refine mem_mapIdxFrom.mpr ⟨pc.1.1 - 1, row, hrow, ?_⟩
        rw [show 1 + (pc.1.1 - 1) = pc.1.1 by omega]
      · unfold rowPosPairs
        refine mem_mapIdxFrom.mpr ⟨pc.1.2 - 1, pc.2, hget, ?_⟩
        rw [show 1 + (pc.1.2 - 1) = pc.1.2 by omega]

theorem rowPosPairs_map_fst (ri : Nat) : ∀ (cells : List CellObject) (k : Nat),
    (mapIdxFrom (fun ci cl => ((ri, ci), cl)) k cells).map Prod.fst
      = (List.range' k cells.length).map (fun c => (ri, c)) := by
  intro cells
  induction cells with
  | nil => intro k; rfl
  | cons a as ih =>
    intro k
    simp only [mapIdxFrom, List.map_cons, List.length_cons, List.range'_succ]
    rw [ih (k + 1)]

theorem cellsOfPos_map_fst {g : TableState} (hd : dimInv g) :
    (cellsOfPos g.tableRows).map Prod.fst
      = rectPositions 1 1 g.rowCount g.columnCount := by
  obtain ⟨hlen, hcells⟩ := hd
  unfold cellsOfPos rectPositions
  rw [show g.rowCount + 1 - 1 = g.rowCount from by omega,
      show g.columnCount + 1 - 1 = g.columnCount from by omega]
  have main : ∀ (rs : List TableRow) (k : Nat),
      (∀ row ∈ rs, row.cells.length = g.columnCount) →
      ((mapIdxFrom (fun ri row => rowPosPairs ri row.cells) k rs).flatten).map Prod.fst
        = (List.range' k rs.length).flatMap
            (fun r => (List.range' 1 g.columnCount).map (fun c => (r, c))) := by
    intro rs
    induction rs with
    | nil => intro k _; rfl
    | cons row rest ih =>
      intro k hc
      simp only [mapIdxFrom, List.flatten_cons, List.map_append, List.length_cons,
        List.range'_succ, List.flatMap_cons]
      rw [ih (k + 1) (fun r hr => hc r (List.mem_cons_of_mem _ hr))]
      unfold rowPosPairs
      rw [rowPosPairs_map_fst k row.cells 1, hc row (List.mem_cons_self row rest)]
  rw [← hlen]
  exact main g.tableRows 1 hcells

theorem countP_flatMap (p : β → Bool) (f : α → List β) : ∀ l : List α,
    (l.flatMap f).countP p = (l.map (fun x => (f x).countP p)).sum := by
  intro l
  induction l with
  | nil => rfl
  | cons a as ih => simp [List.flatMap_cons, List.countP_append, ih]

theorem sum_map_ite {q : α → Bool} (K : Nat) : ∀ l : List α,
    (l.map (fun x => if q x then K else 0)).sum = K * l.countP q := by
  intro l
  induction l with
  | nil => simp
  | cons a as ih =>
    simp only [List.map_cons, List.sum_cons, ih, List.countP_cons]
    by_cases h : q a <;> simp [h] <;> ring

theorem countP_range'_interval (a b : Nat) : ∀ (n k : Nat),
    (List.range' k n).countP (fun x => decide (a ≤ x ∧ x ≤ b))
      = min (k + n) (b + 1) - max k a := by
  intro n
  induction n with
  | zero =>
    intro k
    rw [show List.range' k 0 = [] from rfl, List.countP_nil]
    omega
  | succ m ih =>
    intro k
    rw [List.range'_succ, List.countP_cons, ih (k + 1)]
    by_cases h : a ≤ k ∧ k ≤ b
    · rw [if_pos (by simpa using h)]; omega
    · rw [if_neg (by simpa using h)]; omega

theorem countP_rectPositions_rect {R C minR maxR minC maxC : Nat}
    (h1 : 1 ≤ minR) (h2 : minR ≤ maxR) (h3 : maxR ≤ R)
    (h4 : 1 ≤ minC) (h5 : minC ≤ maxC) (h6 : maxC ≤ C) :
    (rectPositions 1 1 R C).countP
        (fun p => decide (minR ≤ p.1 ∧ p.1 ≤ maxR ∧ minC ≤ p.2 ∧ p.2 ≤ maxC))
      = (maxR - minR + 1) * (maxC - minC + 1) := by
  unfold rectPositions
  rw [show R + 1 - 1 = R from by omega, show C + 1 - 1 = C from by omega]
  rw [countP_flatMap]
  have hrow : ∀ r : Nat,
      ((List.range' 1 C).map (fun c => (r, c))).countP
          (fun p => decide (minR ≤ p.1 ∧ p.1 ≤ maxR ∧ minC ≤ p.2 ∧ p.2 ≤ maxC))
        = if decide (minR ≤ r ∧ r ≤ maxR) then maxC - minC + 1 else 0 := by
    intro r
    rw [List.countP_map]
    by_cases hr : minR ≤ r ∧ r ≤ maxR
    · rw [if_pos (by simpa using hr)]
      have : ((fun p : Nat × Nat => decide (minR ≤ p.1 ∧ p.1 ≤ maxR ∧ minC ≤ p.2 ∧ p.2 ≤ maxC))
          ∘ (fun c => (r, c))) = (fun c => decide (minC ≤ c ∧ c ≤ maxC)) := by
        funext c
        simp only [Function.comp]
        by_cases hc : minC ≤ c ∧ c ≤ maxC
        · simp [hr.1, hr.2, hc.1, hc.2]
        · simp only [decide_eq_decide]
          constructor
          · rintro ⟨_, _, hc1, hc2⟩; exact absurd ⟨hc1, hc2⟩ hc
          · intro hcc; exact absurd hcc hc
      rw [this, countP_range'_interval minC maxC C 1]
      omega
    · rw [if_neg (by simpa using hr)]
      have : ((fun p : Nat × Nat => decide (minR ≤ p.1 ∧ p.1 ≤ maxR ∧ minC ≤ p.2 ∧ p.2 ≤ maxC))
          ∘ (fun c => (r, c))) = (fun _ => false) := by
        funext c
        simp only [Function.comp, decide_eq_false_iff_not]
        rintro ⟨ha, hb, _⟩; exact hr ⟨ha, hb⟩
      rw [this]
      simp [List.countP_eq_length_filter]
  calc ((List.range' 1 R).map (fun r =>
          ((List.range' 1 C).map (fun c => (r, c))).countP
            (fun p => decide (minR ≤ p.1 ∧ p.1 ≤ maxR ∧ minC ≤ p.2 ∧ p.2 ≤ maxC)))).sum
      = ((List.range' 1 R).map (fun r =>
          if decide (minR ≤ r ∧ r ≤ maxR) then maxC - minC + 1 else 0)).sum := by
        rw [List.map_congr_left (fun r _ => hrow r)]
    _ = (maxC - minC + 1) * (List.range' 1 R).countP (fun r => decide (minR ≤ r ∧ r ≤ maxR)) :=
        sum_map_ite (maxC - minC + 1) (List.range' 1 R)
    _ = (maxR - minR + 1) * (maxC - minC + 1) := by
        rw [countP_range'_interval minR maxR R 1]
        have : min (1 + R) (maxR + 1) - max 1 minR = maxR - minR + 1 := by omega
        rw [this]
        ring

/-! ## Dissolve-set algebra -/

def hasMidIn (M : List MergeGroupId) (cl : CellObject) : Bool :=
  M.any (fun m => cl.mergeId == some m)

def dissolveSet (M : List MergeGroupId) (rows : List TableRow) : List TableRow :=
  mapCells (fun cl => if hasMidIn M cl then resetMergeFields cl else cl) rows

theorem mapCells_congr {f g : CellObject → CellObject} (h : ∀ cl, f cl = g cl)
    (rows : List TableRow) : mapCells f rows = mapCells g rows := by
  have : f = g := funext h
  rw [this]

theorem mapCells_comp (f g : CellObject → CellObject) (rows : List TableRow) :
    mapCells f (mapCells g rows) = mapCells (fun cl => f (g cl)) rows := by
  unfold mapCells
  rw [List.map_map]
  refine List.map_congr_left (fun row _ => ?_)
  show ({ { row with cells := row.cells.map g } with cells := (row.cells.map g).map f }
    : TableRow) = { row with cells := row.cells.map (fun cl => f (g cl)) }
  rw [List.map_map]
  rfl

theorem any_const_false (L : List α) : (L.any fun _ => false) = false := by
  induction L <;> simp_all

theorem mapCells_id (rows : List TableRow) : mapCells (fun cl => cl) rows = rows := by
  unfold mapCells
  simp

theorem dissolveSet_nil (rows : List TableRow) : dissolveSet [] rows = rows := by
  unfold dissolveSet
  rw [mapCells_congr (g := fun cl => cl) (fun cl => by simp [hasMidIn]), mapCells_id]

theorem dissolveSet_equiv {M M' : List MergeGroupId} (h : ∀ m, m ∈ M ↔ m ∈ M')
    (rows : List TableRow) : dissolveSet M rows = dissolveSet M' rows := by
  unfold dissolveSet
  refine mapCells_congr (fun cl => ?_) rows
  have heq : hasMidIn M cl = hasMidIn M' cl := by
    unfold hasMidIn
    cases hm : cl.mergeId with
    | none =>
      show (M.any fun _ => false) = (M'.any fun _ => false)
      rw [any_const_false, any_const_false]
    | some m0 =>
      show (M.any fun m => m0 == m) = (M'.any fun m => m0 == m)
      rw [Bool.eq_iff_iff]
      simp only [List.any_eq_true, beq_iff_eq, Option.some.injEq]
      constructor
      · rintro ⟨m, hmem, he⟩; exact ⟨m, (h m).mp hmem, he⟩
      · rintro ⟨m, hmem, he⟩; exact ⟨m, (h m).mpr hmem, he⟩
  rw [heq]

theorem dissolveId_dissolveSet (M : List MergeGroupId) (m : MergeGroupId)
    (rows : List TableRow) :
    dissolveId (dissolveSet M rows) m = dissolveSet (M ++ [m]) rows := by
  unfold dissolveId dissolveSet
  rw [mapCells_comp]
  refine mapCells_congr (fun cl => ?_) rows
  by_cases hmem : hasMidIn M cl = true
  · rw [if_pos hmem]
    have h1 : (resetMergeFields cl).mergeId = none := rfl
    rw [if_neg (by rw [h1]; simp)]
    rw [if_pos (by unfold hasMidIn at hmem ⊢; rw [List.any_append]; simp [hmem])]
  · rw [if_neg hmem]
    by_cases hm : cl.mergeId = some m
    · rw [if_pos hm, if_pos (by unfold hasMidIn; rw [List.any_append]; simp [hm])]
    · rw [if_neg hm, if_neg (by
        unfold hasMidIn at hmem ⊢
        rw [List.any_append]
        simp only [Bool.or_eq_true, List.any_eq_true, beq_iff_eq]
        rintro (⟨m', hm', he⟩ | he)
        · exact hmem (List.any_eq_true.mpr ⟨m', hm', by simp [he]⟩)
        · exact hm (by simpa using he))]

theorem foldl_dissolveId (M : List MergeGroupId) (rows : List TableRow) :
    M.foldl dissolveId rows = dissolveSet M rows := by
  have main : ∀ (N Macc : List MergeGroupId),
      N.foldl dissolveId (dissolveSet Macc rows) = dissolveSet (Macc ++ N) rows := by
    intro N
    induction N with
    | nil => intro Macc; simp
    | cons m N' ih =>
      intro Macc
      rw [List.foldl_cons, dissolveId_dissolveSet, ih (Macc ++ [m])]
      refine dissolveSet_equiv (fun x => ?_) rows
      simp only [List.mem_append, List.mem_cons, List.mem_singleton]
      tauto
  have h0 := main M []
  rw [dissolveSet_nil] at h0
  simpa using h0

/-! ## Generic fold, bound and shape utilities -/

theorem foldl_preserves {P : α → Prop} {f : α → β → α} (hf : ∀ a b, P a → P (f a b)) :
    ∀ (l : List β) (a : α), P a → P (l.foldl f a) := by
  intro l
  induction l with
  | nil => intro a h; exact h
  | cons b l' ih => intro a h; exact ih (f a b) (hf a b h)

theorem foldl_min_le_init : ∀ (l : List Nat) (a : Nat), l.foldl min a ≤ a := by
  intro l
  induction l with
  | nil => intro a; exact Nat.le_refl a
  | cons x l' ih => intro a; exact Nat.le_trans (ih (min a x)) (Nat.min_le_left a x)

theorem foldl_min_le {x : Nat} : ∀ {l : List Nat}, x ∈ l → ∀ (a : Nat), l.foldl min a ≤ x := by
  intro l
  induction l with
  | nil => intro h; cases h
  | cons y l' ih =>
    intro h a
    rcases List.mem_cons.mp h with rfl | hx
    · exact Nat.le_trans (foldl_min_le_init l' (min a x)) (Nat.min_le_right a x)
    · exact ih hx (min a y)

theorem le_foldl_min {b : Nat} : ∀ (l : List Nat) (a : Nat), b ≤ a → (∀ x ∈ l, b ≤ x) →
    b ≤ l.foldl min a := by
  intro l
  induction l with
  | nil => intro a ha _; exact ha
  | cons y l' ih =>
    intro a ha h
    exact ih (min a y) (Nat.le_min.mpr ⟨ha, h y (List.mem_cons_self y l')⟩)
      (fun x hx => h x (List.mem_cons_of_mem y hx))

theorem init_le_foldl_max : ∀ (l : List Nat) (a : Nat), a ≤ l.foldl max a := by
  intro l
  induction l with
  | nil => intro a; exact Nat.le_refl a
  | cons x l' ih => intro a; exact Nat.le_trans (Nat.le_max_left a x) (ih (max a x))

theorem le_foldl_max {x : Nat} : ∀ {l : List Nat}, x ∈ l → ∀ (a : Nat), x ≤ l.foldl max a := by
  intro l
  induction l with
  | nil => intro h; cases h
  | cons y l' ih =>
    intro h a
    rcases List.mem_cons.mp h with rfl | hx
    · exact Nat.le_trans (Nat.le_max_right a x) (init_le_foldl_max l' (max a x))
    · exact ih hx (max a y)

theorem foldl_max_le {b : Nat} : ∀ (l : List Nat) (a : Nat), a ≤ b → (∀ x ∈ l, x ≤ b) →
    l.foldl max a ≤ b := by
  intro l
  induction l with
  | nil => intro a ha _; exact ha
  | cons y l' ih =>
    intro a ha h
    exact ih (max a y) (Nat.max_le.mpr ⟨ha, h y (List.mem_cons_self y l')⟩)
      (fun x hx => h x (List.mem_cons_of_mem y hx))

theorem headD_mem {l : List α} (h : l ≠ []) (d : α) : l.headD d ∈ l := by
  cases l with
  | nil => exact absurd rfl h
  | cons x l' => exact List.mem_cons_self x l'

theorem mapIdxFrom_append (f : Nat → α → β) : ∀ (l1 l2 : List α) (k : Nat),
    mapIdxFrom f k (l1 ++ l2) = mapIdxFrom f k l1 ++ mapIdxFrom f (k + l1.length) l2 := by
  intro l1
  induction l1 with
  | nil => intro l2 k; simp [mapIdxFrom]
  | cons a l' ih =>
    intro l2 k
    simp only [List.cons_append, mapIdxFrom, List.length_cons, List.append_eq]
    rw [ih l2 (k + 1), show k + 1 + l'.length = k + (l'.length + 1) from by omega]

theorem cellsPosFrom_append {ri : Nat} : ∀ (l1 l2 : List CellObject) (k : Nat),
    cellsPosFrom ri k (l1 ++ l2)
      = (cellsPosFrom ri k l1 && cellsPosFrom ri (k + l1.length) l2) := by
  intro l1
  induction l1 with
  | nil => intro l2 k; simp [cellsPosFrom]
  | cons cl l' ih =>
    intro l2 k
    simp only [List.cons_append, cellsPosFrom, List.length_cons, List.append_eq]
    rw [ih l2 (k + 1), show k + 1 + l'.length = k + (l'.length + 1) from by omega]
    simp [Bool.and_assoc]

theorem rowsPosFrom_append : ∀ (l1 l2 : List TableRow) (k : Nat),
    rowsPosFrom k (l1 ++ l2)
      = (rowsPosFrom k l1 && rowsPosFrom (k + l1.length) l2) := by
  intro l1
  induction l1 with
  | nil => intro l2 k; simp [rowsPosFrom]
  | cons row l' ih =>
    intro l2 k
    simp only [List.cons_append, rowsPosFrom, List.length_cons, List.append_eq]
    rw [ih l2 (k + 1), show k + 1 + l'.length = k + (l'.length + 1) from by omega]
    simp [Bool.and_assoc]

theorem updateFirstBy_length (p : α → Bool) (f : α → α) : ∀ (l : List α),
    (updateFirstBy p f l).length = l.length := by
  intro l
  induction l with
  | nil => rfl
  | cons x xs ih =>
    unfold updateFirstBy
    by_cases h : p x
    · rw [if_pos h]; rfl
    · rw [if_neg h]; simpa using ih

theorem mem_updateFirstBy {p : α → Bool} {f : α → α} :
    ∀ {l : List α} {y : α}, y ∈ updateFirstBy p f l → y ∈ l ∨ ∃ x ∈ l, y = f x := by
  intro l
  induction l with
  | nil =>
    intro y h
    exact absurd h (by simp [updateFirstBy])
  | cons x xs ih =>
    intro y h
    unfold updateFirstBy at h
    by_cases hp : p x
    · rw [if_pos hp] at h
      rcases List.mem_cons.mp h with rfl | hy
      · exact Or.inr ⟨x, List.mem_cons_self x xs, rfl⟩
      · exact Or.inl (List.mem_cons_of_mem x hy)
    · rw [if_neg hp] at h
      rcases List.mem_cons.mp h with rfl | hy
      · exact Or.inl (List.mem_cons_self y xs)
      · rcases ih hy with h1 | ⟨x0, hx0, rfl⟩
        · exact Or.inl (List.mem_cons_of_mem x h1)
        · exact Or.inr ⟨x0, List.mem_cons_of_mem x hx0, rfl⟩

theorem mem_rectPositions {p : Nat × Nat} {r1 c1 r2 c2 : Nat} :
    p ∈ rectPositions r1 c1 r2 c2 ↔ (r1 ≤ p.1 ∧ p.1 ≤ r2 ∧ c1 ≤ p.2 ∧ p.2 ≤ c2) := by
  unfold rectPositions
  rw [List.mem_flatMap]
  constructor
  · rintro ⟨r, hr, hp⟩
    rw [List.mem_range'_1] at hr
    rw [List.mem_map] at hp
    obtain ⟨c, hc, rfl⟩ := hp
    rw [List.mem_range'_1] at hc
    exact ⟨by omega, by omega, by omega, by omega⟩
  · rintro ⟨h1, h2, h3, h4⟩
    refine ⟨p.1, ?_, ?_⟩
    · rw [List.mem_range'_1]; omega
    · rw [List.mem_map]
      exact ⟨p.2, by rw [List.mem_range'_1]; omega, rfl⟩

theorem nodup_flatMap_of {f : α → List β} : ∀ {l : List α}, l.Nodup →
    (∀ a ∈ l, (f a).Nodup) →
    (∀ a ∈ l, ∀ b ∈ l, a ≠ b → ∀ x ∈ f a, x ∉ f b) →
    (l.flatMap f).Nodup := by
  intro l
  induction l with
  | nil => intro _ _ _; simp
  | cons a l' ih =>
    intro hnd hf hdisj
    rw [List.flatMap_cons, List.nodup_append]
    have hal' : a ∉ l' := (List.nodup_cons.mp hnd).1
    refine ⟨hf a (List.mem_cons_self a l'), ?_, ?_⟩
    · exact ih (List.nodup_cons.mp hnd).2
        (fun b hb => hf b (List.mem_cons_of_mem a hb))
        (fun b hb b' hb' hne => hdisj b (List.mem_cons_of_mem a hb)
          b' (List.mem_cons_of_mem a hb') hne)
    · intro x hx hx'
      rw [List.mem_flatMap] at hx'
      obtain ⟨b, hb, hxb⟩ := hx'
      have hne : a ≠ b := fun he => hal' (he ▸ hb)
      exact hdisj a (List.mem_cons_self a l') b (List.mem_cons_of_mem a hb) hne x hx hxb

theorem nodup_range' : ∀ (n s : Nat), (List.range' s n).Nodup := by
  intro n
  induction n with
  | zero => intro s; simp
  | succ n' ih =>
    intro s
    rw [List.range'_succ, List.nodup_cons]
    refine ⟨fun h => ?_, ih (s + 1)⟩
    rw [List.mem_range'_1] at h
    omega

theorem rectPositions_nodup (r1 c1 r2 c2 : Nat) : (rectPositions r1 c1 r2 c2).Nodup := by
  unfold rectPositions
  refine nodup_flatMap_of (nodup_range' _ _) ?_ ?_
  · intro r _
    refine List.Nodup.map ?_ (nodup_range' _ _)
    intro x y hxy
    exact congrArg Prod.snd hxy
  · intro a _ b _ hne x hx hx'
    rw [List.mem_map] at hx hx'
    obtain ⟨c, _, rfl⟩ := hx
    obtain ⟨c', _, he⟩ := hx'
    exact hne (congrArg Prod.fst he).symm

theorem getAt_isSome_of_dims {rows : List TableRow} {R C r c : Nat}
    (hlen : rows.length = R) (hcells : ∀ row ∈ rows, row.cells.length = C)
    (hr1 : 1 ≤ r) (hrR : r ≤ R) (hc1 : 1 ≤ c) (hcC : c ≤ C) :
    ∃ cl, getAt rows r c = some cl := by
  unfold getAt
  have hrow : r - 1 < rows.length := by omega
  rw [List.getElem?_eq_getElem hrow]
  have hclen : rows[r - 1].cells.length = C := hcells _ (List.getElem_mem hrow)
  have hcell : c - 1 < rows[r - 1].cells.length := by omega
  rw [Option.some_bind, List.getElem?_eq_getElem hcell]
  exact ⟨_, rfl⟩

theorem getAt_some_row_lt {rows : List TableRow} {r c : Nat} {cl : CellObject}
    (h : getAt rows r c = some cl) : r - 1 < rows.length := by
  unfold getAt at h
  cases hrow : rows[r - 1]? with
  | none => rw [hrow] at h; exact Option.noConfusion h
  | some row =>
    obtain ⟨hlt, -⟩ := List.getElem?_eq_some_iff.mp hrow
    exact hlt

theorem getAt_append_left {rows extra : List TableRow} {r c : Nat}
    (h : r - 1 < rows.length) :
    getAt (rows ++ extra) r c = getAt rows r c := by
  unfold getAt
  rw [List.getElem?_append, if_pos h]

theorem hasMidIn_iff {M : List MergeGroupId} {cl : CellObject} :
    hasMidIn M cl = true ↔ ∃ m, cl.mergeId = some m ∧ m ∈ M := by
  unfold hasMidIn
  rw [List.any_eq_true]
  constructor
  · rintro ⟨m, hm, he⟩
    rw [beq_iff_eq] at he
    exact ⟨m, he, hm⟩
  · rintro ⟨m, hme, hmm⟩
    exact ⟨m, hmm, by rw [beq_iff_eq]; exact hme⟩

theorem mapCells_length (T : CellObject → CellObject) (rows : List TableRow) :
    (mapCells T rows).length = rows.length := by
  unfold mapCells; simp

theorem mapCells_cells_length {T : CellObject → CellObject} {rows : List TableRow}
    {row : TableRow} (h : row ∈ mapCells T rows) :
    ∃ row0 ∈ rows, row.cells.length = row0.cells.length := by
  unfold mapCells at h
  rw [List.mem_map] at h
  obtain ⟨row0, h0, rfl⟩ := h
  exact ⟨row0, h0, by simp⟩

theorem updateCellRows_length (rows : List TableRow) (r c : Nat) (f : CellObject → CellObject) :
    (updateCellRows rows r c f).length = rows.length := updateFirstBy_length _ _ rows

theorem updateCellRows_cells_length {rows : List TableRow} {r c : Nat}
    {f : CellObject → CellObject} {row : TableRow} (h : row ∈ updateCellRows rows r c f) :
    ∃ row0 ∈ rows, row.cells.length = row0.cells.length := by
  unfold updateCellRows at h
  rcases mem_updateFirstBy h with h1 | ⟨row0, h0, rfl⟩
  · exact ⟨row, h1, rfl⟩
  · exact ⟨row0, h0, by simp [updateFirstBy_length]⟩

/-! ## The structural invariant bundle -/

/-- Agreement on the fields that `mergeCells` copies from the top-left
cell and that the group-propagation loops keep uniform. -/
def vcbEq (a b : CellObject) : Prop :=
  a.sequenceNumber = b.sequenceNumber ∧ a.checked = b.checked ∧ a.isBlocked = b.isBlocked

theorem vcbEq_refl (a : CellObject) : vcbEq a a := ⟨rfl, rfl, rfl⟩

theorem vcbEq_symm {a b : CellObject} (h : vcbEq a b) : vcbEq b a :=
  ⟨h.1.symm, h.2.1.symm, h.2.2.symm⟩

theorem vcbEq_trans {a b c : CellObject} (h1 : vcbEq a b) (h2 : vcbEq b c) : vcbEq a c :=
  ⟨h1.1.trans h2.1, h1.2.1.trans h2.2.1, h1.2.2.trans h2.2.2⟩

/-- Every cell's `rowSpan`/`colSpan` is positive. -/
def spanPos (rows : List TableRow) : Prop :=
  ∀ pc ∈ cellsOfPos rows, 1 ≤ pc.2.rowSpan ∧ 1 ≤ pc.2.colSpan

/-- Cells of a common merge group agree on value, checked and blocked. -/
def vcbInv (rows : List TableRow) : Prop :=
  ∀ pc ∈ cellsOfPos rows, ∀ qc ∈ cellsOfPos rows, ∀ m : MergeGroupId,
    pc.2.mergeId = some m → qc.2.mergeId = some m → vcbEq pc.2 qc.2

/-- Merge-group geometry: a cell carrying group id `(r1, c1, r2, c2)` is
merged, sits inside that rectangle (whose corner coordinates are genuine
1-based positions), the whole rectangle carries the id, and the top-left
member is the unique visible anchor holding the spans while every other
member is hidden with spans 1. -/
def groupInv (rows : List TableRow) : Prop :=
  ∀ pc ∈ cellsOfPos rows, ∀ m : MergeGroupId, pc.2.mergeId = some m →
    pc.2.isMerged = true
    ∧ 1 ≤ m.1 ∧ 1 ≤ m.2.1
    ∧ pc.1 ∈ rectPositions m.1 m.2.1 m.2.2.1 m.2.2.2
    ∧ (∀ q ∈ rectPositions m.1 m.2.1 m.2.2.1 m.2.2.2,
        (getAt rows q.1 q.2).map CellObject.mergeId = some (some m))
    ∧ (if pc.1 = (m.1, m.2.1)
       then pc.2.isHidden = false ∧ pc.2.rowSpan = m.2.2.1 - m.1 + 1
            ∧ pc.2.colSpan = m.2.2.2 - m.2.1 + 1
       else pc.2.isHidden = true ∧ pc.2.rowSpan = 1 ∧ pc.2.colSpan = 1)

/-- The rows-level invariant bundle maintained by every operation of the
component, relative to declared dimensions `R × C`. -/
def goodGridRows (R C : Nat) (rows : List TableRow) : Prop :=
  rows.length = R ∧ (∀ row ∈ rows, row.cells.length = C)
    ∧ posInv rows ∧ spanPos rows ∧ vcbInv rows ∧ groupInv rows

/-- The state-level invariant bundle. -/
def goodGrid (g : TableState) : Prop :=
  goodGridRows g.rowCount g.columnCount g.tableRows

theorem goodGrid_dimInv {g : TableState} (h : goodGrid g) : dimInv g :=
  ⟨h.1, h.2.1⟩

theorem getAt_map_mergeId_eq {rows : List TableRow} {r c : Nat} {m : MergeGroupId}
    (h : (getAt rows r c).map CellObject.mergeId = some (some m)) :
    ∃ cl, getAt rows r c = some cl ∧ cl.mergeId = some m := by
  cases hg : getAt rows r c with
  | none => rw [hg] at h; exact Option.noConfusion h
  | some cl =>
    rw [hg] at h
    replace h : some cl.mergeId = some (some m) := h
    exact ⟨cl, rfl, Option.some.inj h⟩

/-! ## Generic invariant preservation under position-indexed maps -/

theorem mapGrid2_congr {F G : Nat → Nat → CellObject → CellObject}
    (h : ∀ r c cl, F r c cl = G r c cl) (rows : List TableRow) :
    mapGrid2 F rows = mapGrid2 G rows := by
  have he : F = G := funext (fun r => funext (fun c => funext (fun cl => h r c cl)))
  rw [he]

theorem mapGrid2_cells_length {F : Nat → Nat → CellObject → CellObject}
    {rows : List TableRow} {row : TableRow} (h : row ∈ mapGrid2 F rows) :
    ∃ row0 ∈ rows, row.cells.length = row0.cells.length := by
  unfold mapGrid2 at h
  obtain ⟨i, row0, h0, hroweq⟩ := mem_mapIdxFrom.mp h
  subst hroweq
  exact ⟨row0, List.getElem?_mem h0, by simp [mapIdxFrom_length]⟩

theorem spanPos_mapGrid2 {F : Nat → Nat → CellObject → CellObject} {rows : List TableRow}
    (hF : ∀ r c cl, (1 ≤ cl.rowSpan ∧ 1 ≤ cl.colSpan) →
      1 ≤ (F r c cl).rowSpan ∧ 1 ≤ (F r c cl).colSpan)
    (h : spanPos rows) : spanPos (mapGrid2 F rows) := by
  intro pc hpc
  rw [cellsOfPos_mapGrid2, List.mem_map] at hpc
  obtain ⟨qc, hqc, rfl⟩ := hpc
  exact hF qc.1.1 qc.1.2 qc.2 (h qc hqc)

theorem vcbInv_mapGrid2 {F : Nat → Nat → CellObject → CellObject} {rows : List TableRow}
    (hF : ∀ r c cl, (F r c cl).mergeId = cl.mergeId ∧ vcbEq (F r c cl) cl)
    (h : vcbInv rows) : vcbInv (mapGrid2 F rows) := by
  intro pc hpc qc hqc m hpm hqm
  rw [cellsOfPos_mapGrid2, List.mem_map] at hpc hqc
  obtain ⟨pc0, hpc0, rfl⟩ := hpc
  obtain ⟨qc0, hqc0, rfl⟩ := hqc
  rw [(hF pc0.1.1 pc0.1.2 pc0.2).1] at hpm
  rw [(hF qc0.1.1 qc0.1.2 qc0.2).1] at hqm
  exact vcbEq_trans ((hF pc0.1.1 pc0.1.2 pc0.2).2)
    (vcbEq_trans (h pc0 hpc0 qc0 hqc0 m hpm hqm)
      (vcbEq_symm ((hF qc0.1.1 qc0.1.2 qc0.2).2)))

theorem groupInv_mapGrid2 {F : Nat → Nat → CellObject → CellObject} {rows : List TableRow}
    (hF : ∀ r c cl, (F r c cl).mergeId = cl.mergeId ∧ (F r c cl).isMerged = cl.isMerged
      ∧ (F r c cl).isHidden = cl.isHidden ∧ (F r c cl).rowSpan = cl.rowSpan
      ∧ (F r c cl).colSpan = cl.colSpan)
    (h : groupInv rows) : groupInv (mapGrid2 F rows) := by
  intro pc hpc m hm
  rw [cellsOfPos_mapGrid2, List.mem_map] at hpc
  obtain ⟨qc, hqc, rfl⟩ := hpc
  obtain ⟨hFm, hFmer, hFhid, hFrs, hFcs⟩ := hF qc.1.1 qc.1.2 qc.2
  rw [hFm] at hm
  obtain ⟨h1, h2, h3, h4, h5, h6⟩ := h qc hqc m hm
  refine ⟨by rw [hFmer]; exact h1, h2, h3, h4, ?_, ?_⟩
  · intro q hq
    have hq1 : 1 ≤ q.1 := le_trans h2 (mem_rectPositions.mp hq).1
    have hq2 : 1 ≤ q.2 := le_trans h3 (mem_rectPositions.mp hq).2.2.1
    rw [getAt_mapGrid2 F rows hq1 hq2]
    obtain ⟨cl', hcl', hclm⟩ := getAt_map_mergeId_eq (h5 q hq)
    rw [hcl']
    show some ((F q.1 q.2 cl').mergeId) = some (some m)
    rw [(hF q.1 q.2 cl').1, hclm]
  · by_cases hanchor : qc.1 = (m.1, m.2.1)
    · rw [if_pos hanchor] at h6 ⊢
      exact ⟨by rw [hFhid]; exact h6.1, by rw [hFrs]; exact h6.2.1,
        by rw [hFcs]; exact h6.2.2⟩
    · rw [if_neg hanchor] at h6 ⊢
      exact ⟨by rw [hFhid]; exact h6.1, by rw [hFrs]; exact h6.2.1,
        by rw [hFcs]; exact h6.2.2⟩

/-! ## The point-and-group update shape shared by value, checkbox and
blank operations -/

/-- Update the found cell with a setter, then apply the same setter to
its whole merge group when it has one (the common shape of
`handleCellValueChange`, `handleCheckboxChange` and the
`blankCells`/`unblankCells` loop body). -/
def groupSetter (s : CellObject → CellObject) (mid : MergeGroupId) (cl : CellObject) :
    CellObject :=
  if cl.mergeId = some mid then s cl else cl

def pointGroupSet (s : CellObject → CellObject) (rows : List TableRow) (r c : Nat) :
    List TableRow :=
  match findCellRows rows r c with
  | none => rows
  | some cell =>
    let rows1 := updateCellRows rows r c s
    match cell.mergeId with
    | none => rows1
    | some mid => mapCells (groupSetter s mid) rows1

def valueSetter (v : String) (cl : CellObject) : CellObject :=
  { cl with sequenceNumber := v }

def checkSetter (chk : Bool) (cl : CellObject) : CellObject :=
  { cl with checked := chk, isBlocked := chk }

def blankSetter (b : Bool) (cl : CellObject) : CellObject :=
  { cl with isBlank := b }

theorem handleCellValueChange_eq (g : TableState) (r c : Nat) (v : String) :
    handleCellValueChange g r c v =
      { g with tableRows := pointGroupSet (valueSetter v) g.tableRows r c } := by
  unfold handleCellValueChange pointGroupSet
  cases hfc : findCellRows g.tableRows r c with
  | none => rfl
  | some cell =>
    cases cell.mergeId with
    | none => rfl
    | some mid => rfl

theorem handleCheckboxChange_eq (g : TableState) (r c : Nat) :
    handleCheckboxChange g r c =
      match findCellRows g.tableRows r c with
      | none => g
      | some cell =>
        { g with tableRows := pointGroupSet (checkSetter (!cell.checked)) g.tableRows r c } := by
  unfold handleCheckboxChange pointGroupSet
  cases hfc : findCellRows g.tableRows r c with
  | none => rfl
  | some cell =>
    cases cell.mergeId with
    | none => rfl
    | some mid => rfl

theorem setBlankOne_eq (b : Bool) (rows : List TableRow) (p : Nat × Nat) :
    setBlankOne b rows p = pointGroupSet (blankSetter b) rows p.1 p.2 := by
  unfold setBlankOne pointGroupSet
  cases hfc : findCellRows rows p.1 p.2 with
  | none => rfl
  | some cell =>
    cases cell.mergeId with
    | none => rfl
    | some mid => rfl


theorem getAt_mem_cellsOfPos {rows : List TableRow} {r c : Nat} {cl : CellObject}
    (hr : 1 ≤ r) (hc : 1 ≤ c) (h : getAt rows r c = some cl) :
    ((r, c), cl) ∈ cellsOfPos rows :=
  mem_cellsOfPos.mpr ⟨hr, hc, h⟩

theorem goodGridRows_pointGroupSet {R C : Nat} {rows : List TableRow}
    (s : CellObject → CellObject)
    (hsPos : ∀ cl, (s cl).id = cl.id ∧ (s cl).rowIndex = cl.rowIndex
      ∧ (s cl).columnIndex = cl.columnIndex)
    (hsShape : ∀ cl, (s cl).mergeId = cl.mergeId ∧ (s cl).isMerged = cl.isMerged
      ∧ (s cl).isHidden = cl.isHidden ∧ (s cl).rowSpan = cl.rowSpan
      ∧ (s cl).colSpan = cl.colSpan)
    (hcong : ∀ a b, vcbEq a b → vcbEq (s a) (s b))
    (hss : ∀ cl, vcbEq (s (s cl)) (s cl))
    (h : goodGridRows R C rows) (r c : Nat) :
    goodGridRows R C (pointGroupSet s rows r c) := by
  obtain ⟨hlen, hclen, hpos, hspan, hvcb, hgrp⟩ := h
  unfold pointGroupSet
  cases hfc : findCellRows rows r c with
  | none => exact ⟨hlen, hclen, hpos, hspan, hvcb, hgrp⟩
  | some cell =>
    have hrc : 1 ≤ r ∧ 1 ≤ c ∧ getAt rows r c = some cell := by
      rw [findCellRows_posInv hpos] at hfc
      by_cases hcond : 1 ≤ r ∧ 1 ≤ c
      · rw [if_pos hcond] at hfc; exact ⟨hcond.1, hcond.2, hfc⟩
      · rw [if_neg hcond] at hfc; exact absurd hfc (by simp)
    obtain ⟨hr1, hc1, hget⟩ := hrc
    have hPUpos : ∀ p q cl, (pointUpdate r c s p q cl).id = cl.id
        ∧ (pointUpdate r c s p q cl).rowIndex = cl.rowIndex
        ∧ (pointUpdate r c s p q cl).columnIndex = cl.columnIndex := by
      intro p q cl
      unfold pointUpdate
      by_cases hpq : p = r ∧ q = c
      · rw [if_pos hpq]; exact hsPos cl
      · rw [if_neg hpq]; exact ⟨rfl, rfl, rfl⟩
    have hPUshape : ∀ p q cl, (pointUpdate r c s p q cl).mergeId = cl.mergeId
        ∧ (pointUpdate r c s p q cl).isMerged = cl.isMerged
        ∧ (pointUpdate r c s p q cl).isHidden = cl.isHidden
        ∧ (pointUpdate r c s p q cl).rowSpan = cl.rowSpan
        ∧ (pointUpdate r c s p q cl).colSpan = cl.colSpan := by
      intro p q cl
      unfold pointUpdate
      by_cases hpq : p = r ∧ q = c
      · rw [if_pos hpq]; exact hsShape cl
      · rw [if_neg hpq]; exact ⟨rfl, rfl, rfl, rfl, rfl⟩
    have h1eq : updateCellRows rows r c s = mapGrid2 (pointUpdate r c s) rows :=
      updateCellRows_eq_mapGrid2 hpos r c s
    have hpoint_carrier : ∀ (x : (Nat × Nat) × CellObject), x ∈ cellsOfPos rows →
        x.1 = (r, c) → x.2 = cell := by
      intro x hx hxp
      have hm := mem_cellsOfPos.mp hx
      rw [hxp] at hm
      have h2 := hm.2.2
      rw [hget] at h2
      exact (Option.some.inj h2).symm
    have hPUeq : ∀ (x : (Nat × Nat) × CellObject), x.1 ≠ (r, c) →
        pointUpdate r c s x.1.1 x.1.2 x.2 = x.2 := by
      intro x hx
      unfold pointUpdate
      rw [if_neg (fun hc' => hx (Prod.ext hc'.1 hc'.2))]
    have hPUpt : ∀ (x : (Nat × Nat) × CellObject), x.1 = (r, c) →
        pointUpdate r c s x.1.1 x.1.2 x.2 = s x.2 := by
      intro x hx
      unfold pointUpdate
      rw [if_pos ⟨congrArg Prod.fst hx, congrArg Prod.snd hx⟩]
    have hlen1 : (updateCellRows rows r c s).length = R := by
      rw [h1eq, mapGrid2_length]; exact hlen
    have hclen1 : ∀ row ∈ updateCellRows rows r c s, row.cells.length = C := by
      rw [h1eq]
      intro row hrow
      obtain ⟨row0, h0, he⟩ := mapGrid2_cells_length hrow
      rw [he]; exact hclen row0 h0
    have hpos1 : posInv (updateCellRows rows r c s) := by
      rw [h1eq]; exact posInv_mapGrid2 hPUpos hpos
    have hspan1 : spanPos (updateCellRows rows r c s) := by
      rw [h1eq]
      exact spanPos_mapGrid2 (fun p q cl hc' => by
        rw [(hPUshape p q cl).2.2.2.1, (hPUshape p q cl).2.2.2.2]; exact hc') hspan
    have hgrp1 : groupInv (updateCellRows rows r c s) := by
      rw [h1eq]; exact groupInv_mapGrid2 hPUshape hgrp
    show goodGridRows R C
      (match cell.mergeId with
       | none => updateCellRows rows r c s
       | some mid => mapCells (groupSetter s mid) (updateCellRows rows r c s))
    cases hcm : cell.mergeId with
    | none =>
      refine ⟨hlen1, hclen1, hpos1, hspan1, ?_, hgrp1⟩
      rw [h1eq]
      intro pc hpc qc hqc m hpm hqm
      rw [cellsOfPos_mapGrid2, List.mem_map] at hpc hqc
      obtain ⟨pc0, hpc0, rfl⟩ := hpc
      obtain ⟨qc0, hqc0, rfl⟩ := hqc
      have hpc0e : pointUpdate r c s pc0.1.1 pc0.1.2 pc0.2 = pc0.2 := by
        by_cases hpp : pc0.1 = (r, c)
        · exfalso
          rw [hPUpt pc0 hpp, (hsShape pc0.2).1, hpoint_carrier pc0 hpc0 hpp, hcm] at hpm
          exact Option.noConfusion hpm
        · exact hPUeq pc0 hpp
      have hqc0e : pointUpdate r c s qc0.1.1 qc0.1.2 qc0.2 = qc0.2 := by
        by_cases hqp : qc0.1 = (r, c)
        · exfalso
          rw [hPUpt qc0 hqp, (hsShape qc0.2).1, hpoint_carrier qc0 hqc0 hqp, hcm] at hqm
          exact Option.noConfusion hqm
        · exact hPUeq qc0 hqp
      rw [hpc0e] at hpm ⊢
      rw [hqc0e] at hqm ⊢
      exact hvcb pc0 hpc0 qc0 hqc0 m hpm hqm
    | some mid =>
      have hTpos : ∀ p q cl, (groupSetter s mid (pointUpdate r c s p q cl)).id = cl.id
          ∧ (groupSetter s mid (pointUpdate r c s p q cl)).rowIndex = cl.rowIndex
          ∧ (groupSetter s mid (pointUpdate r c s p q cl)).columnIndex = cl.columnIndex := by
        intro p q cl
        unfold groupSetter
        by_cases hc' : (pointUpdate r c s p q cl).mergeId = some mid
        · rw [if_pos hc']
          obtain ⟨ha, hb, hcc⟩ := hsPos (pointUpdate r c s p q cl)
          obtain ⟨ha', hb', hcc'⟩ := hPUpos p q cl
          exact ⟨ha.trans ha', hb.trans hb', hcc.trans hcc'⟩
        · rw [if_neg hc']
          exact hPUpos p q cl
      have hTshape : ∀ p q cl,
          (groupSetter s mid (pointUpdate r c s p q cl)).mergeId = cl.mergeId
          ∧ (groupSetter s mid (pointUpdate r c s p q cl)).isMerged = cl.isMerged
          ∧ (groupSetter s mid (pointUpdate r c s p q cl)).isHidden = cl.isHidden
          ∧ (groupSetter s mid (pointUpdate r c s p q cl)).rowSpan = cl.rowSpan
          ∧ (groupSetter s mid (pointUpdate r c s p q cl)).colSpan = cl.colSpan := by
        intro p q cl
        unfold groupSetter
        by_cases hc' : (pointUpdate r c s p q cl).mergeId = some mid
        · rw [if_pos hc']
          obtain ⟨h1, h2, h3, h4, h5⟩ := hsShape (pointUpdate r c s p q cl)
          obtain ⟨h1', h2', h3', h4', h5'⟩ := hPUshape p q cl
          exact ⟨h1.trans h1', h2.trans h2', h3.trans h3', h4.trans h4', h5.trans h5'⟩
        · rw [if_neg hc']
          exact hPUshape p q cl
      have hcomp : mapCells (groupSetter s mid) (updateCellRows rows r c s)
          = mapGrid2 (fun p q cl => groupSetter s mid (pointUpdate r c s p q cl)) rows := by
        rw [h1eq, mapCells_eq_mapGrid2, mapGrid2_comp]
      show goodGridRows R C (mapCells (groupSetter s mid) (updateCellRows rows r c s))
      rw [hcomp]
      refine ⟨by rw [mapGrid2_length]; exact hlen, ?_,
        posInv_mapGrid2 hTpos hpos,
        spanPos_mapGrid2 (fun p q cl hc' => by
          rw [(hTshape p q cl).2.2.2.1, (hTshape p q cl).2.2.2.2]; exact hc') hspan,
        ?_, groupInv_mapGrid2 hTshape hgrp⟩
      · intro row hrow
        obtain ⟨row0, h0, he⟩ := mapGrid2_cells_length hrow
        rw [he]; exact hclen row0 h0
      · -- merge-group field agreement after the full point-and-group update
        intro pc hpc qc hqc m hpm hqm
        rw [cellsOfPos_mapGrid2, List.mem_map] at hpc hqc
        obtain ⟨pc0, hpc0, rfl⟩ := hpc
        obtain ⟨qc0, hqc0, rfl⟩ := hqc
        replace hpm : (groupSetter s mid
            (pointUpdate r c s pc0.1.1 pc0.1.2 pc0.2)).mergeId = some m := hpm
        replace hqm : (groupSetter s mid
            (pointUpdate r c s qc0.1.1 qc0.1.2 qc0.2)).mergeId = some m := hqm
        rw [(hTshape pc0.1.1 pc0.1.2 pc0.2).1] at hpm
        rw [(hTshape qc0.1.1 qc0.1.2 qc0.2).1] at hqm
        show vcbEq (groupSetter s mid (pointUpdate r c s pc0.1.1 pc0.1.2 pc0.2))
          (groupSetter s mid (pointUpdate r c s qc0.1.1 qc0.1.2 qc0.2))
        by_cases hmmid : m = mid
        · subst hmmid
          have key : ∀ (x : (Nat × Nat) × CellObject), x ∈ cellsOfPos rows →
              x.2.mergeId = some m →
              vcbEq (groupSetter s m (pointUpdate r c s x.1.1 x.1.2 x.2)) (s cell) := by
            intro x hx hxm
            by_cases hxp : x.1 = (r, c)
            · rw [hPUpt x hxp, hpoint_carrier x hx hxp]
              unfold groupSetter
              rw [if_pos (by rw [(hsShape cell).1, hcm])]
              exact hss cell
            · rw [hPUeq x hxp]
              unfold groupSetter
              rw [if_pos hxm]
              exact hcong _ _
                (hvcb x hx ((r, c), cell) (getAt_mem_cellsOfPos hr1 hc1 hget) m hxm hcm)
          exact vcbEq_trans (key pc0 hpc0 hpm) (vcbEq_symm (key qc0 hqc0 hqm))
        · have hkeep : ∀ (x : (Nat × Nat) × CellObject), x ∈ cellsOfPos rows →
              x.2.mergeId = some m →
              groupSetter s mid (pointUpdate r c s x.1.1 x.1.2 x.2) = x.2 := by
            intro x hx hxm
            by_cases hxp : x.1 = (r, c)
            · exfalso
              rw [hpoint_carrier x hx hxp, hcm] at hxm
              exact hmmid (Option.some.inj hxm).symm
            · rw [hPUeq x hxp]
              unfold groupSetter
              rw [if_neg (by rw [hxm]; intro hcon; exact hmmid (Option.some.inj hcon))]
          rw [hkeep pc0 hpc0 hpm, hkeep qc0 hqc0 hqm]
          exact hvcb pc0 hpc0 qc0 hqc0 m hpm hqm

/-! ## The invariant at creation and under row/column append -/

theorem cellsPosFrom_defaultCells (ri : Nat) : ∀ (n k : Nat),
    cellsPosFrom ri (k + 1)
      ((List.range' k n).map (fun cIdx => defaultCell ri (cIdx + 1))) = true := by
  intro n
  induction n with
  | zero => intro k; rfl
  | succ n' ih =>
    intro k
    rw [List.range'_succ, List.map_cons]
    exact cellsPosFrom_of_parts rfl rfl rfl (ih (k + 1))

theorem cellsPosFrom_defaultRow (ri C : Nat) :
    cellsPosFrom ri 1 (defaultRow ri C).cells = true := by
  show cellsPosFrom ri 1 ((List.range C).map (fun cIdx => defaultCell ri (cIdx + 1))) = true
  rw [List.range_eq_range']
  exact cellsPosFrom_defaultCells ri C 0

theorem rowsPosFrom_makeTableRows (C : Nat) : ∀ (n k : Nat),
    rowsPosFrom (k + 1)
      ((List.range' k n).map (fun idx => defaultRow (idx + 1) C)) = true := by
  intro n
  induction n with
  | zero => intro k; rfl
  | succ n' ih =>
    intro k
    rw [List.range'_succ, List.map_cons]
    exact rowsPosFrom_of_parts rfl rfl (cellsPosFrom_defaultRow (k + 1) C) (ih (k + 1))

theorem posInv_makeTableRows (R C : Nat) : posInv (makeTableRows R C) := by
  show rowsPosFrom 1 ((List.range R).map (fun idx => defaultRow (idx + 1) C)) = true
  rw [List.range_eq_range']
  exact rowsPosFrom_makeTableRows C R 0

theorem defaultRow_cells_length (ri C : Nat) : (defaultRow ri C).cells.length = C := by
  show ((List.range C).map (fun cIdx => defaultCell ri (cIdx + 1))).length = C
  simp

theorem mem_defaultRow_cells {ri C : Nat} {cl : CellObject}
    (h : cl ∈ (defaultRow ri C).cells) :
    cl.mergeId = none ∧ cl.rowSpan = 1 ∧ cl.colSpan = 1 := by
  replace h : cl ∈ (List.range C).map (fun cIdx => defaultCell ri (cIdx + 1)) := h
  rw [List.mem_map] at h
  obtain ⟨cIdx, -, rfl⟩ := h
  exact ⟨rfl, rfl, rfl⟩

theorem snd_mem_cellsOf {rows : List TableRow} {pc : (Nat × Nat) × CellObject}
    (h : pc ∈ cellsOfPos rows) : pc.2 ∈ cellsOf rows := by
  rw [cellsOf_eq_map_snd]
  exact List.mem_map_of_mem _ h

theorem mem_cells_makeTableRows {R C : Nat} {cl : CellObject}
    (h : cl ∈ cellsOf (makeTableRows R C)) :
    cl.mergeId = none ∧ cl.rowSpan = 1 ∧ cl.colSpan = 1 := by
  unfold cellsOf makeTableRows at h
  rw [List.mem_flatMap] at h
  obtain ⟨row, hrow, hcl⟩ := h
  rw [List.mem_map] at hrow
  obtain ⟨idx, -, rfl⟩ := hrow
  exact mem_defaultRow_cells hcl

theorem goodGridRows_make (R C : Nat) : goodGridRows R C (makeTableRows R C) := by
  refine ⟨by unfold makeTableRows; simp, ?_, posInv_makeTableRows R C, ?_, ?_, ?_⟩
  · intro row hrow
    unfold makeTableRows at hrow
    rw [List.mem_map] at hrow
    obtain ⟨idx, -, rfl⟩ := hrow
    exact defaultRow_cells_length _ C
  · intro pc hpc
    have hd := mem_cells_makeTableRows (snd_mem_cellsOf hpc)
    rw [hd.2.1, hd.2.2]
    exact ⟨Nat.le_refl 1, Nat.le_refl 1⟩
  · intro pc hpc qc hqc m hpm hqm
    rw [(mem_cells_makeTableRows (snd_mem_cellsOf hpc)).1] at hpm
    exact Option.noConfusion hpm
  · intro pc hpc m hpm
    rw [(mem_cells_makeTableRows (snd_mem_cellsOf hpc)).1] at hpm
    exact Option.noConfusion hpm

theorem goodGrid_create {R C : Nat} {g : TableState}
    (h : createNewTable R C = some g) : goodGrid g := by
  unfold createNewTable at h
  by_cases h0 : R = 0 ∨ C = 0
  · rw [if_pos h0] at h
    exact Option.noConfusion h
  · rw [if_neg h0] at h
    injection h with hg
    subst hg
    exact goodGridRows_make R C

theorem cellsOfPos_append (l1 l2 : List TableRow) :
    cellsOfPos (l1 ++ l2)
      = cellsOfPos l1
        ++ (mapIdxFrom (fun ri row => rowPosPairs ri row.cells) (1 + l1.length) l2).flatten := by
  unfold cellsOfPos
  rw [mapIdxFrom_append, List.flatten_append]

theorem mem_cellsOfPos_addRow {rows : List TableRow} {R C : Nat}
    {pc : (Nat × Nat) × CellObject}
    (h : pc ∈ cellsOfPos (rows ++ [defaultRow (R + 1) C])) :
    pc ∈ cellsOfPos rows ∨ pc.2.mergeId = none ∧ pc.2.rowSpan = 1 ∧ pc.2.colSpan = 1 := by
  rw [cellsOfPos_append] at h
  rcases List.mem_append.mp h with h1 | h2
  · exact Or.inl h1
  · right
    replace h2 : pc ∈ rowPosPairs (1 + rows.length) (defaultRow (R + 1) C).cells ++ [] := by
      exact h2
    rw [List.append_nil] at h2
    unfold rowPosPairs at h2
    obtain ⟨j, cl, hcl, hpc⟩ := mem_mapIdxFrom.mp h2
    subst hpc
    exact mem_defaultRow_cells (List.getElem?_mem hcl)

theorem goodGrid_addRow {g : TableState} (h : goodGrid g) : goodGrid (addRow g) := by
  obtain ⟨hlen, hclen, hpos, hspan, hvcb, hgrp⟩ := h
  unfold addRow
  by_cases hcap : g.rowCount + 1 > 100
  · rw [if_pos hcap]; exact ⟨hlen, hclen, hpos, hspan, hvcb, hgrp⟩
  · rw [if_neg hcap]
    show goodGridRows (g.rowCount + 1) g.columnCount
      (g.tableRows ++ [defaultRow (g.rowCount + 1) g.columnCount])
    have hold : ∀ {q1 q2 : Nat} {cl : CellObject}, getAt g.tableRows q1 q2 = some cl →
        getAt (g.tableRows ++ [defaultRow (g.rowCount + 1) g.columnCount]) q1 q2 = some cl := by
      intro q1 q2 cl hq
      rw [getAt_append_left (getAt_some_row_lt hq)]
      exact hq
    refine ⟨by rw [List.length_append, hlen]; rfl, ?_, ?_, ?_, ?_, ?_⟩
    · intro row hrow
      rcases List.mem_append.mp hrow with h1 | h2
      · exact hclen row h1
      · rw [List.mem_singleton.mp h2]
        exact defaultRow_cells_length _ _
    · show rowsPosFrom 1 (g.tableRows ++ [defaultRow (g.rowCount + 1) g.columnCount]) = true
      rw [rowsPosFrom_append, hpos, hlen, Bool.true_and,
        show 1 + g.rowCount = g.rowCount + 1 from by omega]
      exact rowsPosFrom_of_parts rfl rfl
        (cellsPosFrom_defaultRow (g.rowCount + 1) g.columnCount) rfl
    · intro pc hpc
      rcases mem_cellsOfPos_addRow hpc with h1 | h2
      · exact hspan pc h1
      · rw [h2.2.1, h2.2.2]
        exact ⟨Nat.le_refl 1, Nat.le_refl 1⟩
    · intro pc hpc qc hqc m hpm hqm
      rcases mem_cellsOfPos_addRow hpc with h1 | h2
      · rcases mem_cellsOfPos_addRow hqc with h1' | h2'
        · exact hvcb pc h1 qc h1' m hpm hqm
        · rw [h2'.1] at hqm; exact Option.noConfusion hqm
      · rw [h2.1] at hpm; exact Option.noConfusion hpm
    · intro pc hpc m hpm
      rcases mem_cellsOfPos_addRow hpc with h1 | h2
      · obtain ⟨g1, g2, g3, g4, g5, g6⟩ := hgrp pc h1 m hpm
        refine ⟨g1, g2, g3, g4, ?_, g6⟩
        intro q hq
        obtain ⟨cl', hcl', hclm⟩ := getAt_map_mergeId_eq (g5 q hq)
        rw [hold hcl']
        show some cl'.mergeId = some (some m)
        rw [hclm]
      · rw [h2.1] at hpm; exact Option.noConfusion hpm

theorem mapIdxFrom_map (g : Nat → β → γ) (f : α → β) : ∀ (l : List α) (k : Nat),
    mapIdxFrom g k (l.map f) = mapIdxFrom (fun i x => g i (f x)) k l := by
  intro l
  induction l with
  | nil => intro k; rfl
  | cons a l' ih =>
    intro k
    simp only [List.map_cons, mapIdxFrom]
    rw [ih]

theorem mem_cellsOfPos_addColumn {rows : List TableRow} {C : Nat}
    {pc : (Nat × Nat) × CellObject}
    (h : pc ∈ cellsOfPos (rows.map (fun row =>
      { row with cells := row.cells ++ [defaultCell row.rowIndex (C + 1)] }))) :
    pc ∈ cellsOfPos rows ∨ pc.2.mergeId = none ∧ pc.2.rowSpan = 1 ∧ pc.2.colSpan = 1 := by
  unfold cellsOfPos at h
  rw [mapIdxFrom_map] at h
  rw [List.mem_flatten] at h
  obtain ⟨l, hl, hpc⟩ := h
  obtain ⟨i, row, hrow, hleq⟩ := mem_mapIdxFrom.mp hl
  subst hleq
  replace hpc : pc ∈ rowPosPairs (1 + i) (row.cells ++ [defaultCell row.rowIndex (C + 1)]) :=
    hpc
  unfold rowPosPairs at hpc
  rw [mapIdxFrom_append] at hpc
  rcases List.mem_append.mp hpc with h1 | h2
  · left
    unfold cellsOfPos
    rw [List.mem_flatten]
    refine ⟨rowPosPairs (1 + i) row.cells, ?_, h1⟩
    exact mem_mapIdxFrom.mpr ⟨i, row, hrow, rfl⟩
  · right
    obtain ⟨j, cl, hcl, hpceq⟩ := mem_mapIdxFrom.mp h2
    subst hpceq
    cases j with
    | zero =>
      replace hcl : some (defaultCell row.rowIndex (C + 1)) = some cl := hcl
      obtain rfl := Option.some.inj hcl
      exact ⟨rfl, rfl, rfl⟩
    | succ j' => exact absurd hcl (by simp)

theorem getAt_addColumn {rows : List TableRow} {C : Nat} {q1 q2 : Nat} {cl : CellObject}
    (h : getAt rows q1 q2 = some cl) :
    getAt (rows.map (fun row =>
      { row with cells := row.cells ++ [defaultCell row.rowIndex (C + 1)] })) q1 q2
      = some cl := by
  unfold getAt at h ⊢
  cases hrow : rows[q1 - 1]? with
  | none => rw [hrow] at h; exact Option.noConfusion h
  | some row =>
    rw [hrow] at h
    replace h : row.cells[q2 - 1]? = some cl := h
    rw [List.getElem?_map, hrow]
    show (row.cells ++ [defaultCell row.rowIndex (C + 1)])[q2 - 1]? = some cl
    obtain ⟨hlt, -⟩ := List.getElem?_eq_some_iff.mp h
    rw [List.getElem?_append, if_pos hlt]
    exact h

theorem rowsPosFrom_addColumn {C : Nat} : ∀ (rs : List TableRow) (k : Nat),
    rowsPosFrom k rs = true → (∀ row ∈ rs, row.cells.length = C) →
    rowsPosFrom k (rs.map (fun row =>
      { row with cells := row.cells ++ [defaultCell row.rowIndex (C + 1)] })) = true := by
  intro rs
  induction rs with
  | nil => intro k h _; exact h
  | cons row rest ih =>
    intro k h hc
    obtain ⟨hid, hri, hcells, hrest⟩ := rowsPosFrom_cons h
    rw [List.map_cons]
    refine rowsPosFrom_of_parts hid hri ?_
      (ih (k + 1) hrest (fun r hr => hc r (List.mem_cons_of_mem _ hr)))
    show cellsPosFrom k 1 (row.cells ++ [defaultCell row.rowIndex (C + 1)]) = true
    rw [cellsPosFrom_append, hcells, Bool.true_and,
      hc row (List.mem_cons_self _ _), hri,
      show 1 + C = C + 1 from by omega]
    exact cellsPosFrom_of_parts rfl rfl rfl rfl

theorem goodGrid_addColumn {g : TableState} (h : goodGrid g) : goodGrid (addColumn g) := by
  obtain ⟨hlen, hclen, hpos, hspan, hvcb, hgrp⟩ := h
  unfold addColumn
  by_cases hcap : g.columnCount + 1 > 100
  · rw [if_pos hcap]; exact ⟨hlen, hclen, hpos, hspan, hvcb, hgrp⟩
  · rw [if_neg hcap]
    show goodGridRows g.rowCount (g.columnCount + 1)
      (g.tableRows.map (fun row =>
        { row with cells := row.cells ++ [defaultCell row.rowIndex (g.columnCount + 1)] }))
    refine ⟨by rw [List.length_map]; exact hlen, ?_, ?_, ?_, ?_, ?_⟩
    · intro row hrow
      rw [List.mem_map] at hrow
      obtain ⟨row0, h0, rfl⟩ := hrow
      show (row0.cells ++ [defaultCell row0.rowIndex (g.columnCount + 1)]).length
        = g.columnCount + 1
      rw [List.length_append, hclen row0 h0]
      rfl
    · exact rowsPosFrom_addColumn g.tableRows 1 hpos hclen
    · intro pc hpc
      rcases mem_cellsOfPos_addColumn hpc with h1 | h2
      · exact hspan pc h1
      · rw [h2.2.1, h2.2.2]
        exact ⟨Nat.le_refl 1, Nat.le_refl 1⟩
    · intro pc hpc qc hqc m hpm hqm
      rcases mem_cellsOfPos_addColumn hpc with h1 | h2
      · rcases mem_cellsOfPos_addColumn hqc with h1' | h2'
        · exact hvcb pc h1 qc h1' m hpm hqm
        · rw [h2'.1] at hqm; exact Option.noConfusion hqm
      · rw [h2.1] at hpm; exact Option.noConfusion hpm
    · intro pc hpc m hpm
      rcases mem_cellsOfPos_addColumn hpc with h1 | h2
      · obtain ⟨g1, g2, g3, g4, g5, g6⟩ := hgrp pc h1 m hpm
        refine ⟨g1, g2, g3, g4, ?_, g6⟩
        intro q hq
        obtain ⟨cl', hcl', hclm⟩ := getAt_map_mergeId_eq (g5 q hq)
        rw [getAt_addColumn hcl']
        show some cl'.mergeId = some (some m)
        rw [hclm]
      · rw [h2.1] at hpm; exact Option.noConfusion hpm

/-! ## Invariant preservation under dissolution and the simple edits -/

theorem goodGridRows_dissolveSet {R C : Nat} {rows : List TableRow} (M : List MergeGroupId)
    (h : goodGridRows R C rows) : goodGridRows R C (dissolveSet M rows) := by
  obtain ⟨hlen, hclen, hpos, hspan, hvcb, hgrp⟩ := h
  unfold dissolveSet
  rw [mapCells_eq_mapGrid2]
  have hkeep : ∀ {cl : CellObject} {m : MergeGroupId},
      (if hasMidIn M cl then resetMergeFields cl else cl).mergeId = some m →
      (if hasMidIn M cl then resetMergeFields cl else cl) = cl
        ∧ cl.mergeId = some m ∧ m ∉ M := by
    intro cl m hm
    by_cases hmi : hasMidIn M cl = true
    · rw [if_pos hmi] at hm
      exact absurd hm (by
        show (none : Option MergeGroupId) ≠ some m
        simp)
    · rw [if_neg hmi] at hm ⊢
      exact ⟨rfl, hm, fun hmem => hmi (hasMidIn_iff.mpr ⟨m, hm, hmem⟩)⟩
  refine ⟨by rw [mapGrid2_length]; exact hlen, ?_,
    posInv_mapGrid2 (fun p q cl => by
      by_cases hmi : hasMidIn M cl = true
      · rw [if_pos hmi]; exact ⟨rfl, rfl, rfl⟩
      · rw [if_neg hmi]; exact ⟨rfl, rfl, rfl⟩) hpos,
    spanPos_mapGrid2 (fun p q cl hc' => by
      by_cases hmi : hasMidIn M cl = true
      · rw [if_pos hmi]; exact ⟨Nat.le_refl 1, Nat.le_refl 1⟩
      · rw [if_neg hmi]; exact hc') hspan,
    ?_, ?_⟩
  · intro row hrow
    obtain ⟨row0, h0, he⟩ := mapGrid2_cells_length hrow
    rw [he]; exact hclen row0 h0
  · intro pc hpc qc hqc m hpm hqm
    rw [cellsOfPos_mapGrid2, List.mem_map] at hpc hqc
    obtain ⟨pc0, hpc0, rfl⟩ := hpc
    obtain ⟨qc0, hqc0, rfl⟩ := hqc
    replace hpm : (if hasMidIn M pc0.2 then resetMergeFields pc0.2 else pc0.2).mergeId
        = some m := hpm
    replace hqm : (if hasMidIn M qc0.2 then resetMergeFields qc0.2 else qc0.2).mergeId
        = some m := hqm
    obtain ⟨hpe, hpm0, -⟩ := hkeep hpm
    obtain ⟨hqe, hqm0, -⟩ := hkeep hqm
    show vcbEq (if hasMidIn M pc0.2 then resetMergeFields pc0.2 else pc0.2)
      (if hasMidIn M qc0.2 then resetMergeFields qc0.2 else qc0.2)
    rw [hpe, hqe]
    exact hvcb pc0 hpc0 qc0 hqc0 m hpm0 hqm0
  · intro pc hpc m hpm
    rw [cellsOfPos_mapGrid2, List.mem_map] at hpc
    obtain ⟨pc0, hpc0, rfl⟩ := hpc
    replace hpm : (if hasMidIn M pc0.2 then resetMergeFields pc0.2 else pc0.2).mergeId
        = some m := hpm
    obtain ⟨hpe, hpm0, hmnot⟩ := hkeep hpm
    obtain ⟨g1, g2, g3, g4, g5, g6⟩ := hgrp pc0 hpc0 m hpm0
    show (if hasMidIn M pc0.2 then resetMergeFields pc0.2 else pc0.2).isMerged = true ∧ _
    rw [hpe]
    refine ⟨g1, g2, g3, g4, ?_, g6⟩
    intro q hq
    have hq1 : 1 ≤ q.1 := le_trans g2 (mem_rectPositions.mp hq).1
    have hq2 : 1 ≤ q.2 := le_trans g3 (mem_rectPositions.mp hq).2.2.1
    obtain ⟨cl', hcl', hclm⟩ := getAt_map_mergeId_eq (g5 q hq)
    rw [getAt_mapGrid2 _ rows hq1 hq2, hcl']
    show some ((if hasMidIn M cl' then resetMergeFields cl' else cl').mergeId)
      = some (some m)
    rw [if_neg (fun hmi => hmnot (by
        obtain ⟨m', hm', hmem⟩ := hasMidIn_iff.mp hmi
        rw [hclm] at hm'
        rw [Option.some.inj hm']
        exact hmem)), hclm]

theorem goodGrid_unmergeCells {g : TableState} (sel : List (Nat × Nat)) (h : goodGrid g) :
    goodGrid (unmergeCells g sel) := by
  unfold unmergeCells
  by_cases h0 : sel.length = 0
  · rw [if_pos h0]; exact h
  · rw [if_neg h0]
    by_cases hm : collectMergeIds g.tableRows sel = []
    · rw [if_pos hm]; exact h
    · rw [if_neg hm]
      show goodGridRows g.rowCount g.columnCount
        ((collectMergeIds g.tableRows sel).foldl dissolveId g.tableRows)
      rw [foldl_dissolveId]
      exact goodGridRows_dissolveSet _ h

theorem goodGrid_valueChange {g : TableState} (r c : Nat) (v : String) (h : goodGrid g) :
    goodGrid (handleCellValueChange g r c v) := by
  rw [handleCellValueChange_eq]
  exact goodGridRows_pointGroupSet (valueSetter v) (fun cl => ⟨rfl, rfl, rfl⟩)
    (fun cl => ⟨rfl, rfl, rfl, rfl, rfl⟩)
    (fun a b hab => ⟨rfl, hab.2.1, hab.2.2⟩) (fun cl => ⟨rfl, rfl, rfl⟩) h r c

theorem goodGrid_checkboxChange {g : TableState} (r c : Nat) (h : goodGrid g) :
    goodGrid (handleCheckboxChange g r c) := by
  rw [handleCheckboxChange_eq]
  cases hfc : findCellRows g.tableRows r c with
  | none => exact h
  | some cell =>
    exact goodGridRows_pointGroupSet (checkSetter (!cell.checked))
      (fun cl => ⟨rfl, rfl, rfl⟩) (fun cl => ⟨rfl, rfl, rfl, rfl, rfl⟩)
      (fun a b hab => ⟨hab.1, rfl, rfl⟩) (fun cl => ⟨rfl, rfl, rfl⟩) h r c

theorem goodGridRows_setBlankOne {R C : Nat} {rows : List TableRow} (b : Bool)
    (p : Nat × Nat) (h : goodGridRows R C rows) : goodGridRows R C (setBlankOne b rows p) := by
  rw [setBlankOne_eq]
  exact goodGridRows_pointGroupSet (blankSetter b) (fun cl => ⟨rfl, rfl, rfl⟩)
    (fun cl => ⟨rfl, rfl, rfl, rfl, rfl⟩) (fun a b' hab => hab)
    (fun cl => vcbEq_refl _) h p.1 p.2

theorem goodGrid_blankCells {g : TableState} (sel : List (Nat × Nat)) (h : goodGrid g) :
    goodGrid (blankCells g sel).1 := by
  unfold blankCells
  by_cases h0 : sel.length = 0
  · rw [if_pos h0]; exact h
  · rw [if_neg h0]
    show goodGridRows g.rowCount g.columnCount (sel.foldl (setBlankOne true) g.tableRows)
    exact foldl_preserves (fun rs p hp => goodGridRows_setBlankOne true p hp) sel g.tableRows h

theorem goodGrid_unblankCells {g : TableState} (sel : List (Nat × Nat)) (h : goodGrid g) :
    goodGrid (unblankCells g sel).1 := by
  unfold unblankCells
  by_cases h0 : sel.length = 0
  · rw [if_pos h0]; exact h
  · rw [if_neg h0]
    show goodGridRows g.rowCount g.columnCount (sel.foldl (setBlankOne false) g.tableRows)
    exact foldl_preserves (fun rs p hp => goodGridRows_setBlankOne false p hp) sel g.tableRows h

/-! ## The merge operation dissected -/

def selMinR (sel : List (Nat × Nat)) : Nat :=
  (sel.map Prod.fst).foldl min ((sel.map Prod.fst).headD 0)

def selMaxR (sel : List (Nat × Nat)) : Nat :=
  (sel.map Prod.fst).foldl max 0

def selMinC (sel : List (Nat × Nat)) : Nat :=
  (sel.map Prod.snd).foldl min ((sel.map Prod.snd).headD 0)

def selMaxC (sel : List (Nat × Nat)) : Nat :=
  (sel.map Prod.snd).foldl max 0

def selArea (sel : List (Nat × Nat)) : Nat :=
  (selMaxR sel - selMinR sel + 1) * (selMaxC sel - selMinC sel + 1)

def selRect (sel : List (Nat × Nat)) : List (Nat × Nat) :=
  rectPositions (selMinR sel) (selMinC sel) (selMaxR sel) (selMaxC sel)

def selMid (sel : List (Nat × Nat)) : MergeGroupId :=
  (selMinR sel, selMinC sel, selMaxR sel, selMaxC sel)

theorem mergeCells_eq (g : TableState) (sel : List (Nat × Nat)) :
    mergeCells g sel =
      if sel.length < 2 then ⟨g, sel, false, false⟩
      else if sel.length ≠ selArea sel then ⟨g, sel, true, false⟩
      else
        match findCellRows ((selRect sel).foldl mergeDissolveStep g.tableRows)
            (selMinR sel) (selMinC sel) with
        | none => ⟨g, [(selMinR sel, selMinC sel)], false, false⟩
        | some tl =>
          ⟨{ g with
              tableRows :=
                (selRect sel).foldl
                  (fun rs p => updateCellRows rs p.1 p.2
                    (mergeAssignCell tl (selMid sel) (selMinR sel) (selMinC sel)
                      (selMaxR sel) (selMaxC sel) p))
                  ((selRect sel).foldl mergeDissolveStep g.tableRows) },
            [(selMinR sel, selMinC sel)], false, true⟩ := rfl

theorem sel_bounds {g : TableState} {sel : List (Nat × Nat)} (hne : sel ≠ [])
    (hin : ∀ p ∈ sel, inTable g p) :
    1 ≤ selMinR sel ∧ selMaxR sel ≤ g.rowCount ∧ selMinR sel ≤ selMaxR sel
      ∧ 1 ≤ selMinC sel ∧ selMaxC sel ≤ g.columnCount ∧ selMinC sel ≤ selMaxC sel := by
  have hrne : sel.map Prod.fst ≠ [] := by
    cases sel with
    | nil => exact absurd rfl hne
    | cons p l => simp
  have hcne : sel.map Prod.snd ≠ [] := by
    cases sel with
    | nil => exact absurd rfl hne
    | cons p l => simp
  have hrb : ∀ x ∈ sel.map Prod.fst, 1 ≤ x ∧ x ≤ g.rowCount := by
    intro x hx
    rw [List.mem_map] at hx
    obtain ⟨p, hp, rfl⟩ := hx
    exact ⟨(hin p hp).1, (hin p hp).2.1⟩
  have hcb : ∀ x ∈ sel.map Prod.snd, 1 ≤ x ∧ x ≤ g.columnCount := by
    intro x hx
    rw [List.mem_map] at hx
    obtain ⟨p, hp, rfl⟩ := hx
    exact ⟨(hin p hp).2.2.1, (hin p hp).2.2.2⟩
  have hrh := headD_mem hrne 0
  have hch := headD_mem hcne 0
  refine ⟨?_, ?_, ?_, ?_, ?_, ?_⟩
  · exact le_foldl_min _ _ (hrb _ hrh).1 (fun x hx => (hrb x hx).1)
  · exact foldl_max_le _ _ (Nat.zero_le _) (fun x hx => (hrb x hx).2)
  · exact Nat.le_trans (foldl_min_le hrh _) (le_foldl_max hrh _)
  · exact le_foldl_min _ _ (hcb _ hch).1 (fun x hx => (hcb x hx).1)
  · exact foldl_max_le _ _ (Nat.zero_le _) (fun x hx => (hcb x hx).2)
  · exact Nat.le_trans (foldl_min_le hch _) (le_foldl_max hch _)

theorem hasMidIn_none {M : List MergeGroupId} {cl : CellObject} (h : cl.mergeId = none) :
    hasMidIn M cl = false := by
  cases hb : hasMidIn M cl
  · rfl
  · obtain ⟨m, hm, -⟩ := hasMidIn_iff.mp hb
    rw [h] at hm
    exact absurd hm (by simp)

theorem hasMidIn_some_mem {M : List MergeGroupId} {cl : CellObject} {m : MergeGroupId}
    (h : cl.mergeId = some m) (hm : m ∈ M) : hasMidIn M cl = true :=
  hasMidIn_iff.mpr ⟨m, h, hm⟩

theorem hasMidIn_some_not_mem {M : List MergeGroupId} {cl : CellObject} {m : MergeGroupId}
    (h : cl.mergeId = some m) (hm : m ∉ M) : hasMidIn M cl = false := by
  cases hb : hasMidIn M cl
  · rfl
  · obtain ⟨m', hm', hmem⟩ := hasMidIn_iff.mp hb
    rw [h] at hm'
    rw [← Option.some.inj hm'] at hmem
    exact absurd hmem hm

/-- One step of the merge pre-dissolve loop at the accumulator level: the
merge ids collected so far, extended when the (not yet dissolved) cell at
the visited position is merged. -/
def midsStep (rows : List TableRow) (acc : List MergeGroupId) (p : Nat × Nat) :
    List MergeGroupId :=
  match findCellRows rows p.1 p.2 with
  | some cl =>
    match cl.mergeId with
    | some m => if cl.isMerged = true ∧ m ∉ acc then acc ++ [m] else acc
    | none => acc
  | none => acc

/-- The merge ids the pre-dissolve loop collects over a position list. -/
def midsAcc (rows : List TableRow) (ps : List (Nat × Nat)) (M : List MergeGroupId) :
    List MergeGroupId :=
  ps.foldl (midsStep rows) M

def midsAt (rows : List TableRow) (ps : List (Nat × Nat)) : List MergeGroupId :=
  midsAcc rows ps []

theorem findCellRows_dissolveSet (M : List MergeGroupId) (rows : List TableRow) (r c : Nat) :
    findCellRows (dissolveSet M rows) r c
      = (findCellRows rows r c).map
          (fun cl => if hasMidIn M cl then resetMergeFields cl else cl) := by
  unfold dissolveSet
  exact findCellRows_mapCells
    (fun cl => if hasMidIn M cl then resetMergeFields cl else cl)
    (fun cl => by
      show (if hasMidIn M cl = true then resetMergeFields cl else cl).columnIndex
        = cl.columnIndex
      by_cases hmi : hasMidIn M cl = true
      · rw [if_pos hmi]; rfl
      · rw [if_neg hmi]) rows r c

theorem mergeDissolveStep_dissolveSet (rows : List TableRow) (M : List MergeGroupId)
    (p : Nat × Nat) :
    mergeDissolveStep (dissolveSet M rows) p = dissolveSet (midsStep rows M p) rows := by
  unfold mergeDissolveStep midsStep
  rw [findCellRows_dissolveSet]
  cases hfc : findCellRows rows p.1 p.2 with
  | none => rfl
  | some cl =>
    show (match (if hasMidIn M cl then resetMergeFields cl else cl).mergeId with
      | some m =>
        if (if hasMidIn M cl then resetMergeFields cl else cl).isMerged = true then
          dissolveId (dissolveSet M rows) m
        else dissolveSet M rows
      | none => dissolveSet M rows)
      = dissolveSet (match cl.mergeId with
          | some m => if cl.isMerged = true ∧ m ∉ M then M ++ [m] else M
          | none => M) rows
    cases hmid : cl.mergeId with
    | none =>
      have hni : ¬ (hasMidIn M cl = true) := by rw [hasMidIn_none hmid]; simp
      simp only [if_neg hni]
      rw [hmid]
    | some m =>
      by_cases hmem : m ∈ M
      · have hti : hasMidIn M cl = true := hasMidIn_some_mem hmid hmem
        simp only [if_pos hti]
        show dissolveSet M rows
          = dissolveSet (if cl.isMerged = true ∧ m ∉ M then M ++ [m] else M) rows
        rw [if_neg (show ¬ (cl.isMerged = true ∧ m ∉ M) from fun hco => hco.2 hmem)]
      · have hfi : ¬ (hasMidIn M cl = true) := by
          rw [hasMidIn_some_not_mem hmid hmem]; simp
        simp only [if_neg hfi]
        rw [hmid]
        show (if cl.isMerged = true then dissolveId (dissolveSet M rows) m
            else dissolveSet M rows)
          = dissolveSet (if cl.isMerged = true ∧ m ∉ M then M ++ [m] else M) rows
        by_cases hmer : cl.isMerged = true
        · rw [if_pos hmer,
            if_pos (show cl.isMerged = true ∧ m ∉ M from ⟨hmer, hmem⟩),
            dissolveId_dissolveSet]
        · rw [if_neg hmer,
            if_neg (show ¬ (cl.isMerged = true ∧ m ∉ M) from fun hco => hmer hco.1)]

theorem dissolve_fold (rows : List TableRow) : ∀ (ps : List (Nat × Nat))
    (M : List MergeGroupId),
    ps.foldl mergeDissolveStep (dissolveSet M rows) = dissolveSet (midsAcc rows ps M) rows := by
  intro ps
  induction ps with
  | nil => intro M; rfl
  | cons p ps' ih =>
    intro M
    rw [List.foldl_cons, mergeDissolveStep_dissolveSet, ih]
    rfl

theorem foldl_mergeDissolveStep (rows : List TableRow) (ps : List (Nat × Nat)) :
    ps.foldl mergeDissolveStep rows = dissolveSet (midsAt rows ps) rows := by
  have h := dissolve_fold rows ps []
  rw [dissolveSet_nil] at h
  exact h

theorem mem_midsAcc {rows : List TableRow} {m' : MergeGroupId} :
    ∀ {ps : List (Nat × Nat)} {M : List MergeGroupId},
    (m' ∈ midsAcc rows ps M ↔ m' ∈ M ∨ ∃ p ∈ ps, ∃ cl, findCellRows rows p.1 p.2 = some cl
      ∧ cl.isMerged = true ∧ cl.mergeId = some m') := by
  intro ps
  induction ps with
  | nil =>
    intro M
    simp [midsAcc]
  | cons p ps' ih =>
    intro M
    show m' ∈ midsAcc rows ps' (midsStep rows M p) ↔ _
    rw [ih]
    have hstepmem : m' ∈ midsStep rows M p ↔ m' ∈ M
        ∨ (∃ cl, findCellRows rows p.1 p.2 = some cl ∧ cl.isMerged = true
            ∧ cl.mergeId = some m') := by
      unfold midsStep
      cases hfc : findCellRows rows p.1 p.2 with
      | none =>
        show m' ∈ M ↔ m' ∈ M ∨ ∃ cl, (none : Option CellObject) = some cl
          ∧ cl.isMerged = true ∧ cl.mergeId = some m'
        constructor
        · exact Or.inl
        · rintro (h | ⟨cl', hcl', -, -⟩)
          · exact h
          · exact Option.noConfusion hcl'
      | some cl =>
        show m' ∈ (match cl.mergeId with
            | some m => if cl.isMerged = true ∧ m ∉ M then M ++ [m] else M
            | none => M) ↔ m' ∈ M
          ∨ ∃ cl', some cl = some cl' ∧ cl'.isMerged = true ∧ cl'.mergeId = some m'
        cases hmid : cl.mergeId with
        | none =>
          constructor
          · exact Or.inl
          · rintro (h | ⟨cl', hcl', -, hm⟩)
            · exact h
            · rw [← Option.some.inj hcl'] at hm
              rw [hmid] at hm
              exact Option.noConfusion hm
        | some m0 =>
          show m' ∈ (if cl.isMerged = true ∧ m0 ∉ M then M ++ [m0] else M) ↔ m' ∈ M
            ∨ ∃ cl', some cl = some cl' ∧ cl'.isMerged = true ∧ cl'.mergeId = some m'
          by_cases hcond : cl.isMerged = true ∧ m0 ∉ M
          · rw [if_pos hcond, List.mem_append, List.mem_singleton]
            constructor
            · rintro (h | rfl)
              · exact Or.inl h
              · exact Or.inr ⟨cl, rfl, hcond.1, hmid⟩
            · rintro (h | ⟨cl', hcl', hmer, hm⟩)
              · exact Or.inl h
              · right
                rw [← Option.some.inj hcl'] at hm
                rw [hmid] at hm
                exact (Option.some.inj hm).symm
          · rw [if_neg hcond]
            constructor
            · exact Or.inl
            · rintro (h | ⟨cl', hcl', hmer, hm⟩)
              · exact h
              · rw [← Option.some.inj hcl'] at hm hmer
                rw [hmid] at hm
                have hm0 : m' = m0 := (Option.some.inj hm).symm
                by_cases hmm : m' ∈ M
                · exact hmm
                · rw [hm0] at hmm
                  exact absurd ⟨hmer, hmm⟩ hcond
    rw [hstepmem]
    constructor
    · rintro ((h | hw) | ⟨q, hq, hwq⟩)
      · exact Or.inl h
      · exact Or.inr ⟨p, List.mem_cons_self p ps', hw⟩
      · exact Or.inr ⟨q, List.mem_cons_of_mem p hq, hwq⟩
    · rintro (h | ⟨q, hq, hwq⟩)
      · exact Or.inl (Or.inl h)
      · rcases List.mem_cons.mp hq with rfl | hq'
        · exact Or.inl (Or.inr hwq)
        · exact Or.inr ⟨q, hq', hwq⟩

theorem mem_midsAt {rows : List TableRow} {ps : List (Nat × Nat)} {m' : MergeGroupId} :
    m' ∈ midsAt rows ps ↔ ∃ p ∈ ps, ∃ cl, findCellRows rows p.1 p.2 = some cl
      ∧ cl.isMerged = true ∧ cl.mergeId = some m' := by
  unfold midsAt
  rw [mem_midsAcc]
  simp

theorem foldl_updateCellRows_eq (A : (Nat × Nat) → CellObject → CellObject)
    (hA : ∀ p cl, (A p cl).id = cl.id ∧ (A p cl).rowIndex = cl.rowIndex
      ∧ (A p cl).columnIndex = cl.columnIndex) :
    ∀ (ps : List (Nat × Nat)) (rows : List TableRow), posInv rows → ps.Nodup →
    ps.foldl (fun rs p => updateCellRows rs p.1 p.2 (A p)) rows
      = mapGrid2 (fun r c cl => if (r, c) ∈ ps then A (r, c) cl else cl) rows := by
  intro ps
  induction ps with
  | nil =>
    intro rows hpos _
    rw [List.foldl_nil,
      mapGrid2_congr (G := fun _ _ cl => cl)
        (fun r c cl => by rw [if_neg (List.not_mem_nil (r, c))]) rows,
      mapGrid2_id]
  | cons p ps' ih =>
    intro rows hpos hnd
    have hpmem : p ∉ ps' := (List.nodup_cons.mp hnd).1
    have hnd' : ps'.Nodup := (List.nodup_cons.mp hnd).2
    simp only [List.foldl_cons]
    rw [updateCellRows_eq_mapGrid2 hpos p.1 p.2 (A p)]
    have hpos1 : posInv (mapGrid2 (pointUpdate p.1 p.2 (A p)) rows) :=
      posInv_mapGrid2 (fun r' c' cl => by
        unfold pointUpdate
        by_cases hc' : r' = p.1 ∧ c' = p.2
        · rw [if_pos hc']; exact hA p cl
        · rw [if_neg hc']; exact ⟨rfl, rfl, rfl⟩) hpos
    rw [ih _ hpos1 hnd', mapGrid2_comp]
    refine mapGrid2_congr (fun r c cl => ?_) rows
    show (if (r, c) ∈ ps' then A (r, c) (pointUpdate p.1 p.2 (A p) r c cl)
        else pointUpdate p.1 p.2 (A p) r c cl)
      = (if (r, c) ∈ p :: ps' then A (r, c) cl else cl)
    unfold pointUpdate
    by_cases hps' : (r, c) ∈ ps'
    · rw [if_pos hps']
      have hne : ¬ (r = p.1 ∧ c = p.2) := by
        intro hc'
        have hpe : p = (r, c) := by
          cases p with
          | mk p1 p2 => exact congrArg₂ Prod.mk hc'.1.symm hc'.2.symm
        rw [hpe] at hpmem
        exact hpmem hps'
      rw [if_neg hne, if_pos (List.mem_cons_of_mem p hps')]
    · rw [if_neg hps']
      by_cases hcp : r = p.1 ∧ c = p.2
      · have hpe : (r, c) = p := by
          cases p with
          | mk p1 p2 => exact congrArg₂ Prod.mk hcp.1 hcp.2
        rw [if_pos hcp, if_pos (by rw [hpe]; exact List.mem_cons_self p ps'), hpe]
      · rw [if_neg hcp,
          if_neg (fun hmem => by
            rcases List.mem_cons.mp hmem with hpe | hmem'
            · exact hcp ⟨congrArg Prod.fst hpe, congrArg Prod.snd hpe⟩
            · exact hps' hmem')]

/-- The per-cell effect of a successful `mergeCells` on the grid: cells of
overlapped groups are first reset, then every cell of the selection
rectangle is assigned into the new group. -/
def mergeTransform (tl : CellObject) (M : List MergeGroupId) (sel : List (Nat × Nat))
    (r c : Nat) (cl : CellObject) : CellObject :=
  if (r, c) ∈ selRect sel then
    mergeAssignCell tl (selMid sel) (selMinR sel) (selMinC sel) (selMaxR sel) (selMaxC sel)
      (r, c) (if hasMidIn M cl then resetMergeFields cl else cl)
  else if hasMidIn M cl then resetMergeFields cl else cl

theorem mergeAssignCell_pos (tl : CellObject) (mid : MergeGroupId)
    (minR minC maxR maxC : Nat) (p : Nat × Nat) (cl : CellObject) :
    (mergeAssignCell tl mid minR minC maxR maxC p cl).id = cl.id
    ∧ (mergeAssignCell tl mid minR minC maxR maxC p cl).rowIndex = cl.rowIndex
    ∧ (mergeAssignCell tl mid minR minC maxR maxC p cl).columnIndex = cl.columnIndex := by
  unfold mergeAssignCell
  by_cases hc' : p.1 = minR ∧ p.2 = minC
  · rw [if_pos hc']; exact ⟨rfl, rfl, rfl⟩
  · rw [if_neg hc']; exact ⟨rfl, rfl, rfl⟩

theorem posInv_dissolveSet {M : List MergeGroupId} {rows : List TableRow}
    (hpos : posInv rows) : posInv (dissolveSet M rows) := by
  unfold dissolveSet
  rw [mapCells_eq_mapGrid2]
  exact posInv_mapGrid2 (fun p q cl => by
    by_cases hmi : hasMidIn M cl = true
    · rw [if_pos hmi]; exact ⟨rfl, rfl, rfl⟩
    · rw [if_neg hmi]; exact ⟨rfl, rfl, rfl⟩) hpos

theorem mergeCells_success_rows {g : TableState} {sel : List (Nat × Nat)} {tl : CellObject}
    (hpos : posInv g.tableRows)
    (h2 : ¬ sel.length < 2) (harea : ¬ sel.length ≠ selArea sel)
    (htl : findCellRows ((selRect sel).foldl mergeDissolveStep g.tableRows)
      (selMinR sel) (selMinC sel) = some tl) :
    (mergeCells g sel).state.tableRows
      = mapGrid2 (mergeTransform tl (midsAt g.tableRows (selRect sel)) sel) g.tableRows
    ∧ (mergeCells g sel).merged = true ∧ (mergeCells g sel).alerted = false
    ∧ (mergeCells g sel).selection = [(selMinR sel, selMinC sel)] := by
  rw [mergeCells_eq g sel, if_neg h2, if_neg harea, htl]
  refine ⟨?_, rfl, rfl, rfl⟩
  show (selRect sel).foldl
      (fun rs p => updateCellRows rs p.1 p.2
        (mergeAssignCell tl (selMid sel) (selMinR sel) (selMinC sel)
          (selMaxR sel) (selMaxC sel) p))
      ((selRect sel).foldl mergeDissolveStep g.tableRows)
    = mapGrid2 (mergeTransform tl (midsAt g.tableRows (selRect sel)) sel) g.tableRows
  rw [foldl_mergeDissolveStep]
  rw [foldl_updateCellRows_eq
    (mergeAssignCell tl (selMid sel) (selMinR sel) (selMinC sel) (selMaxR sel) (selMaxC sel))
    (mergeAssignCell_pos tl (selMid sel) (selMinR sel) (selMinC sel) (selMaxR sel)
      (selMaxC sel))
    (selRect sel) _ (posInv_dissolveSet hpos)
    (rectPositions_nodup (selMinR sel) (selMinC sel) (selMaxR sel) (selMaxC sel))]
  show mapGrid2 _ (dissolveSet (midsAt g.tableRows (selRect sel)) g.tableRows) = _
  rw [show dissolveSet (midsAt g.tableRows (selRect sel)) g.tableRows
      = mapGrid2 (fun _ _ cl =>
          if hasMidIn (midsAt g.tableRows (selRect sel)) cl then resetMergeFields cl else cl)
        g.tableRows from by
    unfold dissolveSet
    rw [mapCells_eq_mapGrid2]]
  rw [mapGrid2_comp]
  rfl

/-! ## Invariant preservation under a merge -/

theorem mergeAssignCell_fields (tl : CellObject) (mid : MergeGroupId)
    (minR minC maxR maxC : Nat) (p : Nat × Nat) (cl : CellObject) :
    (mergeAssignCell tl mid minR minC maxR maxC p cl).mergeId = some mid
    ∧ (mergeAssignCell tl mid minR minC maxR maxC p cl).isMerged = true
    ∧ vcbEq (mergeAssignCell tl mid minR minC maxR maxC p cl) tl := by
  unfold mergeAssignCell
  by_cases hc' : p.1 = minR ∧ p.2 = minC
  · rw [if_pos hc']; exact ⟨rfl, rfl, rfl, rfl, rfl⟩
  · rw [if_neg hc']; exact ⟨rfl, rfl, rfl, rfl, rfl⟩

theorem mergeAssignCell_anchor (tl : CellObject) (mid : MergeGroupId)
    (minR minC maxR maxC : Nat) (p : Nat × Nat) (cl : CellObject)
    (h : p.1 = minR ∧ p.2 = minC) :
    (mergeAssignCell tl mid minR minC maxR maxC p cl).isHidden = false
    ∧ (mergeAssignCell tl mid minR minC maxR maxC p cl).rowSpan = maxR - minR + 1
    ∧ (mergeAssignCell tl mid minR minC maxR maxC p cl).colSpan = maxC - minC + 1 := by
  unfold mergeAssignCell
  rw [if_pos h]
  exact ⟨rfl, rfl, rfl⟩

theorem mergeAssignCell_member (tl : CellObject) (mid : MergeGroupId)
    (minR minC maxR maxC : Nat) (p : Nat × Nat) (cl : CellObject)
    (h : ¬ (p.1 = minR ∧ p.2 = minC)) :
    (mergeAssignCell tl mid minR minC maxR maxC p cl).isHidden = true
    ∧ (mergeAssignCell tl mid minR minC maxR maxC p cl).rowSpan = 1
    ∧ (mergeAssignCell tl mid minR minC maxR maxC p cl).colSpan = 1 := by
  unfold mergeAssignCell
  rw [if_neg h]
  exact ⟨rfl, rfl, rfl⟩

theorem dissolveStepCell_keep {M : List MergeGroupId} {cl : CellObject} {m : MergeGroupId}
    (h : (if hasMidIn M cl then resetMergeFields cl else cl).mergeId = some m) :
    (if hasMidIn M cl then resetMergeFields cl else cl) = cl
      ∧ cl.mergeId = some m ∧ m ∉ M := by
  by_cases hmi : hasMidIn M cl = true
  · rw [if_pos hmi] at h
    exact absurd h (by
      show (none : Option MergeGroupId) ≠ some m
      simp)
  · rw [if_neg hmi] at h ⊢
    exact ⟨rfl, h, fun hmem => hmi (hasMidIn_iff.mpr ⟨m, h, hmem⟩)⟩

theorem goodGrid_mergeCells {g : TableState} {sel : List (Nat × Nat)}
    (hnd : sel.Nodup) (hin : ∀ p ∈ sel, inTable g p) (h : goodGrid g) :
    goodGrid (mergeCells g sel).state := by
  obtain ⟨hlen, hclen, hpos, hspan, hvcb, hgrp⟩ := h
  by_cases h2 : sel.length < 2
  · rw [mergeCells_eq g sel, if_pos h2]
    exact ⟨hlen, hclen, hpos, hspan, hvcb, hgrp⟩
  by_cases harea : sel.length ≠ selArea sel
  · rw [mergeCells_eq g sel, if_neg h2, if_pos harea]
    exact ⟨hlen, hclen, hpos, hspan, hvcb, hgrp⟩
  cases htl : findCellRows ((selRect sel).foldl mergeDissolveStep g.tableRows)
      (selMinR sel) (selMinC sel) with
  | none =>
    rw [mergeCells_eq g sel, if_neg h2, if_neg harea, htl]
    exact ⟨hlen, hclen, hpos, hspan, hvcb, hgrp⟩
  | some tl =>
    obtain ⟨hrows2, -, -, -⟩ := mergeCells_success_rows hpos h2 harea htl
    have hRC : (mergeCells g sel).state.rowCount = g.rowCount := by
      rw [mergeCells_eq g sel, if_neg h2, if_neg harea, htl]
    have hCC : (mergeCells g sel).state.columnCount = g.columnCount := by
      rw [mergeCells_eq g sel, if_neg h2, if_neg harea, htl]
    show goodGridRows (mergeCells g sel).state.rowCount (mergeCells g sel).state.columnCount
      (mergeCells g sel).state.tableRows
    rw [hRC, hCC, hrows2]
    -- abbreviations
    have hne : sel ≠ [] := by
      intro he
      rw [he] at h2
      exact h2 (by simp)
    obtain ⟨hb1, hb2, hb3, hb4, hb5, hb6⟩ := sel_bounds hne hin
    have hmr : ∀ q : Nat × Nat, q ∈ selRect sel ↔
        (selMinR sel ≤ q.1 ∧ q.1 ≤ selMaxR sel ∧ selMinC sel ≤ q.2 ∧ q.2 ≤ selMaxC sel) :=
      fun q => mem_rectPositions
    have hq1 : ∀ q : Nat × Nat, q ∈ selRect sel → 1 ≤ q.1 ∧ 1 ≤ q.2 := by
      intro q hq
      obtain ⟨ha, -, hb, -⟩ := (hmr q).mp hq
      exact ⟨Nat.le_trans hb1 ha, Nat.le_trans hb4 hb⟩
    have hcellrect : ∀ q : Nat × Nat, q ∈ selRect sel →
        ∃ cl, getAt g.tableRows q.1 q.2 = some cl := by
      intro q hq
      obtain ⟨ha, hb', hc', hd⟩ := (hmr q).mp hq
      exact getAt_isSome_of_dims hlen hclen (Nat.le_trans hb1 ha)
        (Nat.le_trans hb' hb2) (Nat.le_trans hb4 hc') (Nat.le_trans hd hb5)
    have hcollect : ∀ (q : Nat × Nat) (cl0 : CellObject), q ∈ selRect sel →
        getAt g.tableRows q.1 q.2 = some cl0 → ∀ m0, cl0.mergeId = some m0 →
        m0 ∈ midsAt g.tableRows (selRect sel) := by
      intro q cl0 hq hget m0 hm0
      have hmem : (q, cl0) ∈ cellsOfPos g.tableRows :=
        mem_cellsOfPos.mpr ⟨(hq1 q hq).1, (hq1 q hq).2, hget⟩
      have hmer : cl0.isMerged = true := (hgrp (q, cl0) hmem m0 hm0).1
      refine mem_midsAt.mpr ⟨q, hq, cl0, ?_, hmer, hm0⟩
      rw [findCellRows_posInv hpos, if_pos ⟨(hq1 q hq).1, (hq1 q hq).2⟩]
      exact hget
    have hsurv : ∀ (q : Nat × Nat) (cl0 : CellObject) (m0 : MergeGroupId),
        getAt g.tableRows q.1 q.2 = some cl0 → cl0.mergeId = some m0 →
        m0 ∉ midsAt g.tableRows (selRect sel) → q ∉ selRect sel := by
      intro q cl0 m0 hget hm0 hnot hq
      exact hnot (hcollect q cl0 hq hget m0 hm0)
    -- the pointwise transform facts
    have hTFin : ∀ (q : Nat × Nat) (cl' : CellObject), q ∈ selRect sel →
        mergeTransform tl (midsAt g.tableRows (selRect sel)) sel q.1 q.2 cl'
          = mergeAssignCell tl (selMid sel) (selMinR sel) (selMinC sel) (selMaxR sel)
              (selMaxC sel) (q.1, q.2)
              (if hasMidIn (midsAt g.tableRows (selRect sel)) cl' then resetMergeFields cl'
               else cl') := by
      intro q cl' hq
      unfold mergeTransform
      rw [if_pos (show ((q.1, q.2) : Nat × Nat) ∈ selRect sel from hq)]
    have hTFout : ∀ (q : Nat × Nat) (cl' : CellObject), q ∉ selRect sel →
        mergeTransform tl (midsAt g.tableRows (selRect sel)) sel q.1 q.2 cl'
          = (if hasMidIn (midsAt g.tableRows (selRect sel)) cl' then resetMergeFields cl'
             else cl') := by
      intro q cl' hq
      unfold mergeTransform
      rw [if_neg (show ¬ ((q.1, q.2) : Nat × Nat) ∈ selRect sel from hq)]
    have hTFpos : ∀ p q cl,
        (mergeTransform tl (midsAt g.tableRows (selRect sel)) sel p q cl).id = cl.id
        ∧ (mergeTransform tl (midsAt g.tableRows (selRect sel)) sel p q cl).rowIndex
            = cl.rowIndex
        ∧ (mergeTransform tl (midsAt g.tableRows (selRect sel)) sel p q cl).columnIndex
            = cl.columnIndex := by
      intro p q cl
      unfold mergeTransform
      have hd : (if hasMidIn (midsAt g.tableRows (selRect sel)) cl then resetMergeFields cl
          else cl).id = cl.id
          ∧ (if hasMidIn (midsAt g.tableRows (selRect sel)) cl then resetMergeFields cl
            else cl).rowIndex = cl.rowIndex
          ∧ (if hasMidIn (midsAt g.tableRows (selRect sel)) cl then resetMergeFields cl
            else cl).columnIndex = cl.columnIndex := by
        by_cases hmi : hasMidIn (midsAt g.tableRows (selRect sel)) cl = true
        · rw [if_pos hmi]; exact ⟨rfl, rfl, rfl⟩
        · rw [if_neg hmi]; exact ⟨rfl, rfl, rfl⟩
      by_cases hq : ((p, q) : Nat × Nat) ∈ selRect sel
      · rw [if_pos hq]
        obtain ⟨ha, hb', hc'⟩ := mergeAssignCell_pos tl (selMid sel) (selMinR sel)
          (selMinC sel) (selMaxR sel) (selMaxC sel) (p, q)
          (if hasMidIn (midsAt g.tableRows (selRect sel)) cl then resetMergeFields cl else cl)
        exact ⟨ha.trans hd.1, hb'.trans hd.2.1, hc'.trans hd.2.2⟩
      · rw [if_neg hq]
        exact hd
    refine ⟨by rw [mapGrid2_length]; exact hlen, ?_, posInv_mapGrid2 hTFpos hpos, ?_, ?_, ?_⟩
    · intro row hrow
      obtain ⟨row0, h0, he⟩ := mapGrid2_cells_length hrow
      rw [he]; exact hclen row0 h0
    · -- spans stay positive
      refine spanPos_mapGrid2 (fun p q cl hc' => ?_) hspan
      by_cases hq : ((p, q) : Nat × Nat) ∈ selRect sel
      · rw [hTFin (p, q) cl hq]
        by_cases hanch : ((p, q) : Nat × Nat).1 = selMinR sel
            ∧ ((p, q) : Nat × Nat).2 = selMinC sel
        · obtain ⟨-, hsr, hsc⟩ := mergeAssignCell_anchor tl (selMid sel) (selMinR sel)
            (selMinC sel) (selMaxR sel) (selMaxC sel) (p, q) _ hanch
          rw [hsr, hsc]
          omega
        · obtain ⟨-, hsr, hsc⟩ := mergeAssignCell_member tl (selMid sel) (selMinR sel)
            (selMinC sel) (selMaxR sel) (selMaxC sel) (p, q) _ hanch
          rw [hsr, hsc]
          omega
      · rw [hTFout (p, q) cl hq]
        by_cases hmi : hasMidIn (midsAt g.tableRows (selRect sel)) cl = true
        · rw [if_pos hmi]
          exact ⟨Nat.le_refl 1, Nat.le_refl 1⟩
        · rw [if_neg hmi]
          exact hc'
    · -- merge-group value, checked and blocked stay uniform
      intro pc hpc qc hqc m hpm hqm
      rw [cellsOfPos_mapGrid2, List.mem_map] at hpc hqc
      obtain ⟨pc0, hpc0, rfl⟩ := hpc
      obtain ⟨qc0, hqc0, rfl⟩ := hqc
      obtain ⟨hp1, hp2, hpget⟩ := mem_cellsOfPos.mp hpc0
      obtain ⟨hq1', hq2', hqget⟩ := mem_cellsOfPos.mp hqc0
      replace hpm : (mergeTransform tl (midsAt g.tableRows (selRect sel)) sel
          pc0.1.1 pc0.1.2 pc0.2).mergeId = some m := hpm
      replace hqm : (mergeTransform tl (midsAt g.tableRows (selRect sel)) sel
          qc0.1.1 qc0.1.2 qc0.2).mergeId = some m := hqm
      show vcbEq (mergeTransform tl (midsAt g.tableRows (selRect sel)) sel
          pc0.1.1 pc0.1.2 pc0.2)
        (mergeTransform tl (midsAt g.tableRows (selRect sel)) sel qc0.1.1 qc0.1.2 qc0.2)
      by_cases hpq : pc0.1 ∈ selRect sel <;> by_cases hqq : qc0.1 ∈ selRect sel
      · rw [hTFin pc0.1 pc0.2 hpq, hTFin qc0.1 qc0.2 hqq]
        exact vcbEq_trans
          (mergeAssignCell_fields tl (selMid sel) (selMinR sel) (selMinC sel)
            (selMaxR sel) (selMaxC sel) (pc0.1.1, pc0.1.2) _).2.2
          (vcbEq_symm (mergeAssignCell_fields tl (selMid sel) (selMinR sel) (selMinC sel)
            (selMaxR sel) (selMaxC sel) (qc0.1.1, qc0.1.2) _).2.2)
      · exfalso
        rw [hTFin pc0.1 pc0.2 hpq] at hpm
        rw [(mergeAssignCell_fields tl (selMid sel) (selMinR sel) (selMinC sel)
          (selMaxR sel) (selMaxC sel) (pc0.1.1, pc0.1.2) _).1] at hpm
        obtain rfl := Option.some.inj hpm
        rw [hTFout qc0.1 qc0.2 hqq] at hqm
        obtain ⟨-, hqm0, hnot⟩ := dissolveStepCell_keep hqm
        -- the old group with the new id necessarily overlapped the rectangle
        obtain ⟨-, -, -, -, gfull, -⟩ := hgrp qc0 hqc0 (selMid sel) hqm0
        have hanchor_in : ((selMinR sel, selMinC sel) : Nat × Nat) ∈ selRect sel := by
          rw [hmr]
          exact ⟨Nat.le_refl _, hb3, Nat.le_refl _, hb6⟩
        obtain ⟨acl, hacl, haclm⟩ := getAt_map_mergeId_eq (gfull _ hanchor_in)
        exact hnot (hcollect _ acl hanchor_in hacl _ haclm)
      · exfalso
        rw [hTFin qc0.1 qc0.2 hqq] at hqm
        rw [(mergeAssignCell_fields tl (selMid sel) (selMinR sel) (selMinC sel)
          (selMaxR sel) (selMaxC sel) (qc0.1.1, qc0.1.2) _).1] at hqm
        obtain rfl := Option.some.inj hqm
        rw [hTFout pc0.1 pc0.2 hpq] at hpm
        obtain ⟨-, hpm0, hnot⟩ := dissolveStepCell_keep hpm
        obtain ⟨-, -, -, -, gfull, -⟩ := hgrp pc0 hpc0 (selMid sel) hpm0
        have hanchor_in : ((selMinR sel, selMinC sel) : Nat × Nat) ∈ selRect sel := by
          rw [hmr]
          exact ⟨Nat.le_refl _, hb3, Nat.le_refl _, hb6⟩
        obtain ⟨acl, hacl, haclm⟩ := getAt_map_mergeId_eq (gfull _ hanchor_in)
        exact hnot (hcollect _ acl hanchor_in hacl _ haclm)
      · rw [hTFout pc0.1 pc0.2 hpq] at hpm ⊢
        rw [hTFout qc0.1 qc0.2 hqq] at hqm ⊢
        obtain ⟨hpe, hpm0, -⟩ := dissolveStepCell_keep hpm
        obtain ⟨hqe, hqm0, -⟩ := dissolveStepCell_keep hqm
        rw [hpe, hqe]
        exact hvcb pc0 hpc0 qc0 hqc0 m hpm0 hqm0
    · -- merge-group geometry
      intro pc hpc m hpm
      rw [cellsOfPos_mapGrid2, List.mem_map] at hpc
      obtain ⟨pc0, hpc0, rfl⟩ := hpc
      obtain ⟨hp1, hp2, hpget⟩ := mem_cellsOfPos.mp hpc0
      replace hpm : (mergeTransform tl (midsAt g.tableRows (selRect sel)) sel
          pc0.1.1 pc0.1.2 pc0.2).mergeId = some m := hpm
      show (mergeTransform tl (midsAt g.tableRows (selRect sel)) sel
          pc0.1.1 pc0.1.2 pc0.2).isMerged = true ∧ _
      by_cases hpq : pc0.1 ∈ selRect sel
      · -- a member of the freshly assigned rectangle group
        rw [hTFin pc0.1 pc0.2 hpq] at hpm ⊢
        rw [(mergeAssignCell_fields tl (selMid sel) (selMinR sel) (selMinC sel)
          (selMaxR sel) (selMaxC sel) (pc0.1.1, pc0.1.2) _).1] at hpm
        obtain rfl := Option.some.inj hpm
        refine ⟨(mergeAssignCell_fields tl (selMid sel) (selMinR sel) (selMinC sel)
            (selMaxR sel) (selMaxC sel) (pc0.1.1, pc0.1.2) _).2.1,
          hb1, hb4, hpq, ?_, ?_⟩
        · intro q' hq'
          have hq'' : q' ∈ selRect sel := hq'
          obtain ⟨cl', hcl'⟩ := hcellrect q' hq''
          rw [getAt_mapGrid2 _ _ (hq1 q' hq'').1 (hq1 q' hq'').2, hcl']
          show some ((mergeTransform tl (midsAt g.tableRows (selRect sel)) sel
              q'.1 q'.2 cl').mergeId) = some (some (selMid sel))
          rw [hTFin q' cl' hq'',
            (mergeAssignCell_fields tl (selMid sel) (selMinR sel) (selMinC sel)
              (selMaxR sel) (selMaxC sel) (q'.1, q'.2) _).1]
        · by_cases hanch : pc0.1 = ((selMid sel).1, (selMid sel).2.1)
          · rw [if_pos hanch]
            have hanch' : (pc0.1.1, pc0.1.2).1 = selMinR sel
                ∧ (pc0.1.1, pc0.1.2).2 = selMinC sel :=
              ⟨congrArg Prod.fst hanch, congrArg Prod.snd hanch⟩
            exact mergeAssignCell_anchor tl (selMid sel) (selMinR sel) (selMinC sel)
              (selMaxR sel) (selMaxC sel) (pc0.1.1, pc0.1.2) _ hanch'
          · rw [if_neg hanch]
            have hanch' : ¬ ((pc0.1.1, pc0.1.2).1 = selMinR sel
                ∧ (pc0.1.1, pc0.1.2).2 = selMinC sel) := by
              intro hco
              exact hanch (Prod.ext hco.1 hco.2)
            exact mergeAssignCell_member tl (selMid sel) (selMinR sel) (selMinC sel)
              (selMaxR sel) (selMaxC sel) (pc0.1.1, pc0.1.2) _ hanch'
      · -- a member of a surviving group, fully outside the rectangle
        rw [hTFout pc0.1 pc0.2 hpq] at hpm ⊢
        obtain ⟨hpe, hpm0, hnot⟩ := dissolveStepCell_keep hpm
        rw [hpe]
        obtain ⟨g1, g2, g3, g4, g5, g6⟩ := hgrp pc0 hpc0 m hpm0
        refine ⟨g1, g2, g3, g4, ?_, g6⟩
        intro q' hq'
        have hq'1 : 1 ≤ q'.1 := Nat.le_trans g2 (mem_rectPositions.mp hq').1
        have hq'2 : 1 ≤ q'.2 := Nat.le_trans g3 (mem_rectPositions.mp hq').2.2.1
        obtain ⟨cl', hcl', hclm⟩ := getAt_map_mergeId_eq (g5 q' hq')
        have hq'out : q' ∉ selRect sel := hsurv q' cl' m hcl' hclm hnot
        rw [getAt_mapGrid2 _ _ hq'1 hq'2, hcl']
        show some ((mergeTransform tl (midsAt g.tableRows (selRect sel)) sel
            q'.1 q'.2 cl').mergeId) = some (some m)
        rw [hTFout q' cl' hq'out,
          if_neg (show ¬ hasMidIn (midsAt g.tableRows (selRect sel)) cl' = true from by
            rw [hasMidIn_some_not_mem hclm hnot]; simp), hclm]

/-! ## Every reachable grid satisfies the invariant bundle -/

theorem reachable_goodGrid {g : TableState} (h : ReachableTable g) : goodGrid g := by
  induction h with
  | created rows cols g hc => exact goodGrid_create hc
  | rowAdded g' hr ih => exact goodGrid_addRow ih
  | colAdded g' hr ih => exact goodGrid_addColumn ih
  | valueChanged g' r c v hr ih => exact goodGrid_valueChange r c v ih
  | checkboxToggled g' r c hr ih => exact goodGrid_checkboxChange r c ih
  | mergedOp g' sel hnd hin hr ih => exact goodGrid_mergeCells hnd hin ih
  | unmergedOp g' sel hr ih => exact goodGrid_unmergeCells sel ih
  | blankedOp g' sel hr ih => exact goodGrid_blankCells sel ih
  | unblankedOp g' sel hr ih => exact goodGrid_unblankCells sel ih

/-! ## C4 — the dimension invariant -/

/-- Claim C4 as stated: after any operation — including an external
document load — `rowCount` equals the number of rows and `columnCount`
the number of cells of every row. -/
def dimensionSpecClaim : Prop :=
  (∀ g : TableState, ReachableTable g → dimInv g)
    ∧ (∀ (td : TableData) (g : TableState), loadTableData td = some g → dimInv g)

/-- A document whose declared dimensions disagree with its row array. -/
def demoBadDoc : TableData :=
  { rows := 2, columns := 2,
    tableRows := [{ id := 1, rowIndex := 1, cells := [defaultCell 1 1] }] }

/-- C4, refuted: the load effect accepts `demoBadDoc` (`rows = 2`,
`columns = 2`, but a single one-cell row) and installs a state whose
`rowCount` is 2 while only one table row exists. -/
theorem dimensionClaim_false : ¬ dimensionSpecClaim := by
  intro h
  have hload : loadTableData demoBadDoc
      = some { rowCount := 2, columnCount := 2,
               tableRows := mapIdxFrom validateRow 1 demoBadDoc.tableRows } := by
    unfold loadTableData
    rw [if_pos (show 0 < demoBadDoc.rows ∧ 0 < demoBadDoc.columns from ⟨by decide, by decide⟩)]
    rfl
  obtain ⟨hl, -⟩ := h.2 demoBadDoc _ hload
  rw [mapIdxFrom_length] at hl
  exact absurd hl (by decide)

/-- C4, amended: every grid reachable through the component's own
operations (creation, add row/column, value and checkbox edits, merge,
unmerge, blank, unblank) satisfies the dimension invariant; the external
document load, however, installs the declared dimensions without checking
them against the row array, so a dimension-inconsistent document violates
the invariant (see `dimensionClaim_false`). -/
theorem dimension_amended : ∀ g : TableState, ReachableTable g → dimInv g :=
  fun _ h => goodGrid_dimInv (reachable_goodGrid h)

theorem dimension_amended_witness : ReachableTable demoTable22 ∧ dimInv demoTable22 :=
  ⟨ReachableTable.created 2 2 demoTable22 rfl,
   dimension_amended demoTable22 (ReachableTable.created 2 2 demoTable22 rfl)⟩

/-! ## C7 — the single-anchor invariant -/

theorem getAt_some_col_lt {rows : List TableRow} {C : Nat}
    (hclen : ∀ row ∈ rows, row.cells.length = C) {r c : Nat} {cl : CellObject}
    (h : getAt rows r c = some cl) : c - 1 < C := by
  unfold getAt at h
  cases hrow : rows[r - 1]? with
  | none => rw [hrow] at h; exact Option.noConfusion h
  | some row =>
    rw [hrow] at h
    replace h : row.cells[c - 1]? = some cl := h
    obtain ⟨hlt, -⟩ := List.getElem?_eq_some_iff.mp h
    rw [← hclen row (List.getElem?_mem hrow)]
    exact hlt

/-- The member cells of merge group `m`, in grid order. -/
def groupMembers (rows : List TableRow) (m : MergeGroupId) : List CellObject :=
  (cellsOf rows).filter (fun cl => cl.mergeId == some m)

/-- Exactly one member of each present merge group is visible, the
visible anchor's span product equals the group size, and every hidden
member has spans 1. -/
def anchorProperty (g : TableState) : Prop :=
  ∀ m : MergeGroupId, groupMembers g.tableRows m ≠ [] →
    (groupMembers g.tableRows m).countP (fun cl => !cl.isHidden) = 1
    ∧ ∀ cl ∈ groupMembers g.tableRows m,
        (cl.isHidden = false →
          cl.rowSpan * cl.colSpan = (groupMembers g.tableRows m).length)
        ∧ (cl.isHidden = true → cl.rowSpan = 1 ∧ cl.colSpan = 1)

theorem goodGrid_anchorProperty {g : TableState} (h : goodGrid g) : anchorProperty g := by
  obtain ⟨hlen, hclen, hpos, hspan, hvcb, hgrp⟩ := h
  intro m hne
  have hgm_eq : groupMembers g.tableRows m
      = ((cellsOfPos g.tableRows).filter (fun pc => pc.2.mergeId == some m)).map Prod.snd := by
    unfold groupMembers
    rw [cellsOf_eq_map_snd, List.filter_map]
    rfl
  have hmem_iff : ∀ cl : CellObject, cl ∈ groupMembers g.tableRows m ↔
      ∃ pc : (Nat × Nat) × CellObject, pc ∈ cellsOfPos g.tableRows
        ∧ pc.2.mergeId = some m ∧ pc.2 = cl := by
    intro cl
    rw [hgm_eq, List.mem_map]
    constructor
    · rintro ⟨pc, hpc, rfl⟩
      rw [List.mem_filter] at hpc
      exact ⟨pc, hpc.1, beq_iff_eq.mp hpc.2, rfl⟩
    · rintro ⟨pc, hpc, hm, rfl⟩
      refine ⟨pc, ?_, rfl⟩
      rw [List.mem_filter]
      exact ⟨hpc, beq_iff_eq.mpr hm⟩
  have hex : ∃ cl, cl ∈ groupMembers g.tableRows m := by
    cases hgm : groupMembers g.tableRows m with
    | nil => exact absurd hgm hne
    | cons a l => exact ⟨a, hgm ▸ List.mem_cons_self a l⟩
  obtain ⟨cl0, hcl0⟩ := hex
  obtain ⟨pc0, hpc0, hpc0m, -⟩ := (hmem_iff cl0).mp hcl0
  obtain ⟨-, hm1, hm2, hposn, hfull, -⟩ := hgrp pc0 hpc0 m hpc0m
  have hr12 : m.1 ≤ m.2.2.1 ∧ m.2.1 ≤ m.2.2.2 := by
    obtain ⟨ha, hb', hc', hd⟩ := mem_rectPositions.mp hposn
    exact ⟨Nat.le_trans ha hb', Nat.le_trans hc' hd⟩
  have hcorner_in : ((m.2.2.1, m.2.2.2) : Nat × Nat)
      ∈ rectPositions m.1 m.2.1 m.2.2.1 m.2.2.2 :=
    mem_rectPositions.mpr ⟨hr12.1, Nat.le_refl _, hr12.2, Nat.le_refl _⟩
  obtain ⟨ccl, hccl, -⟩ := getAt_map_mergeId_eq (hfull _ hcorner_in)
  have hmaxR_le : m.2.2.1 ≤ g.rowCount := by
    have := getAt_some_row_lt hccl
    rw [hlen] at this
    omega
  have hmaxC_le : m.2.2.2 ≤ g.columnCount := by
    have := getAt_some_col_lt hclen hccl
    omega
  have hanchor_in : ((m.1, m.2.1) : Nat × Nat) ∈ rectPositions m.1 m.2.1 m.2.2.1 m.2.2.2 :=
    mem_rectPositions.mpr ⟨Nat.le_refl _, hr12.1, Nat.le_refl _, hr12.2⟩
  obtain ⟨acl, hacl, haclm⟩ := getAt_map_mergeId_eq (hfull _ hanchor_in)
  have haclmem : ((m.1, m.2.1), acl) ∈ cellsOfPos g.tableRows :=
    mem_cellsOfPos.mpr ⟨hm1, hm2, hacl⟩
  have hacl_anchor := hgrp ((m.1, m.2.1), acl) haclmem m haclm
  have hacl_vis : acl.isHidden = false ∧ acl.rowSpan = m.2.2.1 - m.1 + 1
      ∧ acl.colSpan = m.2.2.2 - m.2.1 + 1 := by
    have h6 := hacl_anchor.2.2.2.2.2
    rw [if_pos rfl] at h6
    exact h6
  have hcarrier_iff : ∀ pc : (Nat × Nat) × CellObject, pc ∈ cellsOfPos g.tableRows →
      (pc.2.mergeId = some m ↔ pc.1 ∈ rectPositions m.1 m.2.1 m.2.2.1 m.2.2.2) := by
    intro pc hpc
    constructor
    · intro hm
      exact (hgrp pc hpc m hm).2.2.2.1
    · intro hq
      obtain ⟨cl', hcl', hclm⟩ := getAt_map_mergeId_eq (hfull _ hq)
      have hget := (mem_cellsOfPos.mp hpc).2.2
      rw [hget] at hcl'
      rw [← Option.some.inj hcl'] at hclm
      exact hclm
  have hcount : (cellsOfPos g.tableRows).countP (fun pc => pc.2.mergeId == some m)
      = (m.2.2.1 - m.1 + 1) * (m.2.2.2 - m.2.1 + 1) := by
    have hcongr : ∀ pc ∈ cellsOfPos g.tableRows,
        (pc.2.mergeId == some m)
          = (fun p : Nat × Nat =>
              decide (m.1 ≤ p.1 ∧ p.1 ≤ m.2.2.1 ∧ m.2.1 ≤ p.2 ∧ p.2 ≤ m.2.2.2)) pc.1 := by
      intro pc hpc
      show (pc.2.mergeId == some m)
        = decide (m.1 ≤ pc.1.1 ∧ pc.1.1 ≤ m.2.2.1 ∧ m.2.1 ≤ pc.1.2 ∧ pc.1.2 ≤ m.2.2.2)
      rw [Bool.eq_iff_iff, beq_iff_eq, decide_eq_true_eq]
      exact Iff.trans (hcarrier_iff pc hpc) mem_rectPositions
    calc (cellsOfPos g.tableRows).countP (fun pc => pc.2.mergeId == some m)
        = (cellsOfPos g.tableRows).countP
            (fun pc => (fun p : Nat × Nat =>
              decide (m.1 ≤ p.1 ∧ p.1 ≤ m.2.2.1 ∧ m.2.1 ≤ p.2 ∧ p.2 ≤ m.2.2.2)) pc.1) :=
          List.countP_congr (fun pc hpc => by rw [hcongr pc hpc])
      _ = ((cellsOfPos g.tableRows).map Prod.fst).countP
            (fun p : Nat × Nat =>
              decide (m.1 ≤ p.1 ∧ p.1 ≤ m.2.2.1 ∧ m.2.1 ≤ p.2 ∧ p.2 ≤ m.2.2.2)) := by
          rw [List.countP_map]
          rfl
      _ = (rectPositions 1 1 g.rowCount g.columnCount).countP
            (fun p : Nat × Nat =>
              decide (m.1 ≤ p.1 ∧ p.1 ≤ m.2.2.1 ∧ m.2.1 ≤ p.2 ∧ p.2 ≤ m.2.2.2)) := by
          rw [cellsOfPos_map_fst ⟨hlen, hclen⟩]
      _ = (m.2.2.1 - m.1 + 1) * (m.2.2.2 - m.2.1 + 1) :=
          countP_rectPositions_rect hm1 hr12.1 hmaxR_le hm2 hr12.2 hmaxC_le
  have hglen : (groupMembers g.tableRows m).length
      = (m.2.2.1 - m.1 + 1) * (m.2.2.2 - m.2.1 + 1) := by
    rw [hgm_eq, List.length_map, ← List.countP_eq_length_filter, hcount]
  have hcount1 : (cellsOfPos g.tableRows).countP
      (fun pc => !pc.2.isHidden && (pc.2.mergeId == some m)) = 1 := by
    have hcongr : ∀ pc ∈ cellsOfPos g.tableRows,
        (!pc.2.isHidden && (pc.2.mergeId == some m))
          = (fun p : Nat × Nat =>
              decide (m.1 ≤ p.1 ∧ p.1 ≤ m.1 ∧ m.2.1 ≤ p.2 ∧ p.2 ≤ m.2.1)) pc.1 := by
      intro pc hpc
      show (!pc.2.isHidden && (pc.2.mergeId == some m))
        = decide (m.1 ≤ pc.1.1 ∧ pc.1.1 ≤ m.1 ∧ m.2.1 ≤ pc.1.2 ∧ pc.1.2 ≤ m.2.1)
      rw [Bool.eq_iff_iff, Bool.and_eq_true, beq_iff_eq, decide_eq_true_eq]
      constructor
      · rintro ⟨hvis, hm⟩
        have h6 := (hgrp pc hpc m hm).2.2.2.2.2
        by_cases hanch : pc.1 = (m.1, m.2.1)
        · have h1 : pc.1.1 = m.1 := congrArg Prod.fst hanch
          have h2 : pc.1.2 = m.2.1 := congrArg Prod.snd hanch
          omega
        · rw [if_neg hanch] at h6
          rw [h6.1] at hvis
          exact absurd hvis (by decide)
      · intro hiv
        have hanch : pc.1 = (m.1, m.2.1) := by
          have h1 : pc.1.1 = m.1 := by omega
          have h2 : pc.1.2 = m.2.1 := by omega
          exact Prod.ext h1 h2
        have hget := (mem_cellsOfPos.mp hpc).2.2
        rw [hanch] at hget
        rw [hacl] at hget
        have hpc2 : pc.2 = acl := (Option.some.inj hget).symm
        rw [hpc2, hacl_vis.1]
        exact ⟨rfl, haclm⟩
    calc (cellsOfPos g.tableRows).countP (fun pc => !pc.2.isHidden && (pc.2.mergeId == some m))
        = (cellsOfPos g.tableRows).countP
            (fun pc => (fun p : Nat × Nat =>
              decide (m.1 ≤ p.1 ∧ p.1 ≤ m.1 ∧ m.2.1 ≤ p.2 ∧ p.2 ≤ m.2.1)) pc.1) :=
          List.countP_congr (fun pc hpc => by rw [hcongr pc hpc])
      _ = ((cellsOfPos g.tableRows).map Prod.fst).countP
            (fun p : Nat × Nat =>
              decide (m.1 ≤ p.1 ∧ p.1 ≤ m.1 ∧ m.2.1 ≤ p.2 ∧ p.2 ≤ m.2.1)) := by
          rw [List.countP_map]
          rfl
      _ = (rectPositions 1 1 g.rowCount g.columnCount).countP
            (fun p : Nat × Nat =>
              decide (m.1 ≤ p.1 ∧ p.1 ≤ m.1 ∧ m.2.1 ≤ p.2 ∧ p.2 ≤ m.2.1)) := by
          rw [cellsOfPos_map_fst ⟨hlen, hclen⟩]
      _ = (m.1 - m.1 + 1) * (m.2.1 - m.2.1 + 1) :=
          countP_rectPositions_rect hm1 (Nat.le_refl _) (Nat.le_trans hr12.1 hmaxR_le)
            hm2 (Nat.le_refl _) (Nat.le_trans hr12.2 hmaxC_le)
      _ = 1 := by simp
  refine ⟨?_, ?_⟩
  · rw [hgm_eq, List.countP_map, List.countP_filter]
    exact hcount1
  · intro cl hcl
    obtain ⟨pc, hpc, hpcm, hpc2⟩ := (hmem_iff cl).mp hcl
    obtain ⟨-, -, -, -, -, g6⟩ := hgrp pc hpc m hpcm
    subst hpc2
    by_cases hanch : pc.1 = (m.1, m.2.1)
    · rw [if_pos hanch] at g6
      constructor
      · intro hvis
        rw [g6.2.1, g6.2.2, hglen]
      · intro hhid
        rw [g6.1] at hhid
        exact absurd hhid (by decide)
    · rw [if_neg hanch] at g6
      constructor
      · intro hvis
        rw [g6.1] at hvis
        exact absurd hvis (by decide)
      · intro hhid
        exact ⟨g6.2.1, g6.2.2⟩

/-- C7: after every merge and every unmerge performed on a reachable grid
(with the selection a duplicate-free set of in-grid addresses, as the
selection machine guarantees), every merge group present in the grid has
exactly one visible member, the visible member's `rowSpan × colSpan`
equals the group's member count, and every other member is hidden with
`rowSpan = colSpan = 1`. -/
theorem singleAnchor_holds : ∀ (g : TableState) (sel : List (Nat × Nat)),
    ReachableTable g → sel.Nodup → (∀ p ∈ sel, inTable g p) →
    anchorProperty (mergeCells g sel).state ∧ anchorProperty (unmergeCells g sel) := by
  intro g sel hreach hnd hin
  exact ⟨goodGrid_anchorProperty (goodGrid_mergeCells hnd hin (reachable_goodGrid hreach)),
    goodGrid_anchorProperty (goodGrid_unmergeCells sel (reachable_goodGrid hreach))⟩

theorem singleAnchor_holds_witness :
    (([(1, 1), (1, 2)] : List (Nat × Nat)).Nodup
      ∧ (∀ p ∈ ([(1, 1), (1, 2)] : List (Nat × Nat)), inTable demoTable22 p))
    ∧ (anchorProperty (mergeCells demoTable22 [(1, 1), (1, 2)]).state
       ∧ anchorProperty (unmergeCells demoTable22 [(1, 1), (1, 2)])) :=
  ⟨⟨by decide, by decide⟩,
   singleAnchor_holds demoTable22 [(1, 1), (1, 2)]
     (ReachableTable.created 2 2 demoTable22 rfl) (by decide) (by decide)⟩

/-! ## C6 — merge-group field consistency -/

/-- Claim C6 as stated: after every edit operation, cells sharing a merge
group agree on value, checked, blocked and blank. -/
def mergeGroupSpecClaim : Prop :=
  ∀ g : TableState, ReachableTable g →
    ∀ a ∈ cellsOf g.tableRows, ∀ b ∈ cellsOf g.tableRows, ∀ m : MergeGroupId,
      a.mergeId = some m → b.mergeId = some m →
      a.sequenceNumber = b.sequenceNumber ∧ a.checked = b.checked
        ∧ a.isBlocked = b.isBlocked ∧ a.isBlank = b.isBlank

/-- Blank `(1,1)` of the fresh 2×2 grid, then merge the first row. -/
def demoBlankMerged : TableState :=
  (mergeCells (blankCells demoTable22 [(1, 1)]).1 [(1, 1), (1, 2)]).state

/-- The anchor of `demoBlankMerged`'s group: blanked before the merge. -/
def demoCellBlankAnchor : CellObject :=
  { id := (1, 1), sequenceNumber := "-", isBlocked := false, isMerged := true,
    mergeId := some (1, 1, 1, 2), isBlank := true, rowIndex := 1, columnIndex := 1,
    checked := false, rowSpan := 1, colSpan := 2, isHidden := false }

/-- The hidden member of `demoBlankMerged`'s group: never blanked. -/
def demoCellBlankMate : CellObject :=
  { id := (1, 2), sequenceNumber := "-", isBlocked := false, isMerged := true,
    mergeId := some (1, 1, 1, 2), isBlank := false, rowIndex := 1, columnIndex := 2,
    checked := false, rowSpan := 1, colSpan := 1, isHidden := true }

/-- C6, refuted: `mergeCells` copies value/checked/blocked from the
top-left cell but not `isBlank`, so blanking one cell and then merging
gives a group whose members disagree on `isBlank`. -/
theorem mergeGroupClaim_false : ¬ mergeGroupSpecClaim := by
  intro h
  have hreach : ReachableTable demoBlankMerged :=
    ReachableTable.mergedOp _ [(1, 1), (1, 2)] (by decide) (by decide)
      (ReachableTable.blankedOp _ [(1, 1)] (ReachableTable.created 2 2 demoTable22 rfl))
  have hc := h demoBlankMerged hreach demoCellBlankAnchor (by decide)
    demoCellBlankMate (by decide) (1, 1, 1, 2) (by decide) (by decide)
  exact absurd hc.2.2.2 (by decide)

/-- C6, amended: on every reachable grid, cells sharing a merge group
agree on value (`sequenceNumber`), `checked` and `isBlocked`; `isBlank`
is not kept uniform by `mergeCells` (see `mergeGroupClaim_false`), though
`blankCells`/`unblankCells` themselves do propagate it group-wide. -/
theorem mergeGroupVCB_amended : ∀ g : TableState, ReachableTable g →
    ∀ a ∈ cellsOf g.tableRows, ∀ b ∈ cellsOf g.tableRows, ∀ m : MergeGroupId,
      a.mergeId = some m → b.mergeId = some m →
      a.sequenceNumber = b.sequenceNumber ∧ a.checked = b.checked
        ∧ a.isBlocked = b.isBlocked := by
  intro g hreach a ha b hb m ham hbm
  obtain ⟨-, -, -, -, hvcb, -⟩ := reachable_goodGrid hreach
  rw [cellsOf_eq_map_snd, List.mem_map] at ha hb
  obtain ⟨pa, hpa, rfl⟩ := ha
  obtain ⟨pb, hpb, rfl⟩ := hb
  exact hvcb pa hpa pb hpb m ham hbm

theorem mergeGroupVCB_amended_witness :
    (demoCellBlankAnchor ∈ cellsOf demoBlankMerged.tableRows
      ∧ demoCellBlankMate ∈ cellsOf demoBlankMerged.tableRows
      ∧ demoCellBlankAnchor.mergeId = some (1, 1, 1, 2)
      ∧ demoCellBlankMate.mergeId = some (1, 1, 1, 2))
    ∧ (demoCellBlankAnchor.sequenceNumber = demoCellBlankMate.sequenceNumber
       ∧ demoCellBlankAnchor.checked = demoCellBlankMate.checked
       ∧ demoCellBlankAnchor.isBlocked = demoCellBlankMate.isBlocked) :=
  ⟨⟨by decide, by decide, by decide, by decide⟩,
   mergeGroupVCB_amended demoBlankMerged
     (ReachableTable.mergedOp _ [(1, 1), (1, 2)] (by decide) (by decide)
       (ReachableTable.blankedOp _ [(1, 1)] (ReachableTable.created 2 2 demoTable22 rfl)))
     demoCellBlankAnchor (by decide) demoCellBlankMate (by decide) (1, 1, 1, 2)
     (by decide) (by decide)⟩

/-! ## C2 — round-trip serialization -/

theorem reachable_dims {g : TableState} (h : ReachableTable g) :
    1 ≤ g.rowCount ∧ 1 ≤ g.columnCount := by
  induction h with
  | created rows cols g hc =>
    unfold createNewTable at hc
    by_cases h0 : rows = 0 ∨ cols = 0
    · rw [if_pos h0] at hc; exact Option.noConfusion hc
    · rw [if_neg h0] at hc
      injection hc with hg
      subst hg
      constructor
      · show 1 ≤ rows
        omega
      · show 1 ≤ cols
        omega
  | rowAdded g' hr ih =>
    unfold addRow
    by_cases hcap : g'.rowCount + 1 > 100
    · rw [if_pos hcap]; exact ih
    · rw [if_neg hcap]
      refine ⟨?_, ih.2⟩
      show 1 ≤ g'.rowCount + 1
      omega
  | colAdded g' hr ih =>
    unfold addColumn
    by_cases hcap : g'.columnCount + 1 > 100
    · rw [if_pos hcap]; exact ih
    · rw [if_neg hcap]
      refine ⟨ih.1, ?_⟩
      show 1 ≤ g'.columnCount + 1
      omega
  | valueChanged g' r c v hr ih =>
    rw [handleCellValueChange_eq]
    exact ih
  | checkboxToggled g' r c hr ih =>
    rw [handleCheckboxChange_eq]
    cases hfc : findCellRows g'.tableRows r c with
    | none => exact ih
    | some cell => exact ih
  | mergedOp g' sel hnd hin hr ih =>
    rw [mergeCells_eq g' sel]
    by_cases h2 : sel.length < 2
    · rw [if_pos h2]; exact ih
    rw [if_neg h2]
    by_cases harea : sel.length ≠ selArea sel
    · rw [if_pos harea]; exact ih
    rw [if_neg harea]
    cases htl : findCellRows ((selRect sel).foldl mergeDissolveStep g'.tableRows)
        (selMinR sel) (selMinC sel) with
    | none => exact ih
    | some tl => exact ih
  | unmergedOp g' sel hr ih =>
    unfold unmergeCells
    by_cases h0 : sel.length = 0
    · rw [if_pos h0]; exact ih
    rw [if_neg h0]
    by_cases hm : collectMergeIds g'.tableRows sel = []
    · rw [if_pos hm]; exact ih
    · rw [if_neg hm]; exact ih
  | blankedOp g' sel hr ih =>
    unfold blankCells
    by_cases h0 : sel.length = 0
    · rw [if_pos h0]; exact ih
    · rw [if_neg h0]; exact ih
  | unblankedOp g' sel hr ih =>
    unfold unblankCells
    by_cases h0 : sel.length = 0
    · rw [if_pos h0]; exact ih
    · rw [if_neg h0]; exact ih

theorem validateCell_id {ri ci : Nat} {cl : CellObject} (hid : cl.id = (ri, ci))
    (hri : cl.rowIndex = ri) (hci : cl.columnIndex = ci)
    (hseq : ¬ cl.sequenceNumber = "") (hrs : ¬ cl.rowSpan = 0) (hcs : ¬ cl.colSpan = 0) :
    validateCell ri ci cl = cl := by
  unfold validateCell
  rw [if_neg hseq, if_neg hrs, if_neg hcs, ← hid, ← hri, ← hci]

theorem validateCells_id {ri : Nat} : ∀ (cells : List CellObject) (k : Nat),
    cellsPosFrom ri k cells = true →
    (∀ cl ∈ cells, ¬ cl.sequenceNumber = "" ∧ ¬ cl.rowSpan = 0 ∧ ¬ cl.colSpan = 0) →
    mapIdxFrom (fun ci cell => validateCell ri ci cell) k cells = cells := by
  intro cells
  induction cells with
  | nil => intro k _ _; rfl
  | cons cl rest ih =>
    intro k hpos hcond
    obtain ⟨hid, hri, hci, hrest⟩ := cellsPosFrom_cons hpos
    obtain ⟨hseq, hrs, hcs⟩ := hcond cl (List.mem_cons_self cl rest)
    simp only [mapIdxFrom]
    rw [validateCell_id hid hri hci hseq hrs hcs,
      ih (k + 1) hrest (fun c hc => hcond c (List.mem_cons_of_mem _ hc))]

theorem validateRows_id : ∀ (rs : List TableRow) (k : Nat),
    rowsPosFrom k rs = true →
    (∀ row ∈ rs, ∀ cl ∈ row.cells,
      ¬ cl.sequenceNumber = "" ∧ ¬ cl.rowSpan = 0 ∧ ¬ cl.colSpan = 0) →
    mapIdxFrom validateRow k rs = rs := by
  intro rs
  induction rs with
  | nil => intro k _ _; rfl
  | cons row rest ih =>
    intro k hpos hcond
    obtain ⟨hid, hri, hcells, hrest⟩ := rowsPosFrom_cons hpos
    simp only [mapIdxFrom]
    have hrow : validateRow k row = row := by
      unfold validateRow
      rw [validateCells_id row.cells 1 hcells
        (fun cl hcl => hcond row (List.mem_cons_self row rest) cl hcl)]
      cases row with
      | mk rid rri rcells =>
        have hid' : rid = k := hid
        have hri' : rri = k := hri
        rw [hid', hri']
    rw [hrow, ih (k + 1) hrest (fun r hr => hcond r (List.mem_cons_of_mem _ hr))]

/-- Claim C2 as stated: deserializing the serialized form of any
reachable grid gives back the grid, field for field. -/
def roundTripSpecClaim : Prop :=
  ∀ g : TableState, ReachableTable g → loadTableData (saveToBackendDoc g) = some g

/-- A reachable 1×1 grid whose only cell's value is the empty string. -/
def demoEmptyValue : TableState :=
  handleCellValueChange
    { rowCount := 1, columnCount := 1, tableRows := makeTableRows 1 1 } 1 1 ""

/-- C2, refuted: setting a cell's value to the empty string is a
legitimate edit, but the load effect's `sequenceNumber || "-"` rewrites
it to `"-"`, so the round trip is not the identity. -/
theorem roundTripClaim_false : ¬ roundTripSpecClaim := by
  intro h
  have hreach : ReachableTable demoEmptyValue :=
    ReachableTable.valueChanged _ 1 1 ""
      (ReachableTable.created 1 1 _ rfl)
  exact absurd (h demoEmptyValue hreach) (by decide)

/-- C2, amended: the round trip is the identity on every reachable grid
in which no cell's value is the empty string; a reachable grid with an
empty value is rewritten by the load defaults (see `roundTripClaim_false`). -/
theorem roundTrip_amended : ∀ g : TableState, ReachableTable g →
    (∀ cl ∈ cellsOf g.tableRows, ¬ cl.sequenceNumber = "") →
    loadTableData (saveToBackendDoc g) = some g := by
  intro g hreach hseq
  obtain ⟨hlen, hclen, hpos, hspan, -, -⟩ := reachable_goodGrid hreach
  have hdims := reachable_dims hreach
  have hcond : ∀ row ∈ g.tableRows, ∀ cl ∈ row.cells,
      ¬ cl.sequenceNumber = "" ∧ ¬ cl.rowSpan = 0 ∧ ¬ cl.colSpan = 0 := by
    intro row hrow cl hcl
    have hmem : cl ∈ cellsOf g.tableRows := by
      unfold cellsOf
      rw [List.mem_flatMap]
      exact ⟨row, hrow, hcl⟩
    have hsp : 1 ≤ cl.rowSpan ∧ 1 ≤ cl.colSpan := by
      rw [cellsOf_eq_map_snd, List.mem_map] at hmem
      obtain ⟨pc, hpc, rfl⟩ := hmem
      exact hspan pc hpc
    have hmem2 : cl ∈ cellsOf g.tableRows := by
      unfold cellsOf
      rw [List.mem_flatMap]
      exact ⟨row, hrow, hcl⟩
    exact ⟨hseq cl hmem2, by omega, by omega⟩
  unfold saveToBackendDoc loadTableData
  rw [if_pos (show (0 : Nat) < g.rowCount ∧ (0 : Nat) < g.columnCount by
    constructor <;> omega)]
  rw [show mapIdxFrom validateRow 1
      ({ rows := g.rowCount, columns := g.columnCount,
         tableRows := g.tableRows } : TableData).tableRows = g.tableRows from
    validateRows_id g.tableRows 1 hpos hcond]

theorem roundTrip_amended_witness :
    (ReachableTable demoTable22
      ∧ (∀ cl ∈ cellsOf demoTable22.tableRows, ¬ cl.sequenceNumber = ""))
    ∧ loadTableData (saveToBackendDoc demoTable22) = some demoTable22 :=
  ⟨⟨ReachableTable.created 2 2 demoTable22 rfl, by decide⟩,
   roundTrip_amended demoTable22 (ReachableTable.created 2 2 demoTable22 rfl) (by decide)⟩

/-! ## C3 — merge admission -/

/-- Claim C3 as stated: over every grid and every selection, the merge
succeeds exactly on gap-free rectangles of size at least 2, and every
failed admission surfaces the validation alert and leaves grid and
selection unchanged. -/
def mergeAdmissionSpecClaim : Prop :=
  ∀ (g : TableState) (sel : List (Nat × Nat)),
    ((mergeCells g sel).merged = true ↔ 2 ≤ sel.length ∧ sel.length = selArea sel)
    ∧ ((mergeCells g sel).merged = false →
        (mergeCells g sel).alerted = true ∧ (mergeCells g sel).state = g
          ∧ (mergeCells g sel).selection = sel)

/-- C3, refuted: a single-cell selection fails the admission but returns
silently (`if (selectedCells.size < 2) return`) — no alert is shown. -/
theorem mergeAdmissionClaim_false : ¬ mergeAdmissionSpecClaim := by
  intro h
  have hc := (h demoTable22 [(1, 1)]).2 (by decide)
  exact absurd hc.1 (by decide)

/-- C3, amended: on a reachable grid with a duplicate-free in-grid
selection, the merge mutates iff the selection has at least two cells and
exactly fills its bounding rectangle; the alert fires iff the selection
has at least two cells but does not fill the rectangle (a sub-2
selection fails silently); when no merge happens the grid and the
selection are left unchanged, and a successful merge collapses the
selection to the rectangle's top-left corner. -/
theorem mergeAdmission_amended : ∀ (g : TableState) (sel : List (Nat × Nat)),
    ReachableTable g → sel.Nodup → (∀ p ∈ sel, inTable g p) →
    ((mergeCells g sel).merged = true ↔ 2 ≤ sel.length ∧ sel.length = selArea sel)
    ∧ ((mergeCells g sel).alerted = true ↔ 2 ≤ sel.length ∧ sel.length ≠ selArea sel)
    ∧ ((mergeCells g sel).merged = false →
        (mergeCells g sel).state = g ∧ (mergeCells g sel).selection = sel)
    ∧ ((mergeCells g sel).merged = true →
        (mergeCells g sel).selection = [(selMinR sel, selMinC sel)]) := by
  intro g sel hreach hnd hin
  obtain ⟨hlen, hclen, hpos, -, -, -⟩ := reachable_goodGrid hreach
  by_cases h2 : sel.length < 2
  · rw [mergeCells_eq g sel, if_pos h2]
    refine ⟨?_, ?_, ?_, ?_⟩
    · constructor
      · intro hf; exact Bool.noConfusion hf
      · intro hco; omega
    · constructor
      · intro hf; exact Bool.noConfusion hf
      · intro hco; omega
    · intro _; exact ⟨rfl, rfl⟩
    · intro hf; exact Bool.noConfusion hf
  by_cases harea : sel.length ≠ selArea sel
  · rw [mergeCells_eq g sel, if_neg h2, if_pos harea]
    refine ⟨?_, ?_, ?_, ?_⟩
    · constructor
      · intro hf; exact Bool.noConfusion hf
      · intro hco; exact absurd hco.2 harea
    · constructor
      · intro _; exact ⟨by omega, harea⟩
      · intro _; rfl
    · intro _; exact ⟨rfl, rfl⟩
    · intro hf; exact Bool.noConfusion hf
  have hne : sel ≠ [] := by
    intro he
    rw [he] at h2
    exact h2 (by decide)
  obtain ⟨hb1, hb2, hb3, hb4, hb5, hb6⟩ := sel_bounds hne hin
  have hsome : ∃ tl, findCellRows ((selRect sel).foldl mergeDissolveStep g.tableRows)
      (selMinR sel) (selMinC sel) = some tl := by
    rw [foldl_mergeDissolveStep, findCellRows_dissolveSet,
      findCellRows_posInv hpos, if_pos ⟨hb1, hb4⟩]
    obtain ⟨cl, hcl⟩ := getAt_isSome_of_dims hlen hclen hb1 (Nat.le_trans hb3 hb2)
      hb4 (Nat.le_trans hb6 hb5)
    rw [hcl]
    exact ⟨_, rfl⟩
  obtain ⟨tl, htl⟩ := hsome
  obtain ⟨-, hm, ha, hs⟩ := mergeCells_success_rows hpos h2 harea htl
  refine ⟨?_, ?_, ?_, fun _ => hs⟩
  · constructor
    · intro _
      constructor
      · omega
      · omega
    · intro _; exact hm
  · rw [ha]
    constructor
    · intro hf; exact Bool.noConfusion hf
    · intro hco
      exact absurd (by omega : sel.length = selArea sel) hco.2
  · intro hf
    rw [hm] at hf
    exact Bool.noConfusion hf

theorem mergeAdmission_amended_witness :
    (([(1, 1), (2, 1)] : List (Nat × Nat)).Nodup
      ∧ (∀ p ∈ ([(1, 1), (2, 1)] : List (Nat × Nat)), inTable demoTable22 p))
    ∧ ((mergeCells demoTable22 [(1, 1), (2, 1)]).merged = true ↔
        2 ≤ ([(1, 1), (2, 1)] : List (Nat × Nat)).length
          ∧ ([(1, 1), (2, 1)] : List (Nat × Nat)).length = selArea [(1, 1), (2, 1)])
    ∧ ((mergeCells demoTable22 [(1, 1), (2, 1)]).alerted = true ↔
        2 ≤ ([(1, 1), (2, 1)] : List (Nat × Nat)).length
          ∧ ([(1, 1), (2, 1)] : List (Nat × Nat)).length ≠ selArea [(1, 1), (2, 1)])
    ∧ ((mergeCells demoTable22 [(1, 1), (2, 1)]).merged = false →
        (mergeCells demoTable22 [(1, 1), (2, 1)]).state = demoTable22
          ∧ (mergeCells demoTable22 [(1, 1), (2, 1)]).selection = [(1, 1), (2, 1)])
    ∧ ((mergeCells demoTable22 [(1, 1), (2, 1)]).merged = true →
        (mergeCells demoTable22 [(1, 1), (2, 1)]).selection
          = [(selMinR [(1, 1), (2, 1)], selMinC [(1, 1), (2, 1)])]) :=
  ⟨⟨by decide, by decide⟩,
   mergeAdmission_amended demoTable22 [(1, 1), (2, 1)]
     (ReachableTable.created 2 2 demoTable22 rfl) (by decide) (by decide)⟩
